import Mathlib

/-!
# Empathy account manager

A shallow embedding of `libempathy/empathy-account-manager.c`: the private
structure of the manager becomes a record, every callback and public function
becomes a function on that record, and the GLib hash table of tracked accounts
becomes an association list whose order stands for the (unspecified) iteration
order of the table.  Signals emitted by the manager, property notifications,
signal connections and presence requests sent to accounts are appended to a
log kept in the record, oldest first.  The signals of the account objects
reach the manager the way GObject dispatches them: a handler runs once for
each time it has been connected.  The elapsed-time label of
`src/empathy-call-window.c` is embedded as a function of the two clock
readings.
-/

namespace Empathy

/-! ## Collaborator types -/

/-- Modelled from the spec: the presence types (available, away, busy, offline
and so on).  The enumeration is `TpConnectionPresenceType` of telepathy-glib,
listed in the order of its numeric values (`UNSET` is 0). -/
inductive TpConnectionPresenceType
  | UNSET
  | OFFLINE
  | AVAILABLE
  | AWAY
  | EXTENDED_AWAY
  | HIDDEN
  | BUSY
  | UNKNOWN
  | ERROR
  deriving DecidableEq, Repr

/-- Modelled from the spec: the connection status of an account (connected,
connecting, disconnected), the `TpConnectionStatus` enumeration of
telepathy-glib. -/
inductive TpConnectionStatus
  | CONNECTED
  | CONNECTING
  | DISCONNECTED
  deriving DecidableEq, Repr

/-- Modelled from the spec: an `EmpathyAccount` object as the manager sees it
(`empathy-account.c` is not part of the sources).  `handle` is the identity of
the object (its address), the other fields are the properties the manager
reads with `g_object_get` and the accessor functions. -/
structure EmpathyAccount where
  handle : Nat
  unique_name : String
  ready : Bool
  enabled : Bool
  connection : Option Nat
  connection_status : TpConnectionStatus
  presence : TpConnectionPresenceType
  status : Option String
  status_message : Option String
  deriving DecidableEq, Repr

/-- Modelled from the spec: `empathy_account_new` lives in `empathy-account.c`,
which is not part of the sources.  A new handle is bound to the given path and
has fetched nothing yet: it is not ready, has no connection and no presence. -/
def empathy_account_new (handle : Nat) (path : String) : EmpathyAccount :=
  { handle := handle
    unique_name := path
    ready := false
    enabled := false
    connection := none
    connection_status := TpConnectionStatus.DISCONNECTED
    presence := TpConnectionPresenceType.UNSET
    status := none
    status_message := none }

/-- Modelled from the spec: `tp_connection_presence_type_cmp_availability`
belongs to telepathy-glib.  It compares two presence types by an availability
rank and answers like `strcmp`; the rank table is the parameter
`availability`. -/
def tp_connection_presence_type_cmp_availability
    (availability : TpConnectionPresenceType → Nat)
    (p1 p2 : TpConnectionPresenceType) : Int :=
  if availability p1 < availability p2 then -1
  else if availability p1 > availability p2 then 1
  else 0

/-- Modelled from the spec: a concrete availability rank, the one of
telepathy-glib: available > busy > away > extended away > hidden > offline >
error > unknown > unset.  Only the sample runs use it; the general statements
hold for every rank table. -/
def tp_availability : TpConnectionPresenceType → Nat
  | TpConnectionPresenceType.UNSET => 0
  | TpConnectionPresenceType.UNKNOWN => 1
  | TpConnectionPresenceType.ERROR => 2
  | TpConnectionPresenceType.OFFLINE => 3
  | TpConnectionPresenceType.HIDDEN => 4
  | TpConnectionPresenceType.EXTENDED_AWAY => 5
  | TpConnectionPresenceType.AWAY => 6
  | TpConnectionPresenceType.BUSY => 7
  | TpConnectionPresenceType.AVAILABLE => 8

/-- Modelled from the spec: the `tp_strdiff` helper of telepathy-glib, true when
the two strings differ, a null string being equal only to a null string. -/
def tp_strdiff (a b : Option String) : Bool :=
  a != b

/-! ## Observable effects -/

/-- What the manager does to the outside world: the signals of
`empathy_account_manager_class_init`, the `ready` property notification,
`g_signal_connect` on an account, and `empathy_account_request_presence`.
Accounts and connections are named by their handles; a null account pointer is
`none`. -/
inductive Effect
  | account_created (account : Nat)
  | account_deleted (account : Nat)
  | account_enabled (account : Nat)
  | account_disabled (account : Nat)
  | account_changed (account : Nat)
  | account_connection_changed (account : Nat) (reason : Nat)
      (actual : TpConnectionStatus) (previous : TpConnectionStatus)
  | global_presence_changed (presence : TpConnectionPresenceType)
      (status : Option String) (status_message : Option String)
  | new_connection (connection : Nat)
  | notify_ready
  | signal_connect (account : Nat) (detailed_signal : String) (handler : String)
  | request_presence (account : Option Nat) (type : TpConnectionPresenceType)
      (status : Option String) (message : Option String)
  deriving DecidableEq, Repr

/-! ## The hash table of tracked accounts -/

/-- The table `unique name -> account`. -/
abbrev AccountTable := List (String × EmpathyAccount)

/-- The `g_hash_table_lookup` call with `g_str_equal` keys. -/
def g_hash_table_lookup (t : AccountTable) (key : String) : Option EmpathyAccount :=
  (t.find? (fun e => e.1 == key)).map Prod.snd

/-- The `g_hash_table_insert` call: the value stored under an existing key is
replaced, a new key gets a new entry. -/
def g_hash_table_insert (t : AccountTable) (key : String) (value : EmpathyAccount) :
    AccountTable :=
  if t.any (fun e => e.1 == key) then
    t.map (fun e => if e.1 == key then (e.1, value) else e)
  else
    t ++ [(key, value)]

/-- The `g_hash_table_remove` call. -/
def g_hash_table_remove (t : AccountTable) (key : String) : AccountTable :=
  t.filter (fun e => !(e.1 == key))

/-- The `g_hash_table_size` call. -/
def g_hash_table_size (t : AccountTable) : Nat :=
  t.length

/-- The values met by a `GHashTableIter` loop, in iteration order. -/
def g_hash_table_values (t : AccountTable) : List EmpathyAccount :=
  t.map Prod.snd

/-! ## Manager state -/

/-- The `EmpathyAccountManagerPriv` structure, with the log of effects and the
next unused account handle.  The two counters are C `int`s: every value the
code stores in them is inside the range of `int` (see `int_wrap`). -/
structure EmpathyAccountManager where
  accounts : AccountTable
  connected : Int
  connecting : Int
  dispose_run : Bool
  ready : Bool
  global_account : Option Nat
  global_presence : TpConnectionPresenceType
  global_status : Option String
  global_status_message : Option String
  desired_presence : TpConnectionPresenceType
  desired_status : Option String
  desired_status_message : Option String
  next_handle : Nat
  log : List Effect
  deriving DecidableEq, Repr

/-- Append one effect to the log. -/
def EmpathyAccountManager.emit (s : EmpathyAccountManager) (e : Effect) :
    EmpathyAccountManager :=
  { s with log := s.log ++ [e] }

/-- The state left by `empathy_account_manager_init`: the private structure is
zero-filled by GObject, then the counters and the global presence are set and
the empty table is created. -/
def empathy_account_manager_init : EmpathyAccountManager :=
  { accounts := []
    connected := 0
    connecting := 0
    dispose_run := false
    ready := false
    global_account := none
    global_presence := TpConnectionPresenceType.UNSET
    global_status := none
    global_status_message := none
    desired_presence := TpConnectionPresenceType.UNSET
    desired_status := none
    desired_status_message := none
    next_handle := 1
    log := [] }

/-! ## Callbacks -/

/-- The `emp_account_connection_cb` callback. -/
def emp_account_connection_cb (s : EmpathyAccountManager) (account : EmpathyAccount) :
    EmpathyAccountManager :=
  match account.connection with
  | some connection => s.emit (Effect.new_connection connection)
  | none => s

/-- The `emp_account_enabled_cb` callback. -/
def emp_account_enabled_cb (s : EmpathyAccountManager) (account : EmpathyAccount) :
    EmpathyAccountManager :=
  if account.enabled then s.emit (Effect.account_enabled account.handle)
  else s.emit (Effect.account_disabled account.handle)

/-- The largest value of a C `int`, `G_MAXINT`. -/
def G_MAXINT : Int := 2147483647

/-- The smallest value of a C `int`, `G_MININT`. -/
def G_MININT : Int := -2147483648

/-- The value a 32-bit C `int` holds after an arithmetic result `x` is stored
in it: results outside the range wrap around modulo 2^32 (two's complement).
C leaves signed overflow undefined; wrapping is what the machines the program
is built for do. -/
def int_wrap (x : Int) : Int :=
  (x + 2147483648) % 4294967296 - 2147483648

/-- The `emp_account_status_changed_cb` callback.  The counters `connecting`
and `connected` are C `int`s, so `priv->connecting--` and `priv->connected++`
are computed in `int` (`int_wrap`). -/
def emp_account_status_changed_cb (s : EmpathyAccountManager) (account : EmpathyAccount)
    (old new : TpConnectionStatus) (reason : Nat) : EmpathyAccountManager :=
  let s1 :=
    match old with
    | TpConnectionStatus.CONNECTING => { s with connecting := int_wrap (s.connecting - 1) }
    | TpConnectionStatus.CONNECTED => { s with connected := int_wrap (s.connected - 1) }
    | _ => s
  let s2 :=
    match new with
    | TpConnectionStatus.CONNECTING => { s1 with connecting := int_wrap (s1.connecting + 1) }
    | TpConnectionStatus.CONNECTED => { s1 with connected := int_wrap (s1.connected + 1) }
    | _ => s1
  s2.emit (Effect.account_connection_changed account.handle reason new old)

/-- One turn of the loop of `emp_account_manager_update_global_presence`: the
pair is the local variables `account` and `presence`. -/
def update_global_presence_loop (availability : TpConnectionPresenceType → Nat)
    (best : Option EmpathyAccount × TpConnectionPresenceType) (a : EmpathyAccount) :
    Option EmpathyAccount × TpConnectionPresenceType :=
  if tp_connection_presence_type_cmp_availability availability a.presence best.2 > 0 then
    (some a, a.presence)
  else
    best

/-- The `emp_account_manager_update_global_presence` function (full recompute). -/
def emp_account_manager_update_global_presence
    (availability : TpConnectionPresenceType → Nat) (s : EmpathyAccountManager) :
    EmpathyAccountManager :=
  let best := (g_hash_table_values s.accounts).foldl
    (update_global_presence_loop availability) (none, TpConnectionPresenceType.OFFLINE)
  match best.1 with
  | none =>
    { s with global_account := none, global_status := none, global_status_message := none }
  | some account =>
    { s with
      global_account := some account.handle
      global_presence := account.presence
      global_status := account.status
      global_status_message := account.status_message }

/-- The `emp_account_presence_changed_cb` callback. -/
def emp_account_presence_changed_cb (availability : TpConnectionPresenceType → Nat)
    (s : EmpathyAccountManager) (account : EmpathyAccount)
    (presence : TpConnectionPresenceType) (status status_message : Option String) :
    EmpathyAccountManager :=
  if tp_connection_presence_type_cmp_availability availability presence s.global_presence > 0 then
    let s1 := { s with
      global_account := some account.handle
      global_presence := presence
      global_status := status
      global_status_message := status_message }
    s1.emit (Effect.global_presence_changed s1.global_presence s1.global_status
      s1.global_status_message)
  else if s.global_account = some account.handle then
    let s1 := emp_account_manager_update_global_presence availability s
    s1.emit (Effect.global_presence_changed s1.global_presence s1.global_status
      s1.global_status_message)
  else
    s

/-- The `emp_account_removed_cb` callback. -/
def emp_account_removed_cb (s : EmpathyAccountManager) (account : EmpathyAccount) :
    EmpathyAccountManager :=
  let s1 := { s with accounts := g_hash_table_remove s.accounts account.unique_name }
  s1.emit (Effect.account_deleted account.handle)

/-- The `empathy_account_manager_check_ready` function. -/
def empathy_account_manager_check_ready (s : EmpathyAccountManager) : EmpathyAccountManager :=
  if s.ready then s
  else if (g_hash_table_values s.accounts).all (fun account => account.ready) then
    { s with ready := true }.emit Effect.notify_ready
  else s

/-- The `emp_account_ready_cb` callback. -/
def emp_account_ready_cb (s : EmpathyAccountManager) (account : EmpathyAccount) :
    EmpathyAccountManager :=
  if !account.ready then s
  else
    let s1 := s.emit (Effect.account_created account.handle)
    let s2 := s1.emit
      (Effect.signal_connect account.handle "notify::connection" "emp_account_connection_cb")
    let s3 := s2.emit
      (Effect.signal_connect account.handle "notify::enabled" "emp_account_enabled_cb")
    let s4 := s3.emit
      (Effect.signal_connect account.handle "status-changed" "emp_account_status_changed_cb")
    let s5 := s4.emit
      (Effect.signal_connect account.handle "presence-changed" "emp_account_presence_changed_cb")
    let s6 := s5.emit
      (Effect.signal_connect account.handle "removed" "emp_account_removed_cb")
    empathy_account_manager_check_ready s6

/-- The `account_manager_add_account` function: the new state and the handle
returned. -/
def account_manager_add_account (s : EmpathyAccountManager) (path : String) :
    EmpathyAccountManager × EmpathyAccount :=
  match g_hash_table_lookup s.accounts path with
  | some account => (s, account)
  | none =>
    let account := empathy_account_new s.next_handle path
    let s1 := { s with
      accounts := g_hash_table_insert s.accounts path account
      next_handle := s.next_handle + 1 }
    (s1.emit (Effect.signal_connect account.handle "notify::ready" "emp_account_ready_cb"),
      account)

/-- The `account_manager_got_all_cb` callback: `error` is the error of the
reply, `valid_accounts` the `ValidAccounts` property. -/
def account_manager_got_all_cb (s : EmpathyAccountManager) (valid_accounts : List String)
    (error : Option String) : EmpathyAccountManager :=
  match error with
  | some _ => s
  | none =>
    empathy_account_manager_check_ready
      (valid_accounts.foldl (fun st name => (account_manager_add_account st name).1) s)

/-- The `account_validity_changed_cb` callback. -/
def account_validity_changed_cb (s : EmpathyAccountManager) (path : String) (valid : Bool) :
    EmpathyAccountManager :=
  if !valid then s else (account_manager_add_account s path).1

/-! ## Public functions -/

/-- The `empathy_account_manager_is_ready` function. -/
def empathy_account_manager_is_ready (s : EmpathyAccountManager) : Bool :=
  s.ready

/-- The `empathy_account_manager_get_connected_accounts` function. -/
def empathy_account_manager_get_connected_accounts (s : EmpathyAccountManager) : Int :=
  s.connected

/-- The `empathy_account_manager_get_connecting_accounts` function. -/
def empathy_account_manager_get_connecting_accounts (s : EmpathyAccountManager) : Int :=
  s.connecting

/-- The `empathy_account_manager_get_count` function.  The `guint` size is
returned as an `int`; a table of live account objects stays far below the
range of `int`, so the conversion is the identity. -/
def empathy_account_manager_get_count (s : EmpathyAccountManager) : Int :=
  (g_hash_table_size s.accounts : Int)

/-- The `empathy_account_manager_get_account` function. -/
def empathy_account_manager_get_account (s : EmpathyAccountManager) (connection : Option Nat) :
    Option EmpathyAccount :=
  (g_hash_table_values s.accounts).find? (fun account => connection == account.connection)

/-- The `empathy_account_manager_lookup` function. -/
def empathy_account_manager_lookup (s : EmpathyAccountManager) (unique_name : String) :
    Option EmpathyAccount :=
  g_hash_table_lookup s.accounts unique_name

/-- The `empathy_account_manager_dup_accounts` function. -/
def empathy_account_manager_dup_accounts (s : EmpathyAccountManager) : List EmpathyAccount :=
  g_hash_table_values s.accounts

/-- The `empathy_account_manager_dup_connections` function: each connection
found is put in front of the list built so far. -/
def empathy_account_manager_dup_connections (s : EmpathyAccountManager) : List Nat :=
  (g_hash_table_values s.accounts).foldl
    (fun ret account =>
      match account.connection with
      | some connection => connection :: ret
      | none => ret)
    []

/-- The `empathy_account_manager_remove` function, whose body is empty. -/
def empathy_account_manager_remove (s : EmpathyAccountManager) (_account : EmpathyAccount) :
    EmpathyAccountManager :=
  s

/-- The `empathy_account_manager_request_global_presence` function. -/
def empathy_account_manager_request_global_presence (s : EmpathyAccountManager)
    (type : TpConnectionPresenceType) (status message : Option String) :
    EmpathyAccountManager :=
  let s1 := (g_hash_table_values s.accounts).foldl
    (fun st account =>
      if account.ready then
        st.emit (Effect.request_presence (some account.handle) type status message)
      else st)
    s
  let s2 := { s1 with desired_presence := type }
  let s3 :=
    if tp_strdiff s2.desired_status status then { s2 with desired_status := status } else s2
  if tp_strdiff s3.desired_status_message message then
    { s3 with desired_status_message := message }
  else s3

/-- The `empathy_account_manager_get_global_presence` function: the returned
type with the two strings written through the out parameters. -/
def empathy_account_manager_get_global_presence (s : EmpathyAccountManager) :
    TpConnectionPresenceType × Option String × Option String :=
  (s.global_presence, s.global_status, s.global_status_message)

/-! ## Account creation -/

/-- The part of a `GSimpleAsyncResult` used by the manager: the error set by
`g_simple_async_result_set_from_error`, the account handle stored as the
operation result, and how often `g_simple_async_result_complete` ran. -/
structure GSimpleAsyncResult where
  error : Option String
  op_res : Option Nat
  completed : Nat
  deriving DecidableEq, Repr

/-- The `empathy_account_manager_created_ready_cb` callback. -/
def empathy_account_manager_created_ready_cb (account : EmpathyAccount)
    (result : GSimpleAsyncResult) : GSimpleAsyncResult :=
  if !account.ready then result
  else { result with op_res := some account.handle, completed := result.completed + 1 }

/-- The `empathy_account_manager_created_cb` callback. -/
def empathy_account_manager_created_cb (s : EmpathyAccountManager) (account_path : String)
    (error : Option String) (result : GSimpleAsyncResult) :
    EmpathyAccountManager × GSimpleAsyncResult :=
  match error with
  | some e => (s, { result with error := some e, completed := result.completed + 1 })
  | none =>
    let added := account_manager_add_account s account_path
    if added.2.ready then
      (added.1, empathy_account_manager_created_ready_cb added.2 result)
    else
      (added.1.emit (Effect.signal_connect added.2.handle "notify::ready"
        "empathy_account_manager_created_ready_cb"), result)

/-- The `empathy_account_manager_create_account_finish` function: the new
state, the returned account and the error written through the out parameter. -/
def empathy_account_manager_create_account_finish (s : EmpathyAccountManager)
    (result : GSimpleAsyncResult) : EmpathyAccountManager × Option Nat × Option String :=
  match result.error with
  | some e => (s, none, some e)
  | none =>
    (s.emit (Effect.request_presence result.op_res s.desired_presence s.desired_status
      s.desired_status_message), result.op_res, none)

/-! ## Events

The manager is driven by callbacks.  An event of this section is one run of a
callback: it names a tracked account by its unique name; the account object
has already changed when its signal reaches the manager, so an event first
writes the change into the object and then runs the callback on it, once.
How often the handlers of a signal really run, and the signals of account
objects that have left the table, are the matter of the section on signal
dispatch below. -/

/-- What reaches the manager from outside. -/
inductive Event
  | validity_changed (path : String) (valid : Bool)
  | got_all (valid_accounts : List String) (error : Option String)
  | account_ready (name : String) (ready : Bool)
  | account_connection (name : String) (connection : Option Nat)
  | account_enabled (name : String) (enabled : Bool)
  | account_status_changed (name : String) (new : TpConnectionStatus) (reason : Nat)
  | account_presence_changed (name : String) (presence : TpConnectionPresenceType)
      (status : Option String) (status_message : Option String)
  | account_removed (name : String)
  | request_global_presence (type : TpConnectionPresenceType)
      (status : Option String) (message : Option String)
  | created (account_path : String) (error : Option String) (result : GSimpleAsyncResult)
  | create_account_finish (result : GSimpleAsyncResult)
  | remove (name : String)
  deriving DecidableEq, Repr

/-- Modelled from the spec: an account object changing its own properties
(`empathy-account.c` is not part of the sources).  The object tracked under
`name` is replaced by `f` of it. -/
def account_update (t : AccountTable) (name : String) (f : EmpathyAccount → EmpathyAccount) :
    AccountTable :=
  t.map (fun e => if e.1 == name then (e.1, f e.2) else e)

/-- Modelled from the spec: an account object taking a new presence, which it
does before it emits `presence-changed` with the same three values. -/
def account_set_presence (presence : TpConnectionPresenceType)
    (status status_message : Option String) (a : EmpathyAccount) : EmpathyAccount :=
  { a with presence := presence, status := status, status_message := status_message }

/-- Modelled from the spec: one run of `callback` for a signal of the account
tracked under `name`, after the object changed by `f`.  A name that is not in
the table stands for no tracked account and nothing runs. -/
def account_signal (s : EmpathyAccountManager) (name : String)
    (f : EmpathyAccount → EmpathyAccount)
    (callback : EmpathyAccountManager → EmpathyAccount → EmpathyAccountManager) :
    EmpathyAccountManager :=
  match g_hash_table_lookup s.accounts name with
  | none => s
  | some account => callback { s with accounts := account_update s.accounts name f } (f account)

/-- One event handled by the manager: one run of the callback it stands for. -/
def account_manager_step (availability : TpConnectionPresenceType → Nat)
    (s : EmpathyAccountManager) : Event → EmpathyAccountManager
  | Event.validity_changed path valid => account_validity_changed_cb s path valid
  | Event.got_all valid_accounts error => account_manager_got_all_cb s valid_accounts error
  | Event.account_ready name ready =>
    account_signal s name (fun a => { a with ready := ready }) emp_account_ready_cb
  | Event.account_connection name connection =>
    account_signal s name (fun a => { a with connection := connection })
      emp_account_connection_cb
  | Event.account_enabled name enabled =>
    account_signal s name (fun a => { a with enabled := enabled }) emp_account_enabled_cb
  | Event.account_status_changed name new reason =>
    account_signal s name (fun a => { a with connection_status := new })
      (fun st a =>
        match g_hash_table_lookup s.accounts name with
        | some before => emp_account_status_changed_cb st a before.connection_status new reason
        | none => st)
  | Event.account_presence_changed name presence status status_message =>
    account_signal s name (account_set_presence presence status status_message)
      (fun st a => emp_account_presence_changed_cb availability st a presence status
        status_message)
  | Event.account_removed name => account_signal s name id emp_account_removed_cb
  | Event.request_global_presence type status message =>
    empathy_account_manager_request_global_presence s type status message
  | Event.created account_path error result =>
    (empathy_account_manager_created_cb s account_path error result).1
  | Event.create_account_finish result =>
    (empathy_account_manager_create_account_finish s result).1
  | Event.remove name =>
    match g_hash_table_lookup s.accounts name with
    | some account => empathy_account_manager_remove s account
    | none => s

/-- A sequence of events handled in order. -/
def account_manager_run (availability : TpConnectionPresenceType → Nat)
    (s : EmpathyAccountManager) (events : List Event) : EmpathyAccountManager :=
  events.foldl (account_manager_step availability) s

/-! ## Signal dispatch

Whether and how often a callback runs is decided by GObject: when an object
emits a signal, every handler connected to that signal of that object runs
once.  The manager connects `emp_account_ready_cb` in
`account_manager_add_account` and the five other handlers in
`emp_account_ready_cb`, at every ready notification that finds the account
ready; no handler is ever disconnected, also not when the account leaves the
table.  The connections made so far are the `Effect.signal_connect` entries of
the log.  An account object is named by its handle and may emit signals
whether it is in the table or not. -/

/-- The signals of an account object the manager connects a handler to, with
the arguments the handler receives besides the object. -/
inductive AccountSignal
  | notify_ready
  | notify_connection
  | notify_enabled
  | status_changed (old new : TpConnectionStatus) (reason : Nat)
  | presence_changed (presence : TpConnectionPresenceType) (status : Option String)
      (status_message : Option String)
  | removed
  deriving DecidableEq, Repr

/-- The detailed signal name the manager passes to `g_signal_connect`. -/
def AccountSignal.detailed_signal : AccountSignal → String
  | AccountSignal.notify_ready => "notify::ready"
  | AccountSignal.notify_connection => "notify::connection"
  | AccountSignal.notify_enabled => "notify::enabled"
  | AccountSignal.status_changed _ _ _ => "status-changed"
  | AccountSignal.presence_changed _ _ _ => "presence-changed"
  | AccountSignal.removed => "removed"

/-- The handler the manager connects to the signal.  The handler
`empathy_account_manager_created_ready_cb`, which
`empathy_account_manager_created_cb` connects to `notify::ready` as well, acts
on the result object of the creation only and is left out of the dispatch. -/
def AccountSignal.handler : AccountSignal → String
  | AccountSignal.notify_ready => "emp_account_ready_cb"
  | AccountSignal.notify_connection => "emp_account_connection_cb"
  | AccountSignal.notify_enabled => "emp_account_enabled_cb"
  | AccountSignal.status_changed _ _ _ => "emp_account_status_changed_cb"
  | AccountSignal.presence_changed _ _ _ => "emp_account_presence_changed_cb"
  | AccountSignal.removed => "emp_account_removed_cb"

/-- One run of the handler of the signal, for the emitting object `account`. -/
def AccountSignal.callback (availability : TpConnectionPresenceType → Nat)
    (account : EmpathyAccount) : AccountSignal → EmpathyAccountManager → EmpathyAccountManager
  | AccountSignal.notify_ready, s => emp_account_ready_cb s account
  | AccountSignal.notify_connection, s => emp_account_connection_cb s account
  | AccountSignal.notify_enabled, s => emp_account_enabled_cb s account
  | AccountSignal.status_changed old new reason, s =>
    emp_account_status_changed_cb s account old new reason
  | AccountSignal.presence_changed presence status status_message, s =>
    emp_account_presence_changed_cb availability s account presence status status_message
  | AccountSignal.removed, s => emp_account_removed_cb s account

/-- How many times the handler of the signal is connected to the account
object: once for each `g_signal_connect` call made so far, the manager never
disconnecting a handler. -/
def handler_connections (s : EmpathyAccountManager) (account : Nat) (signal : AccountSignal) :
    Nat :=
  s.log.count (Effect.signal_connect account signal.detailed_signal signal.handler)

/-- Modelled from the spec: the table holds pointers to the account objects
(`empathy-account.c` is not part of the sources), so the state of an object is
what the table shows for it.  The entry of the object with the handle of
`account`, if there is one, now reads as `account`. -/
def object_update (t : AccountTable) (account : EmpathyAccount) : AccountTable :=
  t.map (fun e => if e.2.handle == account.handle then (e.1, account) else e)

/-- The handler run `n` times in a row. -/
def run_handlers (handler : EmpathyAccountManager → EmpathyAccountManager) :
    Nat → EmpathyAccountManager → EmpathyAccountManager
  | 0, s => s
  | n + 1, s => run_handlers handler n (handler s)

/-- Modelled from the spec: the emission of a signal by an account object, as
GObject dispatches it.  The object, tracked or not, is in state `account` when
it emits; the handler of the manager runs once for each connection made before
the emission. -/
def account_emits (availability : TpConnectionPresenceType → Nat) (s : EmpathyAccountManager)
    (account : EmpathyAccount) (signal : AccountSignal) : EmpathyAccountManager :=
  run_handlers (signal.callback availability account)
    (handler_connections s account.handle signal)
    { s with accounts := object_update s.accounts account }

/-- What happens to the manager: replies and signals of the account service,
signals of account objects, and calls of the public functions. -/
inductive Occurrence
  | validity_changed (path : String) (valid : Bool)
  | got_all (valid_accounts : List String) (error : Option String)
  | signal (account : EmpathyAccount) (signal : AccountSignal)
  | request_global_presence (type : TpConnectionPresenceType)
      (status : Option String) (message : Option String)
  | created (account_path : String) (error : Option String) (result : GSimpleAsyncResult)
  | create_account_finish (result : GSimpleAsyncResult)
  | remove (account : EmpathyAccount)
  deriving DecidableEq, Repr

/-- One occurrence handled by the manager. -/
def account_manager_dispatch (availability : TpConnectionPresenceType → Nat)
    (s : EmpathyAccountManager) : Occurrence → EmpathyAccountManager
  | Occurrence.validity_changed path valid => account_validity_changed_cb s path valid
  | Occurrence.got_all valid_accounts error => account_manager_got_all_cb s valid_accounts error
  | Occurrence.signal account signal => account_emits availability s account signal
  | Occurrence.request_global_presence type status message =>
    empathy_account_manager_request_global_presence s type status message
  | Occurrence.created account_path error result =>
    (empathy_account_manager_created_cb s account_path error result).1
  | Occurrence.create_account_finish result =>
    (empathy_account_manager_create_account_finish s result).1
  | Occurrence.remove account => empathy_account_manager_remove s account

/-- A sequence of occurrences handled in order. -/
def account_manager_history (availability : TpConnectionPresenceType → Nat)
    (s : EmpathyAccountManager) (history : List Occurrence) : EmpathyAccountManager :=
  history.foldl (account_manager_dispatch availability) s

/-! ## Notions used by the statements -/

/-- The keys of the table, in iteration order. -/
def table_keys (t : AccountTable) : List String :=
  t.map Prod.fst

/-- How often the `ready` property notification has been emitted so far. -/
def ready_notifications (s : EmpathyAccountManager) : Nat :=
  s.log.count Effect.notify_ready

/-- Neither the ready flag nor the number of `ready` notifications changed. -/
def ReadyFrame (s s' : EmpathyAccountManager) : Prop :=
  s'.ready = s.ready ∧ ready_notifications s' = ready_notifications s

/-- Between two states the ready flag either stayed as it was, with no
notification, or went from false to true with exactly one notification. -/
def ReadyStep (s s' : EmpathyAccountManager) : Prop :=
  ReadyFrame s s' ∨
    (s.ready = false ∧ s'.ready = true ∧ ready_notifications s' = ready_notifications s + 1)

/-- The cached global presence: leader, type, status and message. -/
def cached_snapshot (s : EmpathyAccountManager) :
    Option Nat × TpConnectionPresenceType × Option String × Option String :=
  (s.global_account, s.global_presence, s.global_status, s.global_status_message)

/-- The local variables `account` and `presence` of
`emp_account_manager_update_global_presence` when its loop over the table ends. -/
def global_presence_scan (availability : TpConnectionPresenceType → Nat) (t : AccountTable) :
    Option EmpathyAccount × TpConnectionPresenceType :=
  (g_hash_table_values t).foldl (update_global_presence_loop availability)
    (none, TpConnectionPresenceType.OFFLINE)

/-- The full-scan oracle of the specification: leader, type, status and message
found by a scan of the whole table for the most available presence; with no
account above offline the answer is offline with no leader and no strings. -/
def full_scan_snapshot (availability : TpConnectionPresenceType → Nat) (t : AccountTable) :
    Option Nat × TpConnectionPresenceType × Option String × Option String :=
  match global_presence_scan availability t with
  | (none, presence) => (none, presence, none, none)
  | (some account, _) =>
    (some account.handle, account.presence, account.status, account.status_message)

/-- The cached leader is a tracked account, the cached type, status and message
are the ones of that account, and no tracked account outranks the cached type. -/
def SnapshotConsistent (availability : TpConnectionPresenceType → Nat)
    (s : EmpathyAccountManager) : Prop :=
  (∃ e ∈ s.accounts, s.global_account = some e.2.handle ∧ s.global_presence = e.2.presence ∧
    s.global_status = e.2.status ∧ s.global_status_message = e.2.status_message) ∧
  (∀ e ∈ s.accounts, availability e.2.presence ≤ availability s.global_presence)

instance SnapshotConsistent.decidable (availability : TpConnectionPresenceType → Nat)
    (s : EmpathyAccountManager) : Decidable (SnapshotConsistent availability s) := by
  unfold SnapshotConsistent
  infer_instance

/-- The handles of the tracked accounts, in iteration order. -/
def table_handles (t : AccountTable) : List Nat :=
  t.map (fun e => e.2.handle)

/-- The table as the manager builds it: distinct keys, distinct account objects,
every account stored under its own unique name, every handle already handed
out. -/
def TableWellFormed (s : EmpathyAccountManager) : Prop :=
  (table_keys s.accounts).Nodup ∧ (table_handles s.accounts).Nodup ∧
    ∀ e ∈ s.accounts, e.2.unique_name = e.1 ∧ e.2.handle < s.next_handle

instance TableWellFormed.decidable (s : EmpathyAccountManager) :
    Decidable (TableWellFormed s) := by
  unfold TableWellFormed
  infer_instance

/-- The desired presence: type, status and message. -/
def desired_presence_triple (s : EmpathyAccountManager) :
    TpConnectionPresenceType × Option String × Option String :=
  (s.desired_presence, s.desired_status, s.desired_status_message)

/-- The `g_simple_async_result_new` call of
`empathy_account_manager_create_account_async`: a result with no error and no
operation result, not completed yet. -/
def g_simple_async_result_new : GSimpleAsyncResult :=
  { error := none, op_res := none, completed := 0 }

/-- The presence requests a call of
`empathy_account_manager_request_global_presence` owes: one for each ready
account of the table, in iteration order. -/
def presence_requests (t : AccountTable) (type : TpConnectionPresenceType)
    (status message : Option String) : List Effect :=
  ((g_hash_table_values t).filter (fun a => a.ready)).map
    (fun a => Effect.request_presence (some a.handle) type status message)

/-- The loop of `empathy_account_manager_request_global_presence` over the
accounts `l`, started in state `s`. -/
def request_presence_loop (type : TpConnectionPresenceType) (status message : Option String)
    (s : EmpathyAccountManager) (l : List EmpathyAccount) : EmpathyAccountManager :=
  l.foldl
    (fun st account =>
      if account.ready then
        st.emit (Effect.request_presence (some account.handle) type status message)
      else st)
    s

/-- Whether the event is a call of
`empathy_account_manager_request_global_presence`. -/
def Event.requests_global_presence : Event → Bool
  | Event.request_global_presence _ _ _ => true
  | _ => false

/-- How many tracked accounts have the given connection status. -/
def count_status (t : AccountTable) (status : TpConnectionStatus) : Nat :=
  ((g_hash_table_values t).filter (fun a => a.connection_status == status)).length

/-- The two counters agree with the table: each one is the number of tracked
accounts in its status. -/
def CountersMatch (s : EmpathyAccountManager) : Prop :=
  s.connected = (count_status s.accounts TpConnectionStatus.CONNECTED : Int) ∧
    s.connecting = (count_status s.accounts TpConnectionStatus.CONNECTING : Int)

instance CountersMatch.decidable (s : EmpathyAccountManager) : Decidable (CountersMatch s) := by
  unfold CountersMatch
  infer_instance

/-- The cached leader is none or the handle of a tracked account. -/
def LeaderTracked (s : EmpathyAccountManager) : Prop :=
  ∀ h, s.global_account = some h → h ∈ table_handles s.accounts

instance LeaderTracked.decidable (s : EmpathyAccountManager) : Decidable (LeaderTracked s) :=
  match hg : s.global_account with
  | none => isTrue (fun h hh => by rw [hg] at hh; cases hh)
  | some g =>
    if hm : g ∈ table_handles s.accounts then
      isTrue (fun h hh => by rw [hg] at hh; cases hh; exact hm)
    else
      isFalse (fun hl => hm (hl g hg))

/-- Neither the two counters nor the cached leader changed. -/
def CoreFrame (s s' : EmpathyAccountManager) : Prop :=
  s'.connected = s.connected ∧ s'.connecting = s.connecting ∧
    s'.global_account = s.global_account

/-- Whether the account object is in the table. -/
def object_tracked (s : EmpathyAccountManager) (account : EmpathyAccount) : Bool :=
  s.accounts.any (fun e => e.2.handle == account.handle)

/-- Whether the object still has the unique name the table knows it by: the
unique name of an account object never changes. -/
def object_keeps_name (s : EmpathyAccountManager) (account : EmpathyAccount) : Bool :=
  s.accounts.all (fun e => e.2.handle != account.handle || e.2.unique_name == account.unique_name)

/-- Whether the table showed the connection status `status` for the object so
far, if the object is in the table. -/
def object_had_status (s : EmpathyAccountManager) (account : EmpathyAccount)
    (status : TpConnectionStatus) : Bool :=
  s.accounts.all (fun e => e.2.handle != account.handle || e.2.connection_status == status)

/-- The conduct of the accounts that the two counters rely on.  An object
keeps its unique name.  Its connection status changes only when it emits
status-changed, with the status it had as `old` and the status it has as
`new`; such a signal comes from a tracked account whose handler is connected
exactly once (or from an untracked object with no handler connected), and the
table has no more than `G_MAXINT` accounts then.  When the removal handler
runs, the account stored under the unique name of the emitting object is
disconnected. -/
def Occurrence.keeps_counters (s : EmpathyAccountManager) : Occurrence → Bool
  | Occurrence.signal account (AccountSignal.status_changed old new reason) =>
    object_keeps_name s account && account.connection_status == new &&
      decide (s.accounts.length ≤ 2147483647) &&
      (if object_tracked s account then
        handler_connections s account.handle (AccountSignal.status_changed old new reason) == 1 &&
          object_had_status s account old
      else
        handler_connections s account.handle (AccountSignal.status_changed old new reason) == 0)
  | Occurrence.signal account AccountSignal.removed =>
    object_keeps_name s account && object_had_status s account account.connection_status &&
      (handler_connections s account.handle AccountSignal.removed == 0 ||
        (g_hash_table_lookup s.accounts account.unique_name).all
          (fun b => b.connection_status == TpConnectionStatus.DISCONNECTED))
  | Occurrence.signal account _ =>
    object_keeps_name s account && object_had_status s account account.connection_status
  | _ => true

/-- The conduct of the accounts that the cached leader relies on.  An object
keeps its unique name.  A presence-changed signal whose handler runs comes from
a tracked account.  When the removal handler runs, the account stored under the
unique name of the emitting object is not the cached leader. -/
def Occurrence.keeps_leader (s : EmpathyAccountManager) : Occurrence → Bool
  | Occurrence.signal account (AccountSignal.presence_changed presence status status_message) =>
    object_keeps_name s account &&
      (handler_connections s account.handle
          (AccountSignal.presence_changed presence status status_message) == 0 ||
        object_tracked s account)
  | Occurrence.signal account AccountSignal.removed =>
    object_keeps_name s account &&
      (handler_connections s account.handle AccountSignal.removed == 0 ||
        (g_hash_table_lookup s.accounts account.unique_name).all
          (fun b => s.global_account != some b.handle))
  | Occurrence.signal account _ => object_keeps_name s account
  | _ => true

/-- Whether every occurrence of the history, at the moment it is handled,
meets the condition `ok`. -/
def history_meets (availability : TpConnectionPresenceType → Nat)
    (ok : EmpathyAccountManager → Occurrence → Bool) :
    EmpathyAccountManager → List Occurrence → Bool
  | _, [] => true
  | s, o :: os =>
    ok s o && history_meets availability ok (account_manager_dispatch availability s o) os

/-! ## The call window timer

The status label of `src/empathy-call-window.c`. -/

/-- The `%02ld` conversion of `g_strdup_printf`: at least two characters, padded
with a zero. -/
def printf_02ld (n : Int) : String :=
  if 0 ≤ n ∧ n < 10 then "0" ++ toString n else toString n

/-- The local variables `hours`, `minutes` and `seconds` of
`call_window_update_timer`, from the seconds of the current time and of the
start time.  The C operators `/` and `%` truncate towards zero. -/
def call_window_timer_fields (now start : Int) : Int × Int × Int :=
  let time := now - start
  let seconds := time.tmod 60
  let time := time.tdiv 60
  let minutes := time.tmod 60
  let time := time.tdiv 60
  let hours := time.tmod 60
  (hours, minutes, seconds)

/-- Whether `call_window_update_timer` prints the hours. -/
def call_window_timer_shows_hours (now start : Int) : Bool :=
  (call_window_timer_fields now start).1 > 0

/-- The text `call_window_update_timer` puts on the status label. -/
def call_window_update_timer (now start : Int) : String :=
  let fields := call_window_timer_fields now start
  if fields.1 > 0 then
    "Connected  -  " ++ printf_02ld fields.1 ++ " : " ++ printf_02ld fields.2.1 ++ " : " ++
      printf_02ld fields.2.2
  else
    "Connected  -  " ++ printf_02ld fields.2.1 ++ " : " ++ printf_02ld fields.2.2

/-! ## Sample runs -/

/-- One account is announced, becomes ready and goes available. -/
def one_account_state : EmpathyAccountManager :=
  account_manager_run tp_availability empathy_account_manager_init
    [Event.validity_changed "/a" true,
     Event.account_ready "/a" true,
     Event.account_presence_changed "/a" TpConnectionPresenceType.AVAILABLE
       (some "available") (some "hi")]

/-- Two accounts are announced and become ready; the first goes available, the
second away. -/
def two_accounts_state : EmpathyAccountManager :=
  account_manager_run tp_availability empathy_account_manager_init
    [Event.validity_changed "/a" true,
     Event.validity_changed "/b" true,
     Event.account_ready "/a" true,
     Event.account_ready "/b" true,
     Event.account_presence_changed "/a" TpConnectionPresenceType.AVAILABLE
       (some "available") (some "hi"),
     Event.account_presence_changed "/b" TpConnectionPresenceType.AWAY
       (some "away") (some "back soon")]

/-- Three accounts are announced and become ready; the first goes available,
the second away, the third busy. -/
def three_accounts_state : EmpathyAccountManager :=
  account_manager_run tp_availability two_accounts_state
    [Event.validity_changed "/c" true,
     Event.account_ready "/c" true,
     Event.account_presence_changed "/c" TpConnectionPresenceType.BUSY
       (some "busy") (some "meeting")]

/-- Two accounts are announced; only the first has become ready. -/
def ready_and_pending_state : EmpathyAccountManager :=
  account_manager_run tp_availability empathy_account_manager_init
    [Event.validity_changed "/a" true,
     Event.validity_changed "/b" true,
     Event.account_ready "/a" true]

/-- A manager whose connecting counter holds the largest `int`. -/
def connecting_at_maximum_state : EmpathyAccountManager :=
  { empathy_account_manager_init with connecting := 2147483647 }

/-- The account object of `/a`, the first one created, once it is ready. -/
def account_a : EmpathyAccount :=
  { empathy_account_new 1 "/a" with ready := true }

/-- The account object of `/b`, the second one created, once it is ready. -/
def account_b : EmpathyAccount :=
  { empathy_account_new 2 "/b" with ready := true }

/-- Two accounts are announced and become ready.  `/a` connects, `/b` starts
connecting, `/a` disconnects and is removed. -/
def connect_and_remove_history : List Occurrence :=
  [Occurrence.validity_changed "/a" true,
   Occurrence.signal account_a AccountSignal.notify_ready,
   Occurrence.signal { account_a with connection_status := TpConnectionStatus.CONNECTING }
     (AccountSignal.status_changed TpConnectionStatus.DISCONNECTED
       TpConnectionStatus.CONNECTING 1),
   Occurrence.signal { account_a with connection_status := TpConnectionStatus.CONNECTED }
     (AccountSignal.status_changed TpConnectionStatus.CONNECTING TpConnectionStatus.CONNECTED 1),
   Occurrence.validity_changed "/b" true,
   Occurrence.signal account_b AccountSignal.notify_ready,
   Occurrence.signal { account_b with connection_status := TpConnectionStatus.CONNECTING }
     (AccountSignal.status_changed TpConnectionStatus.DISCONNECTED
       TpConnectionStatus.CONNECTING 1),
   Occurrence.signal account_a
     (AccountSignal.status_changed TpConnectionStatus.CONNECTED
       TpConnectionStatus.DISCONNECTED 1),
   Occurrence.signal account_a AccountSignal.removed]

/-- The account `/a` is announced, becomes ready, connects and is removed while
connected. -/
def remove_connected_history : List Occurrence :=
  [Occurrence.validity_changed "/a" true,
   Occurrence.signal account_a AccountSignal.notify_ready,
   Occurrence.signal { account_a with connection_status := TpConnectionStatus.CONNECTED }
     (AccountSignal.status_changed TpConnectionStatus.DISCONNECTED TpConnectionStatus.CONNECTED 1),
   Occurrence.signal { account_a with connection_status := TpConnectionStatus.CONNECTED }
     AccountSignal.removed]

/-- The account `/a` is announced, becomes ready, not ready and ready again, and
then starts connecting. -/
def ready_twice_history : List Occurrence :=
  [Occurrence.validity_changed "/a" true,
   Occurrence.signal account_a AccountSignal.notify_ready,
   Occurrence.signal { account_a with ready := false } AccountSignal.notify_ready,
   Occurrence.signal account_a AccountSignal.notify_ready,
   Occurrence.signal { account_a with connection_status := TpConnectionStatus.CONNECTING }
     (AccountSignal.status_changed TpConnectionStatus.DISCONNECTED
       TpConnectionStatus.CONNECTING 1)]

/-- The account `/a` is announced and starts connecting before it has ever been
ready. -/
def never_ready_history : List Occurrence :=
  [Occurrence.validity_changed "/a" true,
   Occurrence.signal
     { empathy_account_new 1 "/a" with connection_status := TpConnectionStatus.CONNECTING }
     (AccountSignal.status_changed TpConnectionStatus.DISCONNECTED
       TpConnectionStatus.CONNECTING 1)]

/-- Two accounts are announced and become ready; `/a` goes available and `/b`
away. -/
def two_accounts_history : List Occurrence :=
  [Occurrence.validity_changed "/a" true,
   Occurrence.validity_changed "/b" true,
   Occurrence.signal account_a AccountSignal.notify_ready,
   Occurrence.signal account_b AccountSignal.notify_ready,
   Occurrence.signal
     (account_set_presence TpConnectionPresenceType.AVAILABLE (some "available") (some "hi")
       account_a)
     (AccountSignal.presence_changed TpConnectionPresenceType.AVAILABLE (some "available")
       (some "hi")),
   Occurrence.signal
     (account_set_presence TpConnectionPresenceType.AWAY (some "away") (some "back soon")
       account_b)
     (AccountSignal.presence_changed TpConnectionPresenceType.AWAY (some "away")
       (some "back soon"))]

/-- After `two_accounts_history` the account `/b`, which does not lead, is
removed. -/
def remove_follower_history : List Occurrence :=
  two_accounts_history ++
    [Occurrence.signal
      (account_set_presence TpConnectionPresenceType.AWAY (some "away") (some "back soon")
        account_b)
      AccountSignal.removed]

/-- After `two_accounts_history` the account `/a`, which leads, is removed. -/
def remove_leader_history : List Occurrence :=
  two_accounts_history ++
    [Occurrence.signal
      (account_set_presence TpConnectionPresenceType.AVAILABLE (some "available") (some "hi")
        account_a)
      AccountSignal.removed]

/-- Two accounts are announced and become ready; `/a` goes away.  `/b` is
removed; its object stays alive and then goes available. -/
def removed_account_outranks_history : List Occurrence :=
  [Occurrence.validity_changed "/a" true,
   Occurrence.validity_changed "/b" true,
   Occurrence.signal account_a AccountSignal.notify_ready,
   Occurrence.signal account_b AccountSignal.notify_ready,
   Occurrence.signal
     (account_set_presence TpConnectionPresenceType.AWAY (some "away") (some "back soon")
       account_a)
     (AccountSignal.presence_changed TpConnectionPresenceType.AWAY (some "away")
       (some "back soon")),
   Occurrence.signal account_b AccountSignal.removed,
   Occurrence.signal
     (account_set_presence TpConnectionPresenceType.AVAILABLE (some "available") (some "hi")
       account_b)
     (AccountSignal.presence_changed TpConnectionPresenceType.AVAILABLE (some "available")
       (some "hi"))]

/-! ## Lemmas on the table -/

theorem lookup_eq_none_iff (t : AccountTable) (key : String) :
    g_hash_table_lookup t key = none ↔ key ∉ table_keys t := by
  simp only [g_hash_table_lookup, table_keys, Option.map_eq_none', List.find?_eq_none,
    List.mem_map, not_exists, not_and, beq_iff_eq, Prod.forall]

theorem lookup_some_mem {t : AccountTable} {key : String} {a : EmpathyAccount}
    (h : g_hash_table_lookup t key = some a) : (key, a) ∈ t := by
  simp only [g_hash_table_lookup, Option.map_eq_some'] at h
  obtain ⟨e, he, rfl⟩ := h
  have hk := List.find?_some he
  have hm := List.mem_of_find?_eq_some he
  simp at hk
  rcases e with ⟨k, v⟩
  simp at hk
  subst hk
  exact hm

theorem insert_of_lookup_none {t : AccountTable} {key : String} (value : EmpathyAccount)
    (h : g_hash_table_lookup t key = none) :
    g_hash_table_insert t key value = t ++ [(key, value)] := by
  have hk := (lookup_eq_none_iff t key).1 h
  unfold g_hash_table_insert
  rw [if_neg]
  simp only [List.any_eq_true, not_exists, not_and]
  intro e he heq
  apply hk
  simp only [table_keys, List.mem_map]
  exact ⟨e, he, by simpa using heq⟩

theorem lookup_append_new {t : AccountTable} {key : String} (value : EmpathyAccount)
    (h : g_hash_table_lookup t key = none) :
    g_hash_table_lookup (t ++ [(key, value)]) key = some value := by
  simp only [g_hash_table_lookup, Option.map_eq_none'] at h
  simp [g_hash_table_lookup, List.find?_append, h]

/-- What `account_manager_add_account` does when the path is already tracked. -/
theorem add_account_of_some {s : EmpathyAccountManager} {path : String} {a : EmpathyAccount}
    (h : g_hash_table_lookup s.accounts path = some a) :
    account_manager_add_account s path = (s, a) := by
  simp [account_manager_add_account, h]

/-- What `account_manager_add_account` does when the path is new. -/
theorem add_account_of_none {s : EmpathyAccountManager} {path : String}
    (h : g_hash_table_lookup s.accounts path = none) :
    account_manager_add_account s path =
      (({ s with
          accounts := s.accounts ++ [(path, empathy_account_new s.next_handle path)]
          next_handle := s.next_handle + 1 } : EmpathyAccountManager).emit
        (Effect.signal_connect s.next_handle "notify::ready" "emp_account_ready_cb"),
       empathy_account_new s.next_handle path) := by
  simp [account_manager_add_account, h, insert_of_lookup_none, empathy_account_new]

theorem add_account_keys (s : EmpathyAccountManager) (path : String) :
    table_keys (account_manager_add_account s path).1.accounts =
      if path ∈ table_keys s.accounts then table_keys s.accounts
      else table_keys s.accounts ++ [path] := by
  cases h : g_hash_table_lookup s.accounts path with
  | none =>
    have hk := (lookup_eq_none_iff _ _).1 h
    rw [add_account_of_none h, if_neg hk]
    simp [table_keys, EmpathyAccountManager.emit]
  | some a =>
    have hk : path ∈ table_keys s.accounts := by
      by_contra hc
      rw [(lookup_eq_none_iff _ _).2 hc] at h
      cases h
    rw [add_account_of_some h, if_pos hk]

theorem add_account_keys_nodup (s : EmpathyAccountManager) (path : String)
    (h : (table_keys s.accounts).Nodup) :
    (table_keys (account_manager_add_account s path).1.accounts).Nodup := by
  rw [add_account_keys]
  split
  · exact h
  · rename_i hk
    exact List.Nodup.append h (List.nodup_singleton _) (by simpa using hk)

theorem add_accounts_keys (paths : List String) (s : EmpathyAccountManager)
    (h : (table_keys s.accounts).Nodup) :
    (table_keys (paths.foldl (fun st p => (account_manager_add_account st p).1) s).accounts).Nodup ∧
    (table_keys (paths.foldl (fun st p => (account_manager_add_account st p).1) s).accounts).toFinset
      = (table_keys s.accounts).toFinset ∪ paths.toFinset := by
  induction paths generalizing s with
  | nil => simp [h]
  | cons p ps ih =>
    simp only [List.foldl_cons]
    obtain ⟨h1, h2⟩ := ih (account_manager_add_account s p).1 (add_account_keys_nodup s p h)
    refine ⟨h1, ?_⟩
    rw [h2, add_account_keys]
    ext x
    by_cases hp : p ∈ table_keys s.accounts
    · simp only [if_pos hp, List.toFinset_cons, Finset.mem_union, List.mem_toFinset,
        Finset.mem_insert]
      constructor
      · rintro (h | h)
        · exact Or.inl h
        · exact Or.inr (Or.inr h)
      · rintro (h | h | h)
        · exact Or.inl h
        · exact Or.inl (h ▸ hp)
        · exact Or.inr h
    · simp only [if_neg hp, List.toFinset_cons, Finset.mem_union, List.mem_toFinset,
        Finset.mem_insert, List.mem_append, List.mem_singleton]
      tauto

/-- C4: after any sequence of `account_manager_add_account` calls on a freshly
initialised manager, `empathy_account_manager_get_count` is the number of
distinct paths of the sequence. -/
theorem get_count_add_accounts (paths : List String) :
    empathy_account_manager_get_count
      (paths.foldl (fun st p => (account_manager_add_account st p).1)
        empathy_account_manager_init) = (paths.dedup.length : Int) := by
  have hinit : (table_keys empathy_account_manager_init.accounts).Nodup := by
    simp [empathy_account_manager_init, table_keys]
  obtain ⟨h1, h2⟩ := add_accounts_keys paths empathy_account_manager_init hinit
  have hlen : (paths.foldl (fun st p => (account_manager_add_account st p).1)
      empathy_account_manager_init).accounts.length = paths.dedup.length := by
    calc _ = (table_keys (paths.foldl (fun st p => (account_manager_add_account st p).1)
              empathy_account_manager_init).accounts).length := by simp [table_keys]
      _ = (table_keys (paths.foldl (fun st p => (account_manager_add_account st p).1)
              empathy_account_manager_init).accounts).toFinset.card :=
            (List.toFinset_card_of_nodup h1).symm
      _ = paths.toFinset.card := by
            rw [h2]; simp [empathy_account_manager_init, table_keys]
      _ = paths.dedup.length := List.card_toFinset paths
  simp [empathy_account_manager_get_count, g_hash_table_size, hlen]

/-- C5: a second `account_manager_add_account` with the same path returns the
account the first call returned and leaves the whole state as the first call
left it. -/
theorem add_account_twice (s : EmpathyAccountManager) (path : String) :
    (account_manager_add_account (account_manager_add_account s path).1 path).2 =
      (account_manager_add_account s path).2 ∧
    (account_manager_add_account (account_manager_add_account s path).1 path).1 =
      (account_manager_add_account s path).1 := by
  cases h : g_hash_table_lookup s.accounts path with
  | some a =>
    rw [add_account_of_some h]
    simp [add_account_of_some h]
  | none =>
    rw [add_account_of_none h]
    have h2 := lookup_append_new (empathy_account_new s.next_handle path) h
    have h3 := add_account_of_some
      (s := ({ s with
          accounts := s.accounts ++ [(path, empathy_account_new s.next_handle path)]
          next_handle := s.next_handle + 1 } : EmpathyAccountManager).emit
        (Effect.signal_connect s.next_handle "notify::ready" "emp_account_ready_cb")) h2
    rw [h3]
    exact ⟨rfl, rfl⟩

/-! ## Status accounting -/

theorem int_wrap_range (x : Int) : G_MININT ≤ int_wrap x ∧ int_wrap x ≤ G_MAXINT := by
  unfold int_wrap G_MININT G_MAXINT
  omega

theorem int_wrap_of_range {x : Int} (h1 : G_MININT ≤ x) (h2 : x ≤ G_MAXINT) : int_wrap x = x := by
  unfold int_wrap
  unfold G_MININT at h1
  unfold G_MAXINT at h2
  omega

/-- C6, amended: for counters inside the range of a C `int` and an event whose
decrement and increment do not overflow (the counter of the old status is above
`G_MININT`, the counter of the new status, after the decrement, is below
`G_MAXINT`), `emp_account_status_changed_cb` takes one off the counter of the
old status and adds one to the counter of the new status, when these are
connecting or connected; so connecting to connected moves one unit from the
connecting counter to the connected counter, and an event with equal old and
new status leaves both counters as they were. -/
theorem status_changed_counters (s : EmpathyAccountManager) (account : EmpathyAccount)
    (old new : TpConnectionStatus) (reason : Nat)
    (hr1 : G_MININT ≤ empathy_account_manager_get_connecting_accounts s ∧
      empathy_account_manager_get_connecting_accounts s ≤ G_MAXINT)
    (hr2 : G_MININT ≤ empathy_account_manager_get_connected_accounts s ∧
      empathy_account_manager_get_connected_accounts s ≤ G_MAXINT)
    (hd1 : old = TpConnectionStatus.CONNECTING →
      G_MININT < empathy_account_manager_get_connecting_accounts s)
    (hi1 : new = TpConnectionStatus.CONNECTING →
      empathy_account_manager_get_connecting_accounts s
        - (if old = TpConnectionStatus.CONNECTING then 1 else 0) < G_MAXINT)
    (hd2 : old = TpConnectionStatus.CONNECTED →
      G_MININT < empathy_account_manager_get_connected_accounts s)
    (hi2 : new = TpConnectionStatus.CONNECTED →
      empathy_account_manager_get_connected_accounts s
        - (if old = TpConnectionStatus.CONNECTED then 1 else 0) < G_MAXINT) :
    (empathy_account_manager_get_connecting_accounts
        (emp_account_status_changed_cb s account old new reason) =
      empathy_account_manager_get_connecting_accounts s
        - (if old = TpConnectionStatus.CONNECTING then 1 else 0)
        + (if new = TpConnectionStatus.CONNECTING then 1 else 0)) ∧
    (empathy_account_manager_get_connected_accounts
        (emp_account_status_changed_cb s account old new reason) =
      empathy_account_manager_get_connected_accounts s
        - (if old = TpConnectionStatus.CONNECTED then 1 else 0)
        + (if new = TpConnectionStatus.CONNECTED then 1 else 0)) ∧
    (old = TpConnectionStatus.CONNECTING → new = TpConnectionStatus.CONNECTED →
      empathy_account_manager_get_connecting_accounts
          (emp_account_status_changed_cb s account old new reason) =
        empathy_account_manager_get_connecting_accounts s - 1 ∧
      empathy_account_manager_get_connected_accounts
          (emp_account_status_changed_cb s account old new reason) =
        empathy_account_manager_get_connected_accounts s + 1) ∧
    (old = new →
      empathy_account_manager_get_connecting_accounts
          (emp_account_status_changed_cb s account old new reason) =
        empathy_account_manager_get_connecting_accounts s ∧
      empathy_account_manager_get_connected_accounts
          (emp_account_status_changed_cb s account old new reason) =
        empathy_account_manager_get_connected_accounts s) := by
  simp only [empathy_account_manager_get_connecting_accounts,
    empathy_account_manager_get_connected_accounts, G_MININT, G_MAXINT] at *
  obtain ⟨a1, a2⟩ := hr1
  obtain ⟨b1, b2⟩ := hr2
  cases old <;> cases new <;>
    simp only [emp_account_status_changed_cb, EmpathyAccountManager.emit, int_wrap,
      reduceCtorEq, if_true, if_false, true_implies, false_implies, and_true, true_and,
      sub_zero, add_zero] at * <;>
    omega

/-- C6, amended, at a concrete input: the connecting counter sits at the
largest `int` and the account goes from connecting to connected. -/
theorem status_changed_counters_witness :
    empathy_account_manager_get_connecting_accounts
        (emp_account_status_changed_cb connecting_at_maximum_state (empathy_account_new 1 "/a")
          TpConnectionStatus.CONNECTING TpConnectionStatus.CONNECTED 1) =
      empathy_account_manager_get_connecting_accounts connecting_at_maximum_state - 1 ∧
    empathy_account_manager_get_connected_accounts
        (emp_account_status_changed_cb connecting_at_maximum_state (empathy_account_new 1 "/a")
          TpConnectionStatus.CONNECTING TpConnectionStatus.CONNECTED 1) =
      empathy_account_manager_get_connected_accounts connecting_at_maximum_state + 1 :=
  (status_changed_counters connecting_at_maximum_state (empathy_account_new 1 "/a")
    TpConnectionStatus.CONNECTING TpConnectionStatus.CONNECTED 1
    (by decide) (by decide) (by decide) (by decide) (by decide) (by decide)).2.2.1 rfl rfl

/-- C6 as stated fails: the connecting counter sits at the largest `int` and an
account goes from disconnected to connecting.  The claim asks for 2147483648,
which no `int` holds; the increment overflows and leaves -2147483648. -/
theorem status_changed_counter_overflow :
    empathy_account_manager_get_connecting_accounts connecting_at_maximum_state = 2147483647 ∧
    empathy_account_manager_get_connecting_accounts
        (emp_account_status_changed_cb connecting_at_maximum_state (empathy_account_new 1 "/a")
          TpConnectionStatus.DISCONNECTED TpConnectionStatus.CONNECTING 1) = -2147483648 ∧
    empathy_account_manager_get_connecting_accounts
        (emp_account_status_changed_cb connecting_at_maximum_state (empathy_account_new 1 "/a")
          TpConnectionStatus.DISCONNECTED TpConnectionStatus.CONNECTING 1) ≠
      empathy_account_manager_get_connecting_accounts connecting_at_maximum_state
        - (if TpConnectionStatus.DISCONNECTED = TpConnectionStatus.CONNECTING then 1 else 0)
        + (if TpConnectionStatus.CONNECTING = TpConnectionStatus.CONNECTING then 1 else 0) := by
  decide

/-! ## The ready flag -/

theorem readyFrame_refl (s : EmpathyAccountManager) : ReadyFrame s s :=
  ⟨rfl, rfl⟩

theorem readyFrame_trans {a b c : EmpathyAccountManager} (h1 : ReadyFrame a b)
    (h2 : ReadyFrame b c) : ReadyFrame a c :=
  ⟨h2.1.trans h1.1, h2.2.trans h1.2⟩

theorem readyStep_refl (s : EmpathyAccountManager) : ReadyStep s s :=
  Or.inl (readyFrame_refl s)

theorem readyStep_trans {a b c : EmpathyAccountManager} (h1 : ReadyStep a b)
    (h2 : ReadyStep b c) : ReadyStep a c := by
  rcases h1 with h1 | ⟨ha, hb, hn⟩
  · rcases h2 with h2 | ⟨hb, hc, hn⟩
    · exact Or.inl (readyFrame_trans h1 h2)
    · exact Or.inr ⟨h1.1 ▸ hb, hc, by rw [hn, h1.2]⟩
  · rcases h2 with h2 | ⟨hb2, _, _⟩
    · exact Or.inr ⟨ha, by rw [h2.1, hb], by rw [h2.2, hn]⟩
    · rw [hb] at hb2; cases hb2

/-- Logging anything but the `ready` notification is a frame step. -/
theorem emit_readyFrame (s : EmpathyAccountManager) (e : Effect) (h : e ≠ Effect.notify_ready) :
    ReadyFrame s (s.emit e) := by
  refine ⟨rfl, ?_⟩
  simp [ready_notifications, EmpathyAccountManager.emit, List.count_append,
    List.count_singleton, h]

/-- A change of fields other than the ready flag and the log is a frame step. -/
theorem readyFrame_of_eq {s s' : EmpathyAccountManager} (h1 : s'.ready = s.ready)
    (h2 : s'.log = s.log) : ReadyFrame s s' :=
  ⟨h1, by simp [ready_notifications, h2]⟩

theorem check_ready_readyStep (s : EmpathyAccountManager) :
    ReadyStep s (empathy_account_manager_check_ready s) := by
  unfold empathy_account_manager_check_ready
  by_cases hr : s.ready = true
  · rw [if_pos hr]; exact readyStep_refl s
  · rw [if_neg hr]
    split
    · refine Or.inr ⟨by simpa using hr, rfl, ?_⟩
      simp [ready_notifications, EmpathyAccountManager.emit, List.count_append]
    · exact readyStep_refl s

theorem ready_cb_readyStep (s : EmpathyAccountManager) (account : EmpathyAccount) :
    ReadyStep s (emp_account_ready_cb s account) := by
  unfold emp_account_ready_cb
  split
  · exact readyStep_refl s
  · refine readyStep_trans (Or.inl ?_) (check_ready_readyStep _)
    refine readyFrame_trans (readyFrame_trans (readyFrame_trans (readyFrame_trans
      (readyFrame_trans (emit_readyFrame _ _ ?_) (emit_readyFrame _ _ ?_))
      (emit_readyFrame _ _ ?_)) (emit_readyFrame _ _ ?_)) (emit_readyFrame _ _ ?_))
      (emit_readyFrame _ _ ?_) <;> simp

theorem add_account_readyFrame (s : EmpathyAccountManager) (path : String) :
    ReadyFrame s (account_manager_add_account s path).1 := by
  cases h : g_hash_table_lookup s.accounts path with
  | some a => rw [add_account_of_some h]; exact readyFrame_refl s
  | none =>
    rw [add_account_of_none h]
    exact readyFrame_trans (readyFrame_of_eq rfl rfl) (emit_readyFrame _ _ (by simp))

theorem add_accounts_readyFrame (paths : List String) (s : EmpathyAccountManager) :
    ReadyFrame s (paths.foldl (fun st p => (account_manager_add_account st p).1) s) := by
  induction paths generalizing s with
  | nil => exact readyFrame_refl s
  | cons p ps ih => exact readyFrame_trans (add_account_readyFrame s p) (ih _)

theorem got_all_readyStep (s : EmpathyAccountManager) (valid_accounts : List String)
    (error : Option String) :
    ReadyStep s (account_manager_got_all_cb s valid_accounts error) := by
  cases error with
  | some e => exact readyStep_refl s
  | none =>
    exact readyStep_trans (Or.inl (add_accounts_readyFrame valid_accounts s))
      (check_ready_readyStep _)

theorem validity_changed_readyFrame (s : EmpathyAccountManager) (path : String) (valid : Bool) :
    ReadyFrame s (account_validity_changed_cb s path valid) := by
  unfold account_validity_changed_cb
  split
  · exact readyFrame_refl s
  · exact add_account_readyFrame s path

theorem connection_cb_readyFrame (s : EmpathyAccountManager) (account : EmpathyAccount) :
    ReadyFrame s (emp_account_connection_cb s account) := by
  unfold emp_account_connection_cb
  split
  · exact emit_readyFrame _ _ (by simp)
  · exact readyFrame_refl s

theorem enabled_cb_readyFrame (s : EmpathyAccountManager) (account : EmpathyAccount) :
    ReadyFrame s (emp_account_enabled_cb s account) := by
  unfold emp_account_enabled_cb
  split <;> exact emit_readyFrame _ _ (by simp)

theorem status_changed_cb_readyFrame (s : EmpathyAccountManager) (account : EmpathyAccount)
    (old new : TpConnectionStatus) (reason : Nat) :
    ReadyFrame s (emp_account_status_changed_cb s account old new reason) := by
  refine readyFrame_trans (readyFrame_of_eq ?_ ?_) (emit_readyFrame _ _ (by simp)) <;>
    cases old <;> cases new <;> rfl

theorem update_global_presence_readyFrame (availability : TpConnectionPresenceType → Nat)
    (s : EmpathyAccountManager) :
    ReadyFrame s (emp_account_manager_update_global_presence availability s) := by
  simp only [emp_account_manager_update_global_presence]
  split <;> exact readyFrame_of_eq rfl rfl

theorem presence_changed_cb_readyFrame (availability : TpConnectionPresenceType → Nat)
    (s : EmpathyAccountManager) (account : EmpathyAccount)
    (presence : TpConnectionPresenceType) (status status_message : Option String) :
    ReadyFrame s (emp_account_presence_changed_cb availability s account presence status
      status_message) := by
  unfold emp_account_presence_changed_cb
  split
  · exact readyFrame_trans (readyFrame_of_eq rfl rfl) (emit_readyFrame _ _ (by simp))
  · split
    · exact readyFrame_trans (update_global_presence_readyFrame availability s)
        (emit_readyFrame _ _ (by simp))
    · exact readyFrame_refl s

theorem removed_cb_readyFrame (s : EmpathyAccountManager) (account : EmpathyAccount) :
    ReadyFrame s (emp_account_removed_cb s account) :=
  readyFrame_trans (readyFrame_of_eq rfl rfl) (emit_readyFrame _ _ (by simp))

theorem request_loop_readyFrame (type : TpConnectionPresenceType) (status message : Option String)
    (l : List EmpathyAccount) (s : EmpathyAccountManager) :
    ReadyFrame s (l.foldl
      (fun st account =>
        if account.ready then
          st.emit (Effect.request_presence (some account.handle) type status message)
        else st) s) := by
  induction l generalizing s with
  | nil => exact readyFrame_refl s
  | cons a l ih =>
    simp only [List.foldl_cons]
    refine readyFrame_trans ?_ (ih _)
    split
    · exact emit_readyFrame _ _ (by simp)
    · exact readyFrame_refl s

theorem request_global_presence_readyFrame (s : EmpathyAccountManager)
    (type : TpConnectionPresenceType) (status message : Option String) :
    ReadyFrame s (empathy_account_manager_request_global_presence s type status message) := by
  have h := request_loop_readyFrame type status message (g_hash_table_values s.accounts) s
  unfold empathy_account_manager_request_global_presence
  refine readyFrame_trans h (readyFrame_of_eq ?_ ?_) <;>
    (simp only []; split <;> split <;> rfl)

theorem created_cb_readyFrame (s : EmpathyAccountManager) (account_path : String)
    (error : Option String) (result : GSimpleAsyncResult) :
    ReadyFrame s (empathy_account_manager_created_cb s account_path error result).1 := by
  cases error with
  | some e => exact readyFrame_refl s
  | none =>
    simp only [empathy_account_manager_created_cb]
    split
    · exact add_account_readyFrame s account_path
    · exact readyFrame_trans (add_account_readyFrame s account_path)
        (emit_readyFrame _ _ (by simp))

theorem create_account_finish_readyFrame (s : EmpathyAccountManager)
    (result : GSimpleAsyncResult) :
    ReadyFrame s (empathy_account_manager_create_account_finish s result).1 := by
  unfold empathy_account_manager_create_account_finish
  split
  · exact readyFrame_refl s
  · exact emit_readyFrame _ _ (by simp)

theorem account_signal_readyStep (s : EmpathyAccountManager) (name : String)
    (f : EmpathyAccount → EmpathyAccount)
    (callback : EmpathyAccountManager → EmpathyAccount → EmpathyAccountManager)
    (h : ∀ st a, ReadyStep st (callback st a)) :
    ReadyStep s (account_signal s name f callback) := by
  unfold account_signal
  split
  · exact readyStep_refl s
  · exact readyStep_trans (Or.inl (readyFrame_of_eq rfl rfl)) (h _ _)

theorem step_readyStep (availability : TpConnectionPresenceType → Nat)
    (s : EmpathyAccountManager) (e : Event) :
    ReadyStep s (account_manager_step availability s e) := by
  cases e with
  | validity_changed path valid => exact Or.inl (validity_changed_readyFrame s path valid)
  | got_all valid_accounts error => exact got_all_readyStep s valid_accounts error
  | account_ready name ready => exact account_signal_readyStep _ _ _ _ ready_cb_readyStep
  | account_connection name connection =>
    exact account_signal_readyStep _ _ _ _ (fun st a => Or.inl (connection_cb_readyFrame st a))
  | account_enabled name enabled =>
    exact account_signal_readyStep _ _ _ _ (fun st a => Or.inl (enabled_cb_readyFrame st a))
  | account_status_changed name new reason =>
    refine account_signal_readyStep _ _ _ _ (fun st a => ?_)
    split
    · exact Or.inl (status_changed_cb_readyFrame _ _ _ _ _)
    · exact readyStep_refl st
  | account_presence_changed name presence status status_message =>
    exact account_signal_readyStep _ _ _ _
      (fun st a => Or.inl (presence_changed_cb_readyFrame availability st a _ _ _))
  | account_removed name =>
    exact account_signal_readyStep _ _ _ _ (fun st a => Or.inl (removed_cb_readyFrame st a))
  | request_global_presence type status message =>
    exact Or.inl (request_global_presence_readyFrame s type status message)
  | created account_path error result =>
    exact Or.inl (created_cb_readyFrame s account_path error result)
  | create_account_finish result => exact Or.inl (create_account_finish_readyFrame s result)
  | remove name =>
    simp only [account_manager_step]
    split <;> exact readyStep_refl s

theorem run_readyStep (availability : TpConnectionPresenceType → Nat) (events : List Event)
    (s : EmpathyAccountManager) :
    ReadyStep s (account_manager_run availability s events) := by
  induction events generalizing s with
  | nil => exact readyStep_refl s
  | cons e es ih =>
    exact readyStep_trans (step_readyStep availability s e) (ih _)

/-- In a state reached from the initial one the `ready` notification has been
emitted once if the flag is set and never if it is not. -/
theorem run_ready_notifications (availability : TpConnectionPresenceType → Nat)
    (events : List Event) :
    ready_notifications (account_manager_run availability empathy_account_manager_init events) =
      if (account_manager_run availability empathy_account_manager_init events).ready = true
      then 1 else 0 := by
  rcases run_readyStep availability events empathy_account_manager_init with h | ⟨_, h2, h3⟩
  · rw [h.1, h.2]; rfl
  · rw [h2, h3]; rfl

/-- With the flag not yet set, `empathy_account_manager_check_ready` sets it
exactly when every tracked account is ready, and it never touches the table. -/
theorem check_ready_iff (s : EmpathyAccountManager) (h : s.ready = false) :
    ((empathy_account_manager_check_ready s).ready = true ↔
      ∀ a ∈ g_hash_table_values s.accounts, a.ready = true) ∧
    (empathy_account_manager_check_ready s).accounts = s.accounts := by
  unfold empathy_account_manager_check_ready
  rw [if_neg (by simp [h])]
  split
  · rename_i hall
    refine ⟨⟨fun _ => by simpa using hall, fun _ => rfl⟩, rfl⟩
  · rename_i hall
    refine ⟨⟨fun hr => ?_, fun hr => ?_⟩, rfl⟩
    · rw [h] at hr; cases hr
    · exact absurd (by simpa using hr) hall

theorem emit_ready (s : EmpathyAccountManager) (e : Effect) : (s.emit e).ready = s.ready := rfl

theorem emit_accounts (s : EmpathyAccountManager) (e : Effect) :
    (s.emit e).accounts = s.accounts := rfl

theorem ready_cb_of_ready (s : EmpathyAccountManager) (account : EmpathyAccount)
    (ha : account.ready = true) :
    ∃ st, emp_account_ready_cb s account = empathy_account_manager_check_ready st ∧
      st.ready = s.ready ∧ st.accounts = s.accounts := by
  unfold emp_account_ready_cb
  rw [if_neg (by simp [ha])]
  refine ⟨_, rfl, ?_, ?_⟩
  · simp only [emit_ready]
  · simp only [emit_accounts]

theorem add_accounts_ready (paths : List String) (s : EmpathyAccountManager) :
    (paths.foldl (fun st p => (account_manager_add_account st p).1) s).ready = s.ready :=
  (add_accounts_readyFrame paths s).1

/-- C7: once `empathy_account_manager_is_ready` answers true it answers true
after every further sequence of events, whatever they are (accounts added,
accounts becoming not ready, status and presence changes, removals, replies to
the bulk fetch, presence requests, account creation). -/
theorem ready_flag_monotonic (availability : TpConnectionPresenceType → Nat)
    (s : EmpathyAccountManager) (events : List Event)
    (h : empathy_account_manager_is_ready s = true) :
    empathy_account_manager_is_ready (account_manager_run availability s events) = true := by
  unfold empathy_account_manager_is_ready at *
  rcases run_readyStep availability events s with h1 | ⟨h1, _, _⟩
  · rw [h1.1, h]
  · rw [h] at h1; cases h1

/-- C7, at a concrete input: the manager became ready on an empty bulk reply;
afterwards an account is added, becomes ready, becomes not ready again, changes
status and presence and is removed. -/
theorem ready_flag_monotonic_witness :
    empathy_account_manager_is_ready
      (account_manager_run tp_availability empathy_account_manager_init
        [Event.got_all [] none]) = true ∧
    empathy_account_manager_is_ready
      (account_manager_run tp_availability
        (account_manager_run tp_availability empathy_account_manager_init
          [Event.got_all [] none])
        [Event.validity_changed "/a" true, Event.account_ready "/a" true,
         Event.account_ready "/a" false,
         Event.account_status_changed "/a" TpConnectionStatus.CONNECTING 1,
         Event.account_presence_changed "/a" TpConnectionPresenceType.AWAY (some "away") none,
         Event.request_global_presence TpConnectionPresenceType.AVAILABLE none none,
         Event.account_removed "/a"]) = true :=
  ⟨by decide, ready_flag_monotonic _ _ _ (by decide)⟩

/-- C8: while `empathy_account_manager_is_ready` is false, handling a readiness
notification of a ready account (`emp_account_ready_cb`, also when delivered as
an event of a tracked account) or a bulk reply without error makes it true
exactly when every account tracked afterwards is ready. -/
theorem ready_iff_all_accounts_ready (availability : TpConnectionPresenceType → Nat)
    (s : EmpathyAccountManager) (h : empathy_account_manager_is_ready s = false) :
    (∀ account : EmpathyAccount, account.ready = true →
      (empathy_account_manager_is_ready (emp_account_ready_cb s account) = true ↔
        ∀ a ∈ g_hash_table_values (emp_account_ready_cb s account).accounts, a.ready = true)) ∧
    (∀ name : String, name ∈ table_keys s.accounts →
      (empathy_account_manager_is_ready
          (account_manager_step availability s (Event.account_ready name true)) = true ↔
        ∀ a ∈ g_hash_table_values
          (account_manager_step availability s (Event.account_ready name true)).accounts,
          a.ready = true)) ∧
    (∀ valid_accounts : List String,
      (empathy_account_manager_is_ready
          (account_manager_got_all_cb s valid_accounts none) = true ↔
        ∀ a ∈ g_hash_table_values (account_manager_got_all_cb s valid_accounts none).accounts,
          a.ready = true)) := by
  unfold empathy_account_manager_is_ready at *
  have key : ∀ (st : EmpathyAccountManager) (account : EmpathyAccount), st.ready = false →
      account.ready = true →
      ((emp_account_ready_cb st account).ready = true ↔
        ∀ a ∈ g_hash_table_values (emp_account_ready_cb st account).accounts,
          a.ready = true) := by
    intro st account hst ha
    obtain ⟨st', hl, hr, hacc⟩ := ready_cb_of_ready st account ha
    have hc := check_ready_iff st' (hr.trans hst)
    rw [hl, hc.2]
    exact hc.1
  refine ⟨fun account ha => key s account h ha, ?_, ?_⟩
  · intro name hn
    cases hl : g_hash_table_lookup s.accounts name with
    | none => exact absurd hn ((lookup_eq_none_iff _ _).1 hl)
    | some account =>
      simp only [account_manager_step, account_signal, hl]
      exact key _ _ h rfl
  · intro valid_accounts
    have hc := check_ready_iff
      (valid_accounts.foldl (fun st p => (account_manager_add_account st p).1) s)
      ((add_accounts_ready valid_accounts s).trans h)
    simp only [account_manager_got_all_cb]
    rw [hc.2]
    exact hc.1

/-- C8, at a concrete input: one tracked account that is not ready yet. -/
theorem ready_iff_all_accounts_ready_witness :
    empathy_account_manager_is_ready
      (account_manager_run tp_availability empathy_account_manager_init
        [Event.validity_changed "/a" true]) = false ∧
    (empathy_account_manager_is_ready
      (account_manager_step tp_availability
        (account_manager_run tp_availability empathy_account_manager_init
          [Event.validity_changed "/a" true])
        (Event.account_ready "/a" true)) = true ↔
      ∀ a ∈ g_hash_table_values
        (account_manager_step tp_availability
          (account_manager_run tp_availability empathy_account_manager_init
            [Event.validity_changed "/a" true])
          (Event.account_ready "/a" true)).accounts,
        a.ready = true) :=
  ⟨by decide,
    (ready_iff_all_accounts_ready tp_availability
      (account_manager_run tp_availability empathy_account_manager_init
        [Event.validity_changed "/a" true]) (by decide)).2.1 "/a" (by decide)⟩

/-- C9: along every sequence of events from the initial state the `ready`
notification has been emitted at most once, and an event emits it exactly when
that event takes the ready flag from false to true. -/
theorem ready_notified_once (availability : TpConnectionPresenceType → Nat)
    (events : List Event) (e : Event) :
    ready_notifications
        (account_manager_run availability empathy_account_manager_init events) ≤ 1 ∧
    ready_notifications
        (account_manager_step availability
          (account_manager_run availability empathy_account_manager_init events) e) =
      ready_notifications
          (account_manager_run availability empathy_account_manager_init events) +
        (if empathy_account_manager_is_ready
              (account_manager_run availability empathy_account_manager_init events) = false ∧
            empathy_account_manager_is_ready
              (account_manager_step availability
                (account_manager_run availability empathy_account_manager_init events) e) = true
          then 1 else 0) := by
  constructor
  · rw [run_ready_notifications]
    split <;> simp
  · unfold empathy_account_manager_is_ready
    rcases step_readyStep availability
        (account_manager_run availability empathy_account_manager_init events) e with
      h | ⟨h1, h2, h3⟩
    · rw [h.2, h.1, if_neg]
      · rfl
      · intro hc
        rw [hc.1] at hc
        exact Bool.false_ne_true hc.2
    · rw [h3, if_pos ⟨h1, h2⟩]

/-- C10, evaluated: the ready flag is set although no bulk reply has been handled
successfully.  In the first run the reply carried an error, in the second it
has not arrived yet; in both an account announced by the validity-changed
signal became ready. -/
theorem ready_before_enumeration :
    empathy_account_manager_is_ready
      (account_manager_run tp_availability empathy_account_manager_init
        [Event.got_all [] (some "no reply"), Event.validity_changed "/a" true,
         Event.account_ready "/a" true]) = true ∧
    empathy_account_manager_is_ready
      (account_manager_run tp_availability empathy_account_manager_init
        [Event.validity_changed "/a" true, Event.account_ready "/a" true]) = true := by
  decide

/-! ## The global presence -/

theorem cmp_availability_pos (availability : TpConnectionPresenceType → Nat)
    (p1 p2 : TpConnectionPresenceType) :
    tp_connection_presence_type_cmp_availability availability p1 p2 > 0 ↔
      availability p2 < availability p1 := by
  unfold tp_connection_presence_type_cmp_availability
  split
  · constructor
    · intro h; omega
    · intro h; omega
  · split
    · constructor
      · intro _; assumption
      · intro _; decide
    · constructor
      · intro h; exact absurd h (by decide)
      · intro h; omega

theorem update_global_presence_loop_eq (availability : TpConnectionPresenceType → Nat)
    (best : Option EmpathyAccount × TpConnectionPresenceType) (a : EmpathyAccount) :
    update_global_presence_loop availability best a =
      if availability best.2 < availability a.presence then (some a, a.presence) else best := by
  unfold update_global_presence_loop
  by_cases h : availability best.2 < availability a.presence
  · rw [if_pos h, if_pos ((cmp_availability_pos _ _ _).2 h)]
  · rw [if_neg h, if_neg (fun hc => h ((cmp_availability_pos _ _ _).1 hc))]

/-- What the loop of the full recompute leaves in its local variables: the
final rank bounds the initial one and every account met, and either nothing
beat the initial pair or the pair is an account met, with its presence. -/
theorem scan_loop_spec (availability : TpConnectionPresenceType → Nat)
    (l : List EmpathyAccount) (best : Option EmpathyAccount × TpConnectionPresenceType) :
    availability best.2 ≤
        availability (l.foldl (update_global_presence_loop availability) best).2 ∧
    (∀ a ∈ l, availability a.presence ≤
        availability (l.foldl (update_global_presence_loop availability) best).2) ∧
    ((l.foldl (update_global_presence_loop availability) best = best ∧
        ∀ a ∈ l, availability a.presence ≤ availability best.2) ∨
      (∃ a ∈ l, l.foldl (update_global_presence_loop availability) best = (some a, a.presence) ∧
        availability best.2 < availability a.presence)) := by
  induction l generalizing best with
  | nil => simp
  | cons x xs ih =>
    simp only [List.foldl_cons]
    obtain ⟨h1, h2, h3⟩ := ih (update_global_presence_loop availability best x)
    rw [update_global_presence_loop_eq] at h1 h2 h3 ⊢
    by_cases hx : availability best.2 < availability x.presence
    · simp only [if_pos hx] at h1 h2 h3 ⊢
      refine ⟨by omega, ?_, Or.inr ?_⟩
      · intro a ha
        rcases List.mem_cons.1 ha with rfl | ha
        · exact h1
        · exact h2 a ha
      · rcases h3 with ⟨h3, _⟩ | ⟨a, ha, h3, h4⟩
        · exact ⟨x, List.mem_cons_self _ _, h3, hx⟩
        · exact ⟨a, List.mem_cons_of_mem _ ha, h3, by omega⟩
    · simp only [if_neg hx] at h1 h2 h3 ⊢
      refine ⟨h1, ?_, ?_⟩
      · intro a ha
        rcases List.mem_cons.1 ha with rfl | ha
        · omega
        · exact h2 a ha
      · rcases h3 with ⟨h3, h4⟩ | ⟨a, ha, h3, h4⟩
        · refine Or.inl ⟨h3, ?_⟩
          intro a ha
          rcases List.mem_cons.1 ha with rfl | ha
          · omega
          · exact h4 a ha
        · exact Or.inr ⟨a, List.mem_cons_of_mem _ ha, h3, h4⟩

/-- The full recompute when some tracked account outranks offline: the scan
ends on a tracked account above offline that no tracked account outranks. -/
theorem scan_of_exists (availability : TpConnectionPresenceType → Nat) (t : AccountTable)
    (h : ∃ e ∈ t, availability TpConnectionPresenceType.OFFLINE < availability e.2.presence) :
    ∃ e ∈ t, global_presence_scan availability t = (some e.2, e.2.presence) ∧
      availability TpConnectionPresenceType.OFFLINE < availability e.2.presence ∧
      ∀ e' ∈ t, availability e'.2.presence ≤ availability e.2.presence := by
  obtain ⟨_, h2, h3⟩ := scan_loop_spec availability (g_hash_table_values t)
    (none, TpConnectionPresenceType.OFFLINE)
  rcases h3 with ⟨_, h4⟩ | ⟨a, ha, h5, h6⟩
  · obtain ⟨e, he, hlt⟩ := h
    have := h4 e.2 (List.mem_map_of_mem _ he)
    simp only at this
    omega
  · simp only [g_hash_table_values, List.mem_map] at ha
    obtain ⟨e, he, rfl⟩ := ha
    refine ⟨e, he, h5, h6, ?_⟩
    intro e' he'
    have := h2 e'.2 (List.mem_map_of_mem _ he')
    rw [h5] at this
    exact this

/-- The state written by the full recompute when the scan ends on an account. -/
theorem update_global_presence_of_some (availability : TpConnectionPresenceType → Nat)
    (s : EmpathyAccountManager) (a : EmpathyAccount) (p : TpConnectionPresenceType)
    (h : global_presence_scan availability s.accounts = (some a, p)) :
    emp_account_manager_update_global_presence availability s =
      { s with
        global_account := some a.handle
        global_presence := a.presence
        global_status := a.status
        global_status_message := a.status_message } := by
  unfold global_presence_scan at h
  simp only [emp_account_manager_update_global_presence, h]

theorem nodup_keys_unique {t : AccountTable} (h : (table_keys t).Nodup) {k : String}
    {a b : EmpathyAccount} (ha : (k, a) ∈ t) (hb : (k, b) ∈ t) : a = b := by
  induction t with
  | nil => cases ha
  | cons x xs ih =>
    simp only [table_keys, List.map_cons, List.nodup_cons, List.mem_map, not_exists,
      not_and] at h
    rcases List.mem_cons.1 ha with rfl | ha'
    · rcases List.mem_cons.1 hb with hb' | hb'
      · exact (Prod.mk.inj hb').2.symm
      · exact absurd rfl (h.1 (k, b) hb')
    · rcases List.mem_cons.1 hb with rfl | hb'
      · exact absurd rfl (h.1 (k, a) ha')
      · exact ih h.2 ha' hb'

theorem mem_account_update {t : AccountTable} {name : String}
    {f : EmpathyAccount → EmpathyAccount} {e : String × EmpathyAccount} :
    e ∈ account_update t name f ↔
      (∃ e0 ∈ t, e0.1 = name ∧ e = (e0.1, f e0.2)) ∨ (e ∈ t ∧ e.1 ≠ name) := by
  simp only [account_update, List.mem_map]
  constructor
  · rintro ⟨e0, he0, rfl⟩
    by_cases hk : e0.1 = name
    · left; exact ⟨e0, he0, hk, by simp [hk]⟩
    · right; simp [hk, he0]
  · rintro (⟨e0, he0, hk, rfl⟩ | ⟨he, hk⟩)
    · exact ⟨e0, he0, by simp [hk]⟩
    · exact ⟨e, he, by simp [hk]⟩

/-- Logging an effect does not touch the snapshot or the table. -/
theorem snapshotConsistent_emit (availability : TpConnectionPresenceType → Nat)
    (s : EmpathyAccountManager) (e : Effect) :
    SnapshotConsistent availability (s.emit e) ↔ SnapshotConsistent availability s :=
  Iff.rfl

/-- The presence-changed event of a tracked account, unfolded. -/
theorem step_presence_changed (availability : TpConnectionPresenceType → Nat)
    (s : EmpathyAccountManager) (name : String) (presence : TpConnectionPresenceType)
    (status status_message : Option String) (account : EmpathyAccount)
    (h : g_hash_table_lookup s.accounts name = some account) :
    account_manager_step availability s
        (Event.account_presence_changed name presence status status_message) =
      emp_account_presence_changed_cb availability
        { s with accounts := (account_update s.accounts name
            (account_set_presence presence status status_message)) }
        (account_set_presence presence status status_message account)
        presence status status_message := by
  simp only [account_manager_step, account_signal, h]

/-- C1, amended: if the cached snapshot is consistent (its leader is a tracked
account whose type, status and message are the cached ones, and no tracked
account outranks the cached type) and the keys of the table are distinct, then
after a presence-changed event of a tracked account the snapshot is consistent
again, so the cached type is the highest availability among the tracked
accounts and the cached leader attains it.  The case of the leader's own event
that does not outrank the cached type while no tracked account is left above
offline is not covered. -/
theorem presence_changed_keeps_snapshot (availability : TpConnectionPresenceType → Nat)
    (s : EmpathyAccountManager) (name : String) (presence : TpConnectionPresenceType)
    (status status_message : Option String)
    (hk : (table_keys s.accounts).Nodup)
    (hc : SnapshotConsistent availability s)
    (hn : name ∈ table_keys s.accounts)
    (hslip : availability presence ≤ availability s.global_presence →
      s.global_account = (g_hash_table_lookup s.accounts name).map EmpathyAccount.handle →
      (availability TpConnectionPresenceType.OFFLINE < availability presence ∨
        ∃ e ∈ s.accounts, e.1 ≠ name ∧
          availability TpConnectionPresenceType.OFFLINE < availability e.2.presence)) :
    SnapshotConsistent availability
      (account_manager_step availability s
        (Event.account_presence_changed name presence status status_message)) := by
  cases hl : g_hash_table_lookup s.accounts name with
  | none => exact absurd hn ((lookup_eq_none_iff _ _).1 hl)
  | some account =>
    rw [step_presence_changed availability s name presence status status_message account hl]
    have hmem : (name, account) ∈ s.accounts := lookup_some_mem hl
    have hmem' : (name, account_set_presence presence status status_message account) ∈
        account_update s.accounts name (account_set_presence presence status status_message) :=
      mem_account_update.2 (Or.inl ⟨(name, account), hmem, rfl, rfl⟩)
    have hpres : ∀ e' ∈ account_update s.accounts name
        (account_set_presence presence status status_message),
        e'.2.presence = presence ∨ (e' ∈ s.accounts ∧ e'.1 ≠ name) := by
      intro e' he'
      rcases mem_account_update.1 he' with ⟨e0, _, _, rfl⟩ | h
      · exact Or.inl rfl
      · exact Or.inr h
    obtain ⟨⟨eL, heL, hL1, hL2, hL3, hL4⟩, hub⟩ := hc
    simp only [emp_account_presence_changed_cb, cmp_availability_pos]
    by_cases h1 : availability s.global_presence < availability presence
    · rw [if_pos h1]
      refine ⟨⟨_, hmem', rfl, rfl, rfl, rfl⟩, ?_⟩
      intro e' he'
      rcases hpres e' he' with hp | ⟨hin, _⟩
      · rw [hp]; exact le_refl _
      · have := hub e' hin
        simp only [EmpathyAccountManager.emit]
        omega
    · rw [if_neg h1]
      by_cases h2 : s.global_account =
          some (account_set_presence presence status status_message account).handle
      · rw [if_pos h2]
        replace h2 : s.global_account = some account.handle := h2
        have hex : ∃ e ∈ account_update s.accounts name
            (account_set_presence presence status status_message),
            availability TpConnectionPresenceType.OFFLINE < availability e.2.presence := by
          rcases hslip (by omega) (by rw [hl, h2]; rfl) with hp | ⟨e, he, hne, hp⟩
          · exact ⟨_, hmem', hp⟩
          · exact ⟨e, mem_account_update.2 (Or.inr ⟨he, hne⟩), hp⟩
        obtain ⟨e, he, hscan, _, hmax⟩ := scan_of_exists availability _ hex
        rw [update_global_presence_of_some availability _ e.2 e.2.presence hscan]
        exact ⟨⟨e, he, rfl, rfl, rfl, rfl⟩, hmax⟩
      · rw [if_neg h2]
        replace h2 : ¬ s.global_account = some account.handle := h2
        have hLne : eL.1 ≠ name := by
          intro heq
          have : eL.2 = account := nodup_keys_unique hk (heq ▸ heL) hmem
          exact h2 (by rw [hL1, this])
        refine ⟨⟨eL, mem_account_update.2 (Or.inr ⟨heL, hLne⟩), hL1, hL2, hL3, hL4⟩, ?_⟩
        intro e' he'
        rcases hpres e' he' with hp | ⟨hin, _⟩
        · rw [hp]; exact Nat.le_of_not_lt h1
        · exact hub e' hin

/-- C1, amended, at a concrete input: with an available and an away account
tracked, the available one (the leader) goes offline. -/
theorem presence_changed_keeps_snapshot_witness :
    (table_keys two_accounts_state.accounts).Nodup ∧
    SnapshotConsistent tp_availability two_accounts_state ∧
    SnapshotConsistent tp_availability
      (account_manager_step tp_availability two_accounts_state
        (Event.account_presence_changed "/a" TpConnectionPresenceType.OFFLINE
          (some "offline") none)) :=
  ⟨by decide, by decide,
    presence_changed_keeps_snapshot tp_availability two_accounts_state "/a"
      TpConnectionPresenceType.OFFLINE (some "offline") none (by decide) (by decide)
      (by decide) (by decide)⟩

/-- C1 as stated fails: the leader `/a` (available) is removed, then the tracked
account `/b` goes from away to busy.  The cache still shows the removed
account and its presence, a full scan finds `/b` and busy. -/
theorem presence_cache_differs_from_full_scan :
    "/b" ∈ table_keys
      (account_manager_run tp_availability two_accounts_state
        [Event.account_removed "/a"]).accounts ∧
    cached_snapshot
      (account_manager_run tp_availability two_accounts_state
        [Event.account_removed "/a",
         Event.account_presence_changed "/b" TpConnectionPresenceType.BUSY
           (some "busy") (some "work")]) =
      (some 1, TpConnectionPresenceType.AVAILABLE, some "available", some "hi") ∧
    full_scan_snapshot tp_availability
      (account_manager_run tp_availability two_accounts_state
        [Event.account_removed "/a",
         Event.account_presence_changed "/b" TpConnectionPresenceType.BUSY
           (some "busy") (some "work")]).accounts =
      (some 2, TpConnectionPresenceType.BUSY, some "busy", some "work") ∧
    cached_snapshot
      (account_manager_run tp_availability two_accounts_state
        [Event.account_removed "/a",
         Event.account_presence_changed "/b" TpConnectionPresenceType.BUSY
           (some "busy") (some "work")]) ≠
    full_scan_snapshot tp_availability
      (account_manager_run tp_availability two_accounts_state
        [Event.account_removed "/a",
         Event.account_presence_changed "/b" TpConnectionPresenceType.BUSY
           (some "busy") (some "work")]).accounts := by
  decide

/-- C2, amended: `emp_account_removed_cb` takes the account out of the table and
does not recompute anything: the cached leader and the triple returned by
`empathy_account_manager_get_global_presence` are the ones from before the
removal, whether or not the removed account was the leader and whether or not
any account remains. -/
theorem removed_keeps_snapshot (s : EmpathyAccountManager) (account : EmpathyAccount) :
    (emp_account_removed_cb s account).accounts =
      g_hash_table_remove s.accounts account.unique_name ∧
    (emp_account_removed_cb s account).global_account = s.global_account ∧
    empathy_account_manager_get_global_presence (emp_account_removed_cb s account) =
      empathy_account_manager_get_global_presence s ∧
    cached_snapshot (emp_account_removed_cb s account) = cached_snapshot s :=
  ⟨rfl, rfl, rfl, rfl⟩

/-- C2 as stated fails: the only account `/a` is the leader and is removed.  No
account remains, yet the cache still names it and
`empathy_account_manager_get_global_presence` still answers its presence. -/
theorem removed_leader_not_recomputed :
    g_hash_table_lookup one_account_state.accounts "/a" =
      some { empathy_account_new 1 "/a" with
        ready := true, presence := TpConnectionPresenceType.AVAILABLE,
        status := some "available", status_message := some "hi" } ∧
    one_account_state.global_account = some 1 ∧
    (account_manager_step tp_availability one_account_state
      (Event.account_removed "/a")).accounts = [] ∧
    (account_manager_step tp_availability one_account_state
      (Event.account_removed "/a")).global_account = some 1 ∧
    empathy_account_manager_get_global_presence
      (account_manager_step tp_availability one_account_state
        (Event.account_removed "/a")) =
      (TpConnectionPresenceType.AVAILABLE, some "available", some "hi") := by
  decide

/-- C3, amended: the leader `A` and another account `B` above offline are
tracked, and `A` changes to a presence that does not outrank the cached type
and lies below the presence of `B`.  Then the handler does a full recompute:
the new leader is a tracked account other than `A` that no tracked account
outranks (so it ranks at least as high as `B`), the cache holds its type,
status and message and equals the full-scan oracle, and exactly one
global-presence-changed signal with that triple is emitted.  The new leader is
`B` itself when every other tracked account ranks strictly below `B`. -/
theorem leader_drop_recompute (availability : TpConnectionPresenceType → Nat)
    (s : EmpathyAccountManager) (nameA nameB : String) (A B : EmpathyAccount)
    (presence : TpConnectionPresenceType) (status status_message : Option String)
    (hA : g_hash_table_lookup s.accounts nameA = some A)
    (hlead : s.global_account = some A.handle)
    (hB : (nameB, B) ∈ s.accounts) (hne : nameB ≠ nameA)
    (hBoff : availability TpConnectionPresenceType.OFFLINE < availability B.presence)
    (hnot : ¬ availability s.global_presence < availability presence)
    (hbelow : availability presence < availability B.presence) :
    ∃ e ∈ (account_manager_step availability s
        (Event.account_presence_changed nameA presence status status_message)).accounts,
      (∀ e' ∈ (account_manager_step availability s
          (Event.account_presence_changed nameA presence status status_message)).accounts,
        availability e'.2.presence ≤ availability e.2.presence) ∧
      availability B.presence ≤ availability e.2.presence ∧
      e.1 ≠ nameA ∧
      cached_snapshot (account_manager_step availability s
          (Event.account_presence_changed nameA presence status status_message)) =
        (some e.2.handle, e.2.presence, e.2.status, e.2.status_message) ∧
      cached_snapshot (account_manager_step availability s
          (Event.account_presence_changed nameA presence status status_message)) =
        full_scan_snapshot availability (account_manager_step availability s
          (Event.account_presence_changed nameA presence status status_message)).accounts ∧
      (account_manager_step availability s
          (Event.account_presence_changed nameA presence status status_message)).log =
        s.log ++ [Effect.global_presence_changed e.2.presence e.2.status e.2.status_message] ∧
      ((∀ e' ∈ (account_manager_step availability s
          (Event.account_presence_changed nameA presence status status_message)).accounts,
          e'.2 ≠ B → availability e'.2.presence < availability B.presence) → e.2 = B) := by
  rw [step_presence_changed availability s nameA presence status status_message A hA]
  simp only [emp_account_presence_changed_cb, cmp_availability_pos]
  rw [if_neg hnot]
  have hlead' : s.global_account =
      some (account_set_presence presence status status_message A).handle := hlead
  rw [if_pos hlead']
  have hB' : (nameB, B) ∈ account_update s.accounts nameA
      (account_set_presence presence status status_message) :=
    mem_account_update.2 (Or.inr ⟨hB, hne⟩)
  obtain ⟨e, he, hscan, _, hmax⟩ := scan_of_exists availability _ ⟨(nameB, B), hB', hBoff⟩
  rw [update_global_presence_of_some availability _ e.2 e.2.presence hscan]
  have hBe : availability B.presence ≤ availability e.2.presence := hmax (nameB, B) hB'
  refine ⟨e, he, hmax, hBe, ?_, rfl, ?_, rfl, ?_⟩
  · intro heq
    rcases mem_account_update.1 he with ⟨e0, _, _, rfl⟩ | ⟨_, hk⟩
    · have hp : (e0.1, account_set_presence presence status status_message e0.2).2.presence =
          presence := rfl
      rw [hp] at hBe
      omega
    · exact hk heq
  · simp only [cached_snapshot, full_scan_snapshot, EmpathyAccountManager.emit, hscan]
  · intro hall
    by_contra hc
    have := hall e he hc
    omega

/-- C3, amended, at the scenario of the specification: `/a` is available and
leads, `/b` is away, `/a` drops to offline; `/b` becomes the leader. -/
theorem leader_drop_recompute_witness :
    cached_snapshot (account_manager_step tp_availability two_accounts_state
        (Event.account_presence_changed "/a" TpConnectionPresenceType.OFFLINE
          (some "offline") none)) =
      (some 2, TpConnectionPresenceType.AWAY, some "away", some "back soon") ∧
    (account_manager_step tp_availability two_accounts_state
        (Event.account_presence_changed "/a" TpConnectionPresenceType.OFFLINE
          (some "offline") none)).log =
      two_accounts_state.log ++ [Effect.global_presence_changed
        TpConnectionPresenceType.AWAY (some "away") (some "back soon")] := by
  obtain ⟨e, _, _, _, _, h4, _, h6, h7⟩ :=
    leader_drop_recompute tp_availability two_accounts_state "/a" "/b"
      { empathy_account_new 1 "/a" with
        ready := true, presence := TpConnectionPresenceType.AVAILABLE,
        status := some "available", status_message := some "hi" }
      { empathy_account_new 2 "/b" with
        ready := true, presence := TpConnectionPresenceType.AWAY,
        status := some "away", status_message := some "back soon" }
      TpConnectionPresenceType.OFFLINE (some "offline") none
      (by decide) (by decide) (by decide) (by decide) (by decide) (by decide) (by decide)
  have hB := h7 (by decide)
  constructor
  · exact h4.trans (by rw [hB]; rfl)
  · exact h6.trans (by rw [hB])

/-- C3 as stated fails: `/a` (available) leads, `/b` is away and `/c` is busy.
When `/a` drops to offline the new leader is `/c`, not `/b`, and the signal
carries the triple of `/c`. -/
theorem leader_drop_picks_other_account :
    three_accounts_state.global_account = some 1 ∧
    g_hash_table_lookup three_accounts_state.accounts "/a" =
      some { empathy_account_new 1 "/a" with
        ready := true, presence := TpConnectionPresenceType.AVAILABLE,
        status := some "available", status_message := some "hi" } ∧
    g_hash_table_lookup three_accounts_state.accounts "/b" =
      some { empathy_account_new 2 "/b" with
        ready := true, presence := TpConnectionPresenceType.AWAY,
        status := some "away", status_message := some "back soon" } ∧
    cached_snapshot (account_manager_step tp_availability three_accounts_state
        (Event.account_presence_changed "/a" TpConnectionPresenceType.OFFLINE
          (some "offline") none)) =
      (some 3, TpConnectionPresenceType.BUSY, some "busy", some "meeting") ∧
    (account_manager_step tp_availability three_accounts_state
        (Event.account_presence_changed "/a" TpConnectionPresenceType.OFFLINE
          (some "offline") none)).log =
      three_accounts_state.log ++ [Effect.global_presence_changed
        TpConnectionPresenceType.BUSY (some "busy") (some "meeting")] := by
  decide

/-! ## Distinct keys

The keys of a hash table are distinct.  For the association list this is an
invariant of every run from the initial state. -/

theorem account_update_keys (t : AccountTable) (name : String)
    (f : EmpathyAccount → EmpathyAccount) :
    table_keys (account_update t name f) = table_keys t := by
  simp only [table_keys, account_update, List.map_map]
  apply List.map_congr_left
  intro e _
  by_cases h : e.1 = name <;> simp [h]

theorem remove_keys_nodup (t : AccountTable) (key : String) (h : (table_keys t).Nodup) :
    (table_keys (g_hash_table_remove t key)).Nodup := by
  unfold table_keys g_hash_table_remove
  exact List.Nodup.sublist (List.Sublist.map _ (List.filter_sublist t)) h

/-- The callbacks behind the account signals that leave the table alone. -/
theorem presence_changed_cb_accounts (availability : TpConnectionPresenceType → Nat)
    (s : EmpathyAccountManager) (account : EmpathyAccount)
    (presence : TpConnectionPresenceType) (status status_message : Option String) :
    (emp_account_presence_changed_cb availability s account presence status
      status_message).accounts = s.accounts := by
  simp only [emp_account_presence_changed_cb, emp_account_manager_update_global_presence]
  split
  · rfl
  · split
    · split <;> rfl
    · rfl

theorem status_changed_cb_accounts (s : EmpathyAccountManager) (account : EmpathyAccount)
    (old new : TpConnectionStatus) (reason : Nat) :
    (emp_account_status_changed_cb s account old new reason).accounts = s.accounts := by
  cases old <;> cases new <;> rfl

theorem check_ready_accounts (s : EmpathyAccountManager) :
    (empathy_account_manager_check_ready s).accounts = s.accounts := by
  unfold empathy_account_manager_check_ready
  split
  · rfl
  · split <;> rfl

theorem ready_cb_accounts (s : EmpathyAccountManager) (account : EmpathyAccount) :
    (emp_account_ready_cb s account).accounts = s.accounts := by
  unfold emp_account_ready_cb
  split
  · rfl
  · rw [check_ready_accounts]
    simp only [emit_accounts]

theorem request_loop_accounts (type : TpConnectionPresenceType) (status message : Option String)
    (l : List EmpathyAccount) (s : EmpathyAccountManager) :
    (l.foldl
      (fun st account =>
        if account.ready then
          st.emit (Effect.request_presence (some account.handle) type status message)
        else st) s).accounts = s.accounts := by
  induction l generalizing s with
  | nil => rfl
  | cons a l ih =>
    simp only [List.foldl_cons]
    rw [ih]
    split <;> rfl

theorem request_global_presence_accounts (s : EmpathyAccountManager)
    (type : TpConnectionPresenceType) (status message : Option String) :
    (empathy_account_manager_request_global_presence s type status message).accounts =
      s.accounts := by
  have h := request_loop_accounts type status message (g_hash_table_values s.accounts) s
  unfold empathy_account_manager_request_global_presence
  simp only []
  split <;> split <;> exact h

theorem add_accounts_keys_nodup (paths : List String) (s : EmpathyAccountManager)
    (h : (table_keys s.accounts).Nodup) :
    (table_keys (paths.foldl (fun st p => (account_manager_add_account st p).1)
      s).accounts).Nodup :=
  (add_accounts_keys paths s h).1

theorem step_keys_nodup (availability : TpConnectionPresenceType → Nat)
    (s : EmpathyAccountManager) (e : Event) (h : (table_keys s.accounts).Nodup) :
    (table_keys (account_manager_step availability s e).accounts).Nodup := by
  have hsig : ∀ (name : String) (f : EmpathyAccount → EmpathyAccount)
      (callback : EmpathyAccountManager → EmpathyAccount → EmpathyAccountManager),
      (∀ st a, (table_keys st.accounts).Nodup → (table_keys (callback st a).accounts).Nodup) →
      (table_keys (account_signal s name f callback).accounts).Nodup := by
    intro name f callback hcb
    unfold account_signal
    split
    · exact h
    · apply hcb
      rw [account_update_keys]
      exact h
  cases e with
  | validity_changed path valid =>
    simp only [account_manager_step, account_validity_changed_cb]
    split
    · exact h
    · exact add_account_keys_nodup s path h
  | got_all valid_accounts error =>
    cases error with
    | some e => exact h
    | none =>
      simp only [account_manager_step, account_manager_got_all_cb]
      rw [check_ready_accounts]
      exact add_accounts_keys_nodup valid_accounts s h
  | account_ready name ready =>
    exact hsig _ _ _ (fun st a hst => by rw [ready_cb_accounts]; exact hst)
  | account_connection name connection =>
    refine hsig _ _ _ (fun st a hst => ?_)
    unfold emp_account_connection_cb
    split <;> exact hst
  | account_enabled name enabled =>
    refine hsig _ _ _ (fun st a hst => ?_)
    unfold emp_account_enabled_cb
    split <;> exact hst
  | account_status_changed name new reason =>
    refine hsig _ _ _ (fun st a hst => ?_)
    split
    · rw [status_changed_cb_accounts]; exact hst
    · exact hst
  | account_presence_changed name presence status status_message =>
    exact hsig _ _ _ (fun st a hst => by rw [presence_changed_cb_accounts]; exact hst)
  | account_removed name =>
    exact hsig _ _ _ (fun st a hst => remove_keys_nodup st.accounts a.unique_name hst)
  | request_global_presence type status message =>
    simp only [account_manager_step]
    rw [request_global_presence_accounts]
    exact h
  | created account_path error result =>
    cases error with
    | some e => exact h
    | none =>
      simp only [account_manager_step, empathy_account_manager_created_cb]
      split
      · exact add_account_keys_nodup s account_path h
      · exact add_account_keys_nodup s account_path h
  | create_account_finish result =>
    simp only [account_manager_step, empathy_account_manager_create_account_finish]
    split <;> exact h
  | remove name =>
    simp only [account_manager_step]
    split <;> exact h

/-- In every state reached from the initial one the keys of the table are
distinct. -/
theorem run_keys_nodup (availability : TpConnectionPresenceType → Nat) (events : List Event)
    (s : EmpathyAccountManager) (h : (table_keys s.accounts).Nodup) :
    (table_keys (account_manager_run availability s events).accounts).Nodup := by
  induction events generalizing s with
  | nil => exact h
  | cons e es ih => exact ih _ (step_keys_nodup availability s e h)

/-! ## The desired presence -/

/-- The loop of the presence request only writes to the log: one request for
each ready account met. -/
theorem request_presence_loop_eq (type : TpConnectionPresenceType)
    (status message : Option String) (l : List EmpathyAccount) (s : EmpathyAccountManager) :
    request_presence_loop type status message s l =
      { s with log := (s.log ++ (l.filter (fun a => a.ready)).map
          (fun a => Effect.request_presence (some a.handle) type status message)) } := by
  induction l generalizing s with
  | nil => simp [request_presence_loop]
  | cons a l ih =>
    unfold request_presence_loop at ih ⊢
    simp only [List.foldl_cons]
    rw [ih]
    by_cases ha : a.ready = true
    · simp [ha, EmpathyAccountManager.emit]
    · simp [ha]

/-- The whole of `empathy_account_manager_request_global_presence`: the requests
are logged and the three desired fields are overwritten. -/
theorem request_global_presence_eq (s : EmpathyAccountManager)
    (type : TpConnectionPresenceType) (status message : Option String) :
    empathy_account_manager_request_global_presence s type status message =
      { s with
        log := (s.log ++ presence_requests s.accounts type status message)
        desired_presence := type
        desired_status := status
        desired_status_message := message } := by
  have hloop := request_presence_loop_eq type status message (g_hash_table_values s.accounts) s
  unfold request_presence_loop at hloop
  simp only [empathy_account_manager_request_global_presence, tp_strdiff, hloop,
    presence_requests]
  by_cases h1 : s.desired_status = status <;>
    by_cases h2 : s.desired_status_message = message <;> simp [h1, h2]

/-- C11: after `empathy_account_manager_request_global_presence` the stored
desired presence is exactly the triple of the call, whatever was stored before
and whether or not a string of the call is null or equal to the stored one. -/
theorem request_global_presence_desired (s : EmpathyAccountManager)
    (type : TpConnectionPresenceType) (status message : Option String) :
    (empathy_account_manager_request_global_presence s type status message).desired_presence =
      type ∧
    (empathy_account_manager_request_global_presence s type status message).desired_status =
      status ∧
    (empathy_account_manager_request_global_presence s type status message).desired_status_message =
      message ∧
    desired_presence_triple
        (empathy_account_manager_request_global_presence s type status message) =
      (type, status, message) := by
  rw [request_global_presence_eq]
  exact ⟨rfl, rfl, rfl, rfl⟩

theorem table_handles_eq (t : AccountTable) :
    table_handles t = (g_hash_table_values t).map EmpathyAccount.handle := by
  simp [table_handles, g_hash_table_values, List.map_map, Function.comp_def]

theorem mem_presence_requests (t : AccountTable) (type : TpConnectionPresenceType)
    (status message : Option String) (e : Effect) :
    e ∈ presence_requests t type status message ↔
      ∃ a ∈ g_hash_table_values t, a.ready = true ∧
        e = Effect.request_presence (some a.handle) type status message := by
  simp only [presence_requests, List.mem_map, List.mem_filter]
  constructor
  · rintro ⟨a, ⟨ha, hr⟩, rfl⟩
    exact ⟨a, ha, hr, rfl⟩
  · rintro ⟨a, ha, hr, rfl⟩
    exact ⟨a, ⟨ha, hr⟩, rfl⟩

/-- Among accounts with distinct handles, the requests owed to the ready ones
hold the request to a given account once if it is ready and not at all if it
is not. -/
theorem count_requests_of_nodup (type : TpConnectionPresenceType)
    (status message : Option String) (l : List EmpathyAccount)
    (hl : (l.map EmpathyAccount.handle).Nodup) (a : EmpathyAccount) (ha : a ∈ l) :
    ((l.filter (fun b => b.ready)).map
        (fun b => Effect.request_presence (some b.handle) type status message)).count
      (Effect.request_presence (some a.handle) type status message) =
      if a.ready = true then 1 else 0 := by
  induction l with
  | nil => cases ha
  | cons x xs ih =>
    simp only [List.map_cons, List.nodup_cons, List.mem_map, not_exists, not_and] at hl
    obtain ⟨hx, hxs⟩ := hl
    by_cases hax : a = x
    · subst hax
      have hzero : ((xs.filter (fun b => b.ready)).map
          (fun b => Effect.request_presence (some b.handle) type status message)).count
          (Effect.request_presence (some a.handle) type status message) = 0 := by
        rw [List.count_eq_zero]
        intro hm
        simp only [List.mem_map, List.mem_filter] at hm
        obtain ⟨b, ⟨hb, _⟩, hbe⟩ := hm
        injection hbe with h1
        injection h1 with h1
        exact hx b hb h1
      by_cases hr : a.ready = true
      · simp [List.filter_cons, hr, hzero]
      · simp [List.filter_cons, hr, hzero]
    · have ha' : a ∈ xs := by
        rcases List.mem_cons.1 ha with h | h
        · exact absurd h hax
        · exact h
      have hne : x.handle ≠ a.handle := fun h => hx a ha' h.symm
      have ih' := ih hxs ha'
      by_cases hr : x.ready = true
      · simp only [List.filter_cons, hr, if_true, List.map_cons]
        rw [List.count_cons_of_ne]
        · exact ih'
        · intro hc
          injection hc with h1
          injection h1 with h1
          exact hne h1.symm
      · simp only [List.filter_cons, hr]
        exact ih'

/-- C12: `empathy_account_manager_request_global_presence` logs one request
with the triple of the call for each ready account of the table and nothing
else.  With distinct account objects in the table, a tracked account gets the
request exactly once if it is ready and no request at all if it is not, and a
handle that is not tracked gets none. -/
theorem request_global_presence_requests (s : EmpathyAccountManager)
    (type : TpConnectionPresenceType) (status message : Option String)
    (hh : (table_handles s.accounts).Nodup) :
    (empathy_account_manager_request_global_presence s type status message).log =
      s.log ++ presence_requests s.accounts type status message ∧
    (∀ e ∈ presence_requests s.accounts type status message,
      ∃ a ∈ g_hash_table_values s.accounts, a.ready = true ∧
        e = Effect.request_presence (some a.handle) type status message) ∧
    (∀ a ∈ g_hash_table_values s.accounts,
      (presence_requests s.accounts type status message).count
        (Effect.request_presence (some a.handle) type status message) =
        if a.ready = true then 1 else 0) ∧
    (∀ a ∈ g_hash_table_values s.accounts, a.ready = false →
      ∀ t st m, Effect.request_presence (some a.handle) t st m ∉
        presence_requests s.accounts type status message) ∧
    (∀ h, h ∉ table_handles s.accounts →
      ∀ t st m, Effect.request_presence (some h) t st m ∉
        presence_requests s.accounts type status message) := by
  rw [table_handles_eq] at hh
  refine ⟨by rw [request_global_presence_eq], ?_, ?_, ?_, ?_⟩
  · intro e he
    exact (mem_presence_requests _ _ _ _ e).1 he
  · intro a ha
    exact count_requests_of_nodup type status message _ hh a ha
  · intro a ha hr t st m hm
    obtain ⟨b, hb, hbr, hbe⟩ := (mem_presence_requests _ _ _ _ _).1 hm
    injection hbe with h1 _ _ _
    injection h1 with h1
    have hab : a = b := List.inj_on_of_nodup_map hh ha hb h1
    rw [hab, hbr] at hr
    cases hr
  · intro h hh' t st m hm
    obtain ⟨b, hb, _, hbe⟩ := (mem_presence_requests _ _ _ _ _).1 hm
    injection hbe with h1 _ _ _
    injection h1 with h1
    apply hh'
    rw [table_handles_eq, h1]
    exact List.mem_map_of_mem _ hb

/-! ## Well-formed tables

Every table built by the manager has distinct keys and distinct account
objects, each stored under its own unique name. -/

theorem wellFormed_of_eq {s s' : EmpathyAccountManager} (h1 : s'.accounts = s.accounts)
    (h2 : s'.next_handle = s.next_handle) (h : TableWellFormed s) : TableWellFormed s' := by
  unfold TableWellFormed at *
  rw [h1, h2]
  exact h

theorem wellFormed_init : TableWellFormed empathy_account_manager_init := by
  decide

theorem add_account_wellFormed (s : EmpathyAccountManager) (path : String)
    (h : TableWellFormed s) : TableWellFormed (account_manager_add_account s path).1 := by
  cases hl : g_hash_table_lookup s.accounts path with
  | some a => rw [add_account_of_some hl]; exact h
  | none =>
    have hk := add_account_keys_nodup s path h.1
    rw [add_account_of_none hl] at hk ⊢
    obtain ⟨_, hh, he⟩ := h
    refine ⟨hk, ?_, ?_⟩
    · simp only [EmpathyAccountManager.emit, table_handles, List.map_append, List.map_cons,
        List.map_nil]
      refine List.Nodup.append hh (List.nodup_singleton _) ?_
      simp only [List.disjoint_singleton, List.mem_map, not_exists, not_and]
      intro e hm heq
      have := (he e hm).2
      simp only [empathy_account_new] at heq
      omega
    · intro e hm
      simp only [EmpathyAccountManager.emit, List.mem_append, List.mem_singleton] at hm
      rcases hm with hm | rfl
      · exact ⟨(he e hm).1, Nat.lt_succ_of_lt (he e hm).2⟩
      · exact ⟨rfl, Nat.lt_succ_self _⟩

theorem add_accounts_wellFormed (paths : List String) (s : EmpathyAccountManager)
    (h : TableWellFormed s) :
    TableWellFormed (paths.foldl (fun st p => (account_manager_add_account st p).1) s) := by
  induction paths generalizing s with
  | nil => exact h
  | cons p ps ih => exact ih _ (add_account_wellFormed s p h)

theorem account_update_wellFormed (s : EmpathyAccountManager) (name : String)
    (f : EmpathyAccount → EmpathyAccount)
    (hf : ∀ a, (f a).handle = a.handle ∧ (f a).unique_name = a.unique_name)
    (h : TableWellFormed s) :
    TableWellFormed { s with accounts := account_update s.accounts name f } := by
  obtain ⟨hk, hh, he⟩ := h
  refine ⟨by rw [account_update_keys]; exact hk, ?_, ?_⟩
  · have : table_handles (account_update s.accounts name f) = table_handles s.accounts := by
      simp only [table_handles, account_update, List.map_map]
      apply List.map_congr_left
      intro e _
      by_cases hn : e.1 = name <;> simp [hn, (hf e.2).1]
    rw [this]
    exact hh
  · intro e hm
    rcases mem_account_update.1 hm with ⟨e0, h0, _, rfl⟩ | ⟨hm', _⟩
    · exact ⟨((hf e0.2).2).trans (he e0 h0).1, by rw [(hf e0.2).1]; exact (he e0 h0).2⟩
    · exact he e hm'

theorem removed_cb_wellFormed (s : EmpathyAccountManager) (account : EmpathyAccount)
    (h : TableWellFormed s) : TableWellFormed (emp_account_removed_cb s account) := by
  obtain ⟨hk, hh, he⟩ := h
  refine ⟨remove_keys_nodup _ _ hk, ?_, ?_⟩
  · exact List.Nodup.sublist (List.Sublist.map _ (List.filter_sublist s.accounts)) hh
  · intro e hm
    exact he e (List.mem_of_mem_filter hm)

theorem presence_changed_cb_next_handle (availability : TpConnectionPresenceType → Nat)
    (s : EmpathyAccountManager) (account : EmpathyAccount)
    (presence : TpConnectionPresenceType) (status status_message : Option String) :
    (emp_account_presence_changed_cb availability s account presence status
      status_message).next_handle = s.next_handle := by
  simp only [emp_account_presence_changed_cb, emp_account_manager_update_global_presence]
  split
  · rfl
  · split
    · split <;> rfl
    · rfl

theorem check_ready_next_handle (s : EmpathyAccountManager) :
    (empathy_account_manager_check_ready s).next_handle = s.next_handle := by
  unfold empathy_account_manager_check_ready
  split
  · rfl
  · split <;> rfl

theorem emit_next_handle (s : EmpathyAccountManager) (e : Effect) :
    (s.emit e).next_handle = s.next_handle := rfl

theorem ready_cb_next_handle (s : EmpathyAccountManager) (account : EmpathyAccount) :
    (emp_account_ready_cb s account).next_handle = s.next_handle := by
  unfold emp_account_ready_cb
  split
  · rfl
  · rw [check_ready_next_handle]
    simp only [emit_next_handle]

theorem step_wellFormed (availability : TpConnectionPresenceType → Nat)
    (s : EmpathyAccountManager) (e : Event) (h : TableWellFormed s) :
    TableWellFormed (account_manager_step availability s e) := by
  have hsig : ∀ (name : String) (f : EmpathyAccount → EmpathyAccount)
      (callback : EmpathyAccountManager → EmpathyAccount → EmpathyAccountManager),
      (∀ a, (f a).handle = a.handle ∧ (f a).unique_name = a.unique_name) →
      (∀ st a, TableWellFormed st → TableWellFormed (callback st a)) →
      TableWellFormed (account_signal s name f callback) := by
    intro name f callback hf hcb
    unfold account_signal
    split
    · exact h
    · exact hcb _ _ (account_update_wellFormed s name f hf h)
  cases e with
  | validity_changed path valid =>
    simp only [account_manager_step, account_validity_changed_cb]
    split
    · exact h
    · exact add_account_wellFormed s path h
  | got_all valid_accounts error =>
    cases error with
    | some e => exact h
    | none =>
      simp only [account_manager_step, account_manager_got_all_cb]
      exact wellFormed_of_eq (check_ready_accounts _) (check_ready_next_handle _)
        (add_accounts_wellFormed valid_accounts s h)
  | account_ready name ready =>
    exact hsig _ _ _ (fun a => ⟨rfl, rfl⟩)
      (fun st a hst => wellFormed_of_eq (ready_cb_accounts st a) (ready_cb_next_handle st a) hst)
  | account_connection name connection =>
    refine hsig _ _ _ (fun a => ⟨rfl, rfl⟩) (fun st a hst => ?_)
    unfold emp_account_connection_cb
    split <;> exact hst
  | account_enabled name enabled =>
    refine hsig _ _ _ (fun a => ⟨rfl, rfl⟩) (fun st a hst => ?_)
    unfold emp_account_enabled_cb
    split <;> exact hst
  | account_status_changed name new reason =>
    refine hsig _ _ _ (fun a => ⟨rfl, rfl⟩) (fun st a hst => ?_)
    split
    · refine wellFormed_of_eq (status_changed_cb_accounts _ _ _ _ _) ?_ hst
      rename_i before _
      cases before.connection_status <;> cases new <;> rfl
    · exact hst
  | account_presence_changed name presence status status_message =>
    exact hsig _ _ _ (fun a => ⟨rfl, rfl⟩)
      (fun st a hst => wellFormed_of_eq (presence_changed_cb_accounts _ _ _ _ _ _)
        (presence_changed_cb_next_handle _ _ _ _ _ _) hst)
  | account_removed name =>
    exact hsig _ _ _ (fun a => ⟨rfl, rfl⟩) (fun st a hst => removed_cb_wellFormed st a hst)
  | request_global_presence type status message =>
    simp only [account_manager_step]
    rw [request_global_presence_eq]
    exact h
  | created account_path error result =>
    cases error with
    | some e => exact h
    | none =>
      simp only [account_manager_step, empathy_account_manager_created_cb]
      split
      · exact add_account_wellFormed s account_path h
      · exact add_account_wellFormed s account_path h
  | create_account_finish result =>
    simp only [account_manager_step, empathy_account_manager_create_account_finish]
    split <;> exact h
  | remove name =>
    simp only [account_manager_step]
    split <;> exact h

/-- Every state reached from a well-formed one, so every state reached from
the initial state, has a well-formed table. -/
theorem run_wellFormed (availability : TpConnectionPresenceType → Nat) (events : List Event)
    (s : EmpathyAccountManager) (h : TableWellFormed s) :
    TableWellFormed (account_manager_run availability s events) := by
  induction events generalizing s with
  | nil => exact h
  | cons e es ih => exact ih _ (step_wellFormed availability s e h)

/-- C12, at a concrete input: `/a` is ready and `/b` is not; the call logs one
request, to `/a`. -/
theorem request_global_presence_requests_witness :
    (table_handles ready_and_pending_state.accounts).Nodup ∧
    (empathy_account_manager_request_global_presence ready_and_pending_state
        TpConnectionPresenceType.AVAILABLE (some "available") none).log =
      ready_and_pending_state.log ++ presence_requests ready_and_pending_state.accounts
        TpConnectionPresenceType.AVAILABLE (some "available") none ∧
    presence_requests ready_and_pending_state.accounts
        TpConnectionPresenceType.AVAILABLE (some "available") none =
      [Effect.request_presence (some 1) TpConnectionPresenceType.AVAILABLE
        (some "available") none] :=
  ⟨by decide,
    (request_global_presence_requests ready_and_pending_state
      TpConnectionPresenceType.AVAILABLE (some "available") none (by decide)).1,
    by decide⟩

/-! ## Queries -/

theorem mem_values_iff (t : AccountTable) (a : EmpathyAccount) :
    a ∈ g_hash_table_values t ↔ ∃ k, (k, a) ∈ t := by
  simp only [g_hash_table_values, List.mem_map]
  constructor
  · rintro ⟨e, he, rfl⟩
    exact ⟨e.1, he⟩
  · rintro ⟨k, hk⟩
    exact ⟨(k, a), hk, rfl⟩

/-- C15: `empathy_account_manager_lookup` answers the account stored under the
name, or nothing when the name is not a key of the table; after
`account_manager_add_account` the lookup of the path answers the account that
call returned.  The function only reads the table. -/
theorem lookup_returns_tracked (s : EmpathyAccountManager) (name : String)
    (hk : (table_keys s.accounts).Nodup) :
    (∀ a, (name, a) ∈ s.accounts ↔ empathy_account_manager_lookup s name = some a) ∧
    (empathy_account_manager_lookup s name = none ↔ name ∉ table_keys s.accounts) ∧
    (∀ path, empathy_account_manager_lookup (account_manager_add_account s path).1 path =
      some (account_manager_add_account s path).2) := by
  unfold empathy_account_manager_lookup
  refine ⟨fun a => ⟨fun ha => ?_, lookup_some_mem⟩, lookup_eq_none_iff _ _, fun path => ?_⟩
  · cases hl : g_hash_table_lookup s.accounts name with
    | none =>
      have := (lookup_eq_none_iff _ _).1 hl
      exact absurd (List.mem_map_of_mem Prod.fst ha) this
    | some b => rw [nodup_keys_unique hk (lookup_some_mem hl) ha]
  · cases hl : g_hash_table_lookup s.accounts path with
    | some a => rw [add_account_of_some hl]; exact hl
    | none =>
      rw [add_account_of_none hl]
      exact lookup_append_new _ hl

/-- C15, at a concrete input: the lookup of `/b` among two tracked accounts. -/
theorem lookup_returns_tracked_witness :
    (table_keys two_accounts_state.accounts).Nodup ∧
    empathy_account_manager_lookup two_accounts_state "/b" =
      some (account_set_presence TpConnectionPresenceType.AWAY (some "away")
        (some "back soon") { empathy_account_new 2 "/b" with ready := true }) :=
  ⟨by decide,
    ((lookup_returns_tracked two_accounts_state "/b" (by decide)).1 _).1 (by decide)⟩

/-- C16: `empathy_account_manager_get_account` answers an account exactly when
some tracked account has the given connection; the account answered is tracked
and has that connection, and the answer is nothing when no tracked account has
it. -/
theorem get_account_by_connection (s : EmpathyAccountManager) (connection : Option Nat) :
    ((empathy_account_manager_get_account s connection).isSome = true ↔
      ∃ a ∈ g_hash_table_values s.accounts, a.connection = connection) ∧
    (∀ a, empathy_account_manager_get_account s connection = some a →
      (∃ k, (k, a) ∈ s.accounts) ∧ a.connection = connection) ∧
    (empathy_account_manager_get_account s connection = none ↔
      ∀ a ∈ g_hash_table_values s.accounts, a.connection ≠ connection) := by
  unfold empathy_account_manager_get_account
  refine ⟨?_, ?_, ?_⟩
  · rw [List.find?_isSome]
    constructor
    · rintro ⟨a, ha, hc⟩
      exact ⟨a, ha, (by simpa using hc : connection = a.connection).symm⟩
    · rintro ⟨a, ha, hc⟩
      exact ⟨a, ha, by simp [hc]⟩
  · intro a ha
    have h1 := List.mem_of_find?_eq_some ha
    have h2 := List.find?_some ha
    exact ⟨(mem_values_iff _ _).1 h1, (by simpa using h2 : connection = a.connection).symm⟩
  · rw [List.find?_eq_none]
    constructor
    · intro h a ha hc
      exact h a ha (by simp [hc])
    · intro h a ha hc
      exact h a ha (by simpa using hc : connection = a.connection).symm

/-- C17: `empathy_account_manager_dup_accounts` answers the tracked accounts and
nothing else, as many as `empathy_account_manager_get_count` says, each of them
once when the account objects of the table are distinct.  The function only
reads the table. -/
theorem dup_accounts_lists_tracked (s : EmpathyAccountManager)
    (hh : (table_handles s.accounts).Nodup) :
    (∀ a, a ∈ empathy_account_manager_dup_accounts s ↔ ∃ k, (k, a) ∈ s.accounts) ∧
    (∀ a ∈ empathy_account_manager_dup_accounts s,
      (empathy_account_manager_dup_accounts s).count a = 1) ∧
    ((empathy_account_manager_dup_accounts s).length : Int) =
      empathy_account_manager_get_count s := by
  rw [table_handles_eq] at hh
  unfold empathy_account_manager_dup_accounts
  refine ⟨fun a => mem_values_iff _ a, fun a ha => ?_, ?_⟩
  · exact List.count_eq_one_of_mem (List.Nodup.of_map _ hh) ha
  · simp [empathy_account_manager_get_count, g_hash_table_size, g_hash_table_values]

/-- C17, at a concrete input: the list of two tracked accounts. -/
theorem dup_accounts_lists_tracked_witness :
    (table_handles two_accounts_state.accounts).Nodup ∧
    ((empathy_account_manager_dup_accounts two_accounts_state).length : Int) =
      empathy_account_manager_get_count two_accounts_state ∧
    empathy_account_manager_get_count two_accounts_state = 2 :=
  ⟨by decide, (dup_accounts_lists_tracked two_accounts_state (by decide)).2.2, by decide⟩

theorem dup_connections_loop (l : List EmpathyAccount) (ret : List Nat) :
    l.foldl
      (fun ret account =>
        match account.connection with
        | some connection => connection :: ret
        | none => ret)
      ret = (l.filterMap (fun a => a.connection)).reverse ++ ret := by
  induction l generalizing ret with
  | nil => rfl
  | cons a l ih =>
    simp only [List.foldl_cons]
    rw [ih]
    cases hc : a.connection with
    | none => simp [List.filterMap_cons, hc]
    | some c => simp [List.filterMap_cons, hc]

/-- C18: `empathy_account_manager_dup_connections` answers the connections of
the tracked accounts that have one, one entry for each such account (the last
account met comes first), so as many entries as there are tracked accounts
with a connection. -/
theorem dup_connections_lists_connections (s : EmpathyAccountManager) :
    empathy_account_manager_dup_connections s =
      ((g_hash_table_values s.accounts).filterMap (fun a => a.connection)).reverse ∧
    (empathy_account_manager_dup_connections s).length =
      ((g_hash_table_values s.accounts).filter (fun a => a.connection.isSome)).length ∧
    (∀ c, c ∈ empathy_account_manager_dup_connections s ↔
      ∃ a ∈ g_hash_table_values s.accounts, a.connection = some c) ∧
    (∀ c, (empathy_account_manager_dup_connections s).count c =
      ((g_hash_table_values s.accounts).filter (fun a => a.connection == some c)).length) := by
  have h : empathy_account_manager_dup_connections s =
      ((g_hash_table_values s.accounts).filterMap (fun a => a.connection)).reverse := by
    unfold empathy_account_manager_dup_connections
    rw [dup_connections_loop]
    simp
  have hlen : ∀ (l : List EmpathyAccount) (c : Nat),
      (l.filterMap (fun a => a.connection)).count c =
        (l.filter (fun a => a.connection == some c)).length := by
    intro l c
    induction l with
    | nil => rfl
    | cons a l ih =>
      cases hc : a.connection with
      | none => simp [List.filterMap_cons, List.filter_cons, hc, ih]
      | some d =>
        by_cases hd : d = c
        · simp [List.filterMap_cons, List.filter_cons, hc, ih, hd]
        · simp [List.filterMap_cons, List.filter_cons, hc, ih, hd, List.count_cons]
  have hlen2 : ∀ (l : List EmpathyAccount),
      (l.filterMap (fun a => a.connection)).length =
        (l.filter (fun a => a.connection.isSome)).length := by
    intro l
    induction l with
    | nil => rfl
    | cons a l ih =>
      cases hc : a.connection with
      | none => simp [List.filterMap_cons, List.filter_cons, hc, ih]
      | some d => simp [List.filterMap_cons, List.filter_cons, hc, ih]
  refine ⟨h, ?_, ?_, ?_⟩
  · rw [h, List.length_reverse, hlen2]
  · intro c
    rw [h, List.mem_reverse, List.mem_filterMap]
  · intro c
    rw [h, List.count_reverse, hlen]

/-! ## Removal -/

theorem remove_length (t : AccountTable) (key : String) (hk : (table_keys t).Nodup)
    (hm : key ∈ table_keys t) : (g_hash_table_remove t key).length + 1 = t.length := by
  induction t with
  | nil => cases hm
  | cons x xs ih =>
    simp only [table_keys, List.map_cons, List.nodup_cons, List.mem_cons] at hk hm
    by_cases hx : x.1 = key
    · have hall : xs.filter (fun e => !(e.1 == key)) = xs := by
        rw [List.filter_eq_self]
        intro e he
        have : e.1 ≠ key := fun h => hk.1 (hx ▸ h ▸ List.mem_map_of_mem Prod.fst he)
        simp [this]
      have hdrop : g_hash_table_remove (x :: xs) key = xs := by
        unfold g_hash_table_remove
        rw [List.filter_cons, if_neg (by simp [hx]), hall]
      rw [hdrop, List.length_cons]
    · have hm' : key ∈ table_keys xs := by
        rcases hm with h | h
        · exact absurd h.symm hx
        · exact h
      have hkeep : g_hash_table_remove (x :: xs) key = x :: g_hash_table_remove xs key := by
        unfold g_hash_table_remove
        rw [List.filter_cons, if_pos (by simp [hx])]
      rw [hkeep, List.length_cons, List.length_cons, ih hk.2 hm']

theorem lookup_remove_of_ne (t : AccountTable) (key name : String) (h : name ≠ key) :
    g_hash_table_lookup (g_hash_table_remove t key) name = g_hash_table_lookup t name := by
  unfold g_hash_table_lookup g_hash_table_remove
  rw [List.find?_filter]
  have hfun : (fun e : String × EmpathyAccount =>
      decide ((!(e.1 == key)) = true ∧ (e.1 == name) = true)) = (fun e => e.1 == name) := by
    funext e
    by_cases he : e.1 = name
    · simp [he, h]
    · simp [he]
  rw [hfun]

/-- C19: for an account stored under its unique name, `emp_account_removed_cb`
takes exactly that entry out of the table: the count goes down by one, the
lookup of the name finds nothing, the entries under other names are the same
as before, and one account-deleted signal carrying the account is emitted. -/
theorem removed_cb_removes_entry (s : EmpathyAccountManager) (account : EmpathyAccount)
    (hk : (table_keys s.accounts).Nodup)
    (ht : (account.unique_name, account) ∈ s.accounts) :
    empathy_account_manager_get_count (emp_account_removed_cb s account) =
      empathy_account_manager_get_count s - 1 ∧
    empathy_account_manager_lookup (emp_account_removed_cb s account) account.unique_name =
      none ∧
    (∀ e, e ∈ (emp_account_removed_cb s account).accounts ↔
      e ∈ s.accounts ∧ e.1 ≠ account.unique_name) ∧
    (∀ name, name ≠ account.unique_name →
      empathy_account_manager_lookup (emp_account_removed_cb s account) name =
        empathy_account_manager_lookup s name) ∧
    (emp_account_removed_cb s account).log =
      s.log ++ [Effect.account_deleted account.handle] := by
  have hm : account.unique_name ∈ table_keys s.accounts :=
    List.mem_map_of_mem Prod.fst ht
  have hmem : ∀ e, e ∈ g_hash_table_remove s.accounts account.unique_name ↔
      e ∈ s.accounts ∧ e.1 ≠ account.unique_name := by
    intro e
    simp [g_hash_table_remove, List.mem_filter]
  refine ⟨?_, ?_, hmem, ?_, rfl⟩
  · have := remove_length s.accounts account.unique_name hk hm
    simp only [empathy_account_manager_get_count, g_hash_table_size, emp_account_removed_cb,
      EmpathyAccountManager.emit]
    omega
  · unfold empathy_account_manager_lookup
    rw [lookup_eq_none_iff]
    intro hc
    simp only [table_keys, List.mem_map] at hc
    obtain ⟨e, he, hek⟩ := hc
    exact ((hmem e).1 he).2 hek
  · intro name hn
    exact lookup_remove_of_ne s.accounts account.unique_name name hn

/-- C19, at a concrete input: `/a` is removed from a table of two accounts. -/
theorem removed_cb_removes_entry_witness :
    (table_keys two_accounts_state.accounts).Nodup ∧
    empathy_account_manager_get_count two_accounts_state = 2 ∧
    empathy_account_manager_get_count
      (emp_account_removed_cb two_accounts_state
        (account_set_presence TpConnectionPresenceType.AVAILABLE (some "available")
          (some "hi") { empathy_account_new 1 "/a" with ready := true })) = 2 - 1 :=
  ⟨by decide, by decide,
    (removed_cb_removes_entry two_accounts_state
      (account_set_presence TpConnectionPresenceType.AVAILABLE (some "available")
        (some "hi") { empathy_account_new 1 "/a" with ready := true })
      (by decide) (by decide)).1⟩

/-! ## Errors of the remote calls -/

/-- C14: when the remote create-account call reports an error,
`empathy_account_manager_created_cb` leaves the manager as it was (no account is
added), stores the error in the result and completes it, and
`empathy_account_manager_create_account_finish` on that result returns no
account, hands out the error and leaves the manager as it was (no presence is
requested). -/
theorem created_cb_error (s : EmpathyAccountManager) (account_path : String) (e : String)
    (result : GSimpleAsyncResult) :
    (empathy_account_manager_created_cb s account_path (some e) result).1 = s ∧
    (empathy_account_manager_created_cb s account_path (some e) result).2.error = some e ∧
    (empathy_account_manager_created_cb s account_path (some e) result).2.completed =
      result.completed + 1 ∧
    (∀ s' : EmpathyAccountManager,
      empathy_account_manager_create_account_finish s'
        (empathy_account_manager_created_cb s account_path (some e) result).2 =
        (s', none, some e)) :=
  ⟨rfl, rfl, rfl, fun _ => rfl⟩

/-- C20: a bulk reply with an error leaves the manager exactly as it was: no
account is added, the ready flag is not touched, nothing is emitted or
requested. -/
theorem got_all_error_unchanged (availability : TpConnectionPresenceType → Nat)
    (s : EmpathyAccountManager) (valid_accounts : List String) (e : String) :
    account_manager_got_all_cb s valid_accounts (some e) = s ∧
    account_manager_step availability s (Event.got_all valid_accounts (some e)) = s ∧
    empathy_account_manager_get_count (account_manager_got_all_cb s valid_accounts (some e)) =
      empathy_account_manager_get_count s ∧
    empathy_account_manager_is_ready (account_manager_got_all_cb s valid_accounts (some e)) =
      empathy_account_manager_is_ready s ∧
    (account_manager_got_all_cb s valid_accounts (some e)).log = s.log :=
  ⟨rfl, rfl, rfl, rfl, rfl⟩

/-! ## Account creation and the desired presence -/

theorem check_ready_desired (s : EmpathyAccountManager) :
    desired_presence_triple (empathy_account_manager_check_ready s) =
      desired_presence_triple s := by
  unfold empathy_account_manager_check_ready
  split
  · rfl
  · split <;> rfl

theorem emit_desired (s : EmpathyAccountManager) (e : Effect) :
    desired_presence_triple (s.emit e) = desired_presence_triple s := rfl

theorem ready_cb_desired (s : EmpathyAccountManager) (account : EmpathyAccount) :
    desired_presence_triple (emp_account_ready_cb s account) = desired_presence_triple s := by
  unfold emp_account_ready_cb
  split
  · rfl
  · rw [check_ready_desired]
    simp only [emit_desired]

theorem add_account_desired (s : EmpathyAccountManager) (path : String) :
    desired_presence_triple (account_manager_add_account s path).1 =
      desired_presence_triple s := by
  cases h : g_hash_table_lookup s.accounts path with
  | some a => rw [add_account_of_some h]
  | none => rw [add_account_of_none h]; rfl

theorem add_accounts_desired (paths : List String) (s : EmpathyAccountManager) :
    desired_presence_triple (paths.foldl (fun st p => (account_manager_add_account st p).1) s) =
      desired_presence_triple s := by
  induction paths generalizing s with
  | nil => rfl
  | cons p ps ih =>
    simp only [List.foldl_cons]
    rw [ih, add_account_desired]

theorem presence_changed_cb_desired (availability : TpConnectionPresenceType → Nat)
    (s : EmpathyAccountManager) (account : EmpathyAccount)
    (presence : TpConnectionPresenceType) (status status_message : Option String) :
    desired_presence_triple (emp_account_presence_changed_cb availability s account presence
      status status_message) = desired_presence_triple s := by
  simp only [emp_account_presence_changed_cb, emp_account_manager_update_global_presence]
  split
  · rfl
  · split
    · split <;> rfl
    · rfl

theorem account_signal_desired (s : EmpathyAccountManager) (name : String)
    (f : EmpathyAccount → EmpathyAccount)
    (callback : EmpathyAccountManager → EmpathyAccount → EmpathyAccountManager)
    (h : ∀ st a, desired_presence_triple (callback st a) = desired_presence_triple st) :
    desired_presence_triple (account_signal s name f callback) = desired_presence_triple s := by
  unfold account_signal
  split
  · rfl
  · rw [h]
    rfl

/-- Only `empathy_account_manager_request_global_presence` writes the desired
presence. -/
theorem step_desired (availability : TpConnectionPresenceType → Nat)
    (s : EmpathyAccountManager) (e : Event) (he : e.requests_global_presence = false) :
    desired_presence_triple (account_manager_step availability s e) =
      desired_presence_triple s := by
  cases e with
  | validity_changed path valid =>
    simp only [account_manager_step, account_validity_changed_cb]
    split
    · rfl
    · exact add_account_desired s path
  | got_all valid_accounts error =>
    cases error with
    | some e => rfl
    | none =>
      simp only [account_manager_step, account_manager_got_all_cb]
      rw [check_ready_desired, add_accounts_desired]
  | account_ready name ready => exact account_signal_desired _ _ _ _ ready_cb_desired
  | account_connection name connection =>
    refine account_signal_desired _ _ _ _ (fun st a => ?_)
    unfold emp_account_connection_cb
    split <;> rfl
  | account_enabled name enabled =>
    refine account_signal_desired _ _ _ _ (fun st a => ?_)
    unfold emp_account_enabled_cb
    split <;> rfl
  | account_status_changed name new reason =>
    refine account_signal_desired _ _ _ _ (fun st a => ?_)
    split
    · rename_i before _
      cases before.connection_status <;> cases new <;> rfl
    · rfl
  | account_presence_changed name presence status status_message =>
    exact account_signal_desired _ _ _ _
      (fun st a => presence_changed_cb_desired availability st a _ _ _)
  | account_removed name => exact account_signal_desired _ _ _ _ (fun st a => rfl)
  | request_global_presence type status message => cases he
  | created account_path error result =>
    cases error with
    | some e => rfl
    | none =>
      simp only [account_manager_step, empathy_account_manager_created_cb]
      split
      · exact add_account_desired s account_path
      · rw [emit_desired]; exact add_account_desired s account_path
  | create_account_finish result =>
    simp only [account_manager_step, empathy_account_manager_create_account_finish]
    split <;> rfl
  | remove name =>
    simp only [account_manager_step]
    split <;> rfl

theorem run_desired (availability : TpConnectionPresenceType → Nat) (events : List Event)
    (s : EmpathyAccountManager) (he : ∀ e ∈ events, e.requests_global_presence = false) :
    desired_presence_triple (account_manager_run availability s events) =
      desired_presence_triple s := by
  induction events generalizing s with
  | nil => rfl
  | cons e es ih =>
    have h1 := step_desired availability s e (he e (List.mem_cons_self _ _))
    have h2 := ih (account_manager_step availability s e)
      (fun e' he' => he e' (List.mem_cons_of_mem _ he'))
    exact h2.trans h1

/-- C13: a create-account result without error, completed by
`empathy_account_manager_created_ready_cb` for the account once it is ready,
makes `empathy_account_manager_create_account_finish` return that account and
log one presence request on it with the desired presence of the manager; after
a call of `empathy_account_manager_request_global_presence` followed by events
that are no such call, this is the triple of that call.
`empathy_account_manager_created_cb` tracks the account under the path of the
reply and completes the result at once when the account is ready, and else
waits for its readiness notification. -/
theorem create_account_finish_requests_desired (availability : TpConnectionPresenceType → Nat)
    (s0 : EmpathyAccountManager) (type : TpConnectionPresenceType)
    (status message : Option String) (events : List Event)
    (account : EmpathyAccount) (result : GSimpleAsyncResult)
    (hev : ∀ e ∈ events, e.requests_global_presence = false)
    (hready : account.ready = true) (herr : result.error = none) :
    (∀ s : EmpathyAccountManager,
      empathy_account_manager_create_account_finish s
          (empathy_account_manager_created_ready_cb account result) =
        (s.emit (Effect.request_presence (some account.handle) s.desired_presence
          s.desired_status s.desired_status_message), some account.handle, none)) ∧
    empathy_account_manager_create_account_finish
        (account_manager_run availability
          (empathy_account_manager_request_global_presence s0 type status message) events)
        (empathy_account_manager_created_ready_cb account result) =
      ((account_manager_run availability
          (empathy_account_manager_request_global_presence s0 type status message) events).emit
        (Effect.request_presence (some account.handle) type status message),
        some account.handle, none) ∧
    (∀ (s : EmpathyAccountManager) (path : String),
      empathy_account_manager_lookup
          (empathy_account_manager_created_cb s path none result).1 path =
        some (account_manager_add_account s path).2) ∧
    (∀ (s : EmpathyAccountManager) (path : String),
      (account_manager_add_account s path).2.ready = true →
      (empathy_account_manager_created_cb s path none result).2 =
        empathy_account_manager_created_ready_cb (account_manager_add_account s path).2
          result) ∧
    (∀ (s : EmpathyAccountManager) (path : String),
      (account_manager_add_account s path).2.ready = false →
      (empathy_account_manager_created_cb s path none result).2 = result ∧
      (empathy_account_manager_created_cb s path none result).1 =
        (account_manager_add_account s path).1.emit
          (Effect.signal_connect (account_manager_add_account s path).2.handle "notify::ready"
            "empathy_account_manager_created_ready_cb")) := by
  have hfin : ∀ s : EmpathyAccountManager,
      empathy_account_manager_create_account_finish s
          (empathy_account_manager_created_ready_cb account result) =
        (s.emit (Effect.request_presence (some account.handle) s.desired_presence
          s.desired_status s.desired_status_message), some account.handle, none) := by
    intro s
    simp [empathy_account_manager_create_account_finish,
      empathy_account_manager_created_ready_cb, hready, herr]
  have hlook : ∀ (s : EmpathyAccountManager) (path : String),
      g_hash_table_lookup (account_manager_add_account s path).1.accounts path =
        some (account_manager_add_account s path).2 := by
    intro s path
    cases hl : g_hash_table_lookup s.accounts path with
    | some a => rw [add_account_of_some hl]; exact hl
    | none =>
      rw [add_account_of_none hl]
      exact lookup_append_new _ hl
  refine ⟨hfin, ?_, ?_, ?_, ?_⟩
  · rw [hfin]
    have hd := run_desired availability events
      (empathy_account_manager_request_global_presence s0 type status message) hev
    have hr : desired_presence_triple
        (empathy_account_manager_request_global_presence s0 type status message) =
        (type, status, message) := by
      rw [request_global_presence_eq]
      rfl
    rw [hr] at hd
    simp only [desired_presence_triple, Prod.mk.injEq] at hd
    rw [hd.1, hd.2.1, hd.2.2]
  · intro s path
    simp only [empathy_account_manager_lookup, empathy_account_manager_created_cb]
    split
    · exact hlook s path
    · rw [emit_accounts]; exact hlook s path
  · intro s path hr
    simp only [empathy_account_manager_created_cb, hr, if_true]
  · intro s path hr
    simp only [empathy_account_manager_created_cb, hr, Bool.false_eq_true, if_false, and_self]

/-- C13, at a concrete input: available is requested on a fresh manager, then
the created account `/a` is announced and becomes ready; finishing the
creation requests available on it. -/
theorem create_account_finish_requests_desired_witness :
    empathy_account_manager_create_account_finish
        (account_manager_run tp_availability
          (empathy_account_manager_request_global_presence empathy_account_manager_init
            TpConnectionPresenceType.AVAILABLE (some "available") none)
          [Event.created "/a" none g_simple_async_result_new, Event.account_ready "/a" true])
        (empathy_account_manager_created_ready_cb
          { empathy_account_new 1 "/a" with ready := true } g_simple_async_result_new) =
      ((account_manager_run tp_availability
          (empathy_account_manager_request_global_presence empathy_account_manager_init
            TpConnectionPresenceType.AVAILABLE (some "available") none)
          [Event.created "/a" none g_simple_async_result_new,
           Event.account_ready "/a" true]).emit
        (Effect.request_presence (some 1) TpConnectionPresenceType.AVAILABLE
          (some "available") none), some 1, none) :=
  (create_account_finish_requests_desired tp_availability empathy_account_manager_init
    TpConnectionPresenceType.AVAILABLE (some "available") none
    [Event.created "/a" none g_simple_async_result_new, Event.account_ready "/a" true]
    { empathy_account_new 1 "/a" with ready := true } g_simple_async_result_new
    (by decide) (by decide) (by decide)).2.1

/-! ## Signals of the status and presence handlers -/

/-- C22: a presence-changed event whose presence strictly outranks the cached
type makes the account the leader, caches the three values of the event and
emits one global-presence-changed signal with them; nothing else changes and
the table plays no part. -/
theorem presence_changed_outranks (availability : TpConnectionPresenceType → Nat)
    (s : EmpathyAccountManager) (account : EmpathyAccount)
    (presence : TpConnectionPresenceType) (status status_message : Option String)
    (h : tp_connection_presence_type_cmp_availability availability presence
      s.global_presence > 0) :
    emp_account_presence_changed_cb availability s account presence status status_message =
      ({ s with
          global_account := some account.handle
          global_presence := presence
          global_status := status
          global_status_message := status_message } : EmpathyAccountManager).emit
        (Effect.global_presence_changed presence status status_message) ∧
    cached_snapshot
        (emp_account_presence_changed_cb availability s account presence status
          status_message) = (some account.handle, presence, status, status_message) ∧
    (emp_account_presence_changed_cb availability s account presence status
        status_message).log =
      s.log ++ [Effect.global_presence_changed presence status status_message] ∧
    (∀ t : AccountTable,
      cached_snapshot
          (emp_account_presence_changed_cb availability { s with accounts := t } account
            presence status status_message) =
        (some account.handle, presence, status, status_message)) := by
  have h1 : emp_account_presence_changed_cb availability s account presence status
      status_message =
      ({ s with
          global_account := some account.handle
          global_presence := presence
          global_status := status
          global_status_message := status_message } : EmpathyAccountManager).emit
        (Effect.global_presence_changed presence status status_message) := by
    simp only [emp_account_presence_changed_cb]
    rw [if_pos h]
  refine ⟨h1, by rw [h1]; rfl, by rw [h1]; rfl, fun t => ?_⟩
  simp only [emp_account_presence_changed_cb]
  rw [if_pos h]
  rfl

/-- C22, at a concrete input: nothing is cached yet and `/a` goes away. -/
theorem presence_changed_outranks_witness :
    cached_snapshot
      (emp_account_presence_changed_cb tp_availability ready_and_pending_state
        { empathy_account_new 1 "/a" with ready := true }
        TpConnectionPresenceType.AWAY (some "away") none) =
      (some 1, TpConnectionPresenceType.AWAY, some "away", none) :=
  (presence_changed_outranks tp_availability ready_and_pending_state
    { empathy_account_new 1 "/a" with ready := true }
    TpConnectionPresenceType.AWAY (some "away") none (by decide)).2.1

/-- C23: a presence-changed event whose presence does not strictly outrank the
cached type and whose account is not the cached leader leaves the whole state
as it was, the log included. -/
theorem presence_changed_no_change (availability : TpConnectionPresenceType → Nat)
    (s : EmpathyAccountManager) (account : EmpathyAccount)
    (presence : TpConnectionPresenceType) (status status_message : Option String)
    (h1 : ¬ tp_connection_presence_type_cmp_availability availability presence
      s.global_presence > 0)
    (h2 : s.global_account ≠ some account.handle) :
    emp_account_presence_changed_cb availability s account presence status status_message =
      s := by
  simp only [emp_account_presence_changed_cb]
  rw [if_neg h1, if_neg h2]

/-- C23, at a concrete input: `/a` (available) leads and `/b` goes busy. -/
theorem presence_changed_no_change_witness :
    emp_account_presence_changed_cb tp_availability two_accounts_state
      { empathy_account_new 2 "/b" with ready := true }
      TpConnectionPresenceType.BUSY (some "busy") none = two_accounts_state :=
  presence_changed_no_change tp_availability two_accounts_state
    { empathy_account_new 2 "/b" with ready := true }
    TpConnectionPresenceType.BUSY (some "busy") none (by decide) (by decide)

/-- C26: `empathy_account_manager_remove` does nothing: the state after the call
is the state before it, so the table, the counters, the ready flag, the cached
snapshot, the desired presence and the log are the same and every lookup
answers as before. -/
theorem remove_does_nothing (availability : TpConnectionPresenceType → Nat)
    (s : EmpathyAccountManager) (account : EmpathyAccount) (name : String) :
    empathy_account_manager_remove s account = s ∧
    account_manager_step availability s (Event.remove name) = s ∧
    empathy_account_manager_lookup (empathy_account_manager_remove s account)
        account.unique_name =
      empathy_account_manager_lookup s account.unique_name ∧
    empathy_account_manager_get_count (empathy_account_manager_remove s account) =
      empathy_account_manager_get_count s ∧
    (empathy_account_manager_remove s account).log = s.log := by
  refine ⟨rfl, ?_, rfl, rfl, rfl⟩
  simp only [account_manager_step, empathy_account_manager_remove]
  split <;> rfl

/-- C29: on an empty table a bulk reply without error that lists no account
leaves the ready flag set and the table empty and does not touch the global
presence; the `ready` notification is emitted then, unless the flag was set
(and notified) before.  On a freshly initialised manager the notification is
the only effect and the global presence is still unset with no strings. -/
theorem got_all_empty_sets_ready (s : EmpathyAccountManager) (h : s.accounts = []) :
    empathy_account_manager_is_ready (account_manager_got_all_cb s [] none) = true ∧
    empathy_account_manager_get_count (account_manager_got_all_cb s [] none) = 0 ∧
    empathy_account_manager_get_global_presence (account_manager_got_all_cb s [] none) =
      empathy_account_manager_get_global_presence s ∧
    (account_manager_got_all_cb s [] none).log =
      s.log ++ (if s.ready = true then [] else [Effect.notify_ready]) ∧
    (account_manager_got_all_cb empathy_account_manager_init [] none).log =
      [Effect.notify_ready] ∧
    empathy_account_manager_get_global_presence
        (account_manager_got_all_cb empathy_account_manager_init [] none) =
      (TpConnectionPresenceType.UNSET, none, none) := by
  have hc : account_manager_got_all_cb s [] none = empathy_account_manager_check_ready s := rfl
  rw [hc]
  unfold empathy_account_manager_check_ready
  by_cases hr : s.ready = true
  · rw [if_pos hr]
    simp [empathy_account_manager_is_ready, empathy_account_manager_get_count,
      g_hash_table_size, hr, h]
    decide
  · rw [if_neg hr, h]
    simp [empathy_account_manager_is_ready, empathy_account_manager_get_count,
      g_hash_table_size, g_hash_table_values, EmpathyAccountManager.emit,
      empathy_account_manager_get_global_presence, hr]
    decide

/-- C29, at the freshly initialised manager. -/
theorem got_all_empty_sets_ready_witness :
    empathy_account_manager_init.accounts = [] ∧
    empathy_account_manager_is_ready
      (account_manager_got_all_cb empathy_account_manager_init [] none) = true ∧
    empathy_account_manager_get_count
      (account_manager_got_all_cb empathy_account_manager_init [] none) = 0 :=
  ⟨rfl, (got_all_empty_sets_ready empathy_account_manager_init rfl).1,
    (got_all_empty_sets_ready empathy_account_manager_init rfl).2.1⟩

/-! ## The call window timer -/

/-- Below sixty hours the fields of `call_window_update_timer` are what the
elapsed time asks for: seconds and minutes below sixty, the three fields add
up to the elapsed time, and the hours are printed exactly from one hour on. -/
theorem call_timer_fields_below_sixty_hours (now start : Int) (h0 : 0 ≤ now - start)
    (h1 : now - start < 216000) :
    (0 ≤ (call_window_timer_fields now start).2.2 ∧
      (call_window_timer_fields now start).2.2 < 60) ∧
    (0 ≤ (call_window_timer_fields now start).2.1 ∧
      (call_window_timer_fields now start).2.1 < 60) ∧
    (call_window_timer_fields now start).1 * 3600 +
        (call_window_timer_fields now start).2.1 * 60 +
        (call_window_timer_fields now start).2.2 = now - start ∧
    (call_window_timer_shows_hours now start = true ↔ 3600 ≤ now - start) := by
  have e1 : (now - start).tmod 60 = (now - start) % 60 := Int.tmod_eq_emod h0 (by decide)
  have e2 : (now - start).tdiv 60 = (now - start) / 60 := Int.tdiv_eq_ediv h0 (by decide)
  have h2 : 0 ≤ (now - start) / 60 := by omega
  have e3 : ((now - start) / 60).tmod 60 = ((now - start) / 60) % 60 :=
    Int.tmod_eq_emod h2 (by decide)
  have e4 : ((now - start) / 60).tdiv 60 = (now - start) / 60 / 60 :=
    Int.tdiv_eq_ediv h2 (by decide)
  have h3 : 0 ≤ (now - start) / 60 / 60 := by omega
  have e5 : ((now - start) / 60 / 60).tmod 60 = ((now - start) / 60 / 60) % 60 :=
    Int.tmod_eq_emod h3 (by decide)
  simp only [call_window_timer_shows_hours, call_window_timer_fields, e1, e2, e3, e4, e5,
    gt_iff_lt, decide_eq_true_eq]
  refine ⟨⟨?_, ?_⟩, ⟨?_, ?_⟩, ?_, ?_⟩ <;> omega

/-- C30, evaluated at sixty hours: the hours are taken modulo sixty, so all three
fields are zero, they do not add up to the elapsed 216000 seconds, and the
label shows no hours. -/
theorem call_timer_hours_wrap :
    call_window_timer_fields 216000 0 = (0, 0, 0) ∧
    (call_window_timer_fields 216000 0).1 * 3600 +
        (call_window_timer_fields 216000 0).2.1 * 60 +
        (call_window_timer_fields 216000 0).2.2 ≠ 216000 - 0 ∧
    call_window_timer_shows_hours 216000 0 = false ∧
    call_window_update_timer 216000 0 = "Connected  -  00 : 00" := by
  decide

/-! ## The full recompute -/

/-- The loop of the full recompute keeps the first of the most available
accounts: when it ends on an account, every account met before it ranks
strictly lower and every account met after it ranks no higher. -/
theorem scan_loop_first (availability : TpConnectionPresenceType → Nat)
    (l : List EmpathyAccount) (best : Option EmpathyAccount × TpConnectionPresenceType) :
    (l.foldl (update_global_presence_loop availability) best = best ∧
        ∀ a ∈ l, availability a.presence ≤ availability best.2) ∨
      (∃ pre a post, l = pre ++ a :: post ∧
        l.foldl (update_global_presence_loop availability) best = (some a, a.presence) ∧
        availability best.2 < availability a.presence ∧
        (∀ b ∈ pre, availability b.presence < availability a.presence) ∧
        (∀ b ∈ post, availability b.presence ≤ availability a.presence)) := by
  induction l generalizing best with
  | nil => left; simp
  | cons x xs ih =>
    simp only [List.foldl_cons]
    have hstep := update_global_presence_loop_eq availability best x
    by_cases hx : availability best.2 < availability x.presence
    · rw [if_pos hx] at hstep
      rw [hstep]
      right
      rcases ih (some x, x.presence) with ⟨h1, h2⟩ | ⟨pre, a, post, hl, hr, hlt, hpre, hpost⟩
      · exact ⟨[], x, xs, rfl, h1, hx, by simp, h2⟩
      · refine ⟨x :: pre, a, post, by rw [hl]; rfl, hr, by simp only at hlt; omega, ?_, hpost⟩
        intro b hb
        rcases List.mem_cons.1 hb with rfl | hb
        · exact hlt
        · exact hpre b hb
    · rw [if_neg hx] at hstep
      rw [hstep]
      rcases ih best with ⟨h1, h2⟩ | ⟨pre, a, post, hl, hr, hlt, hpre, hpost⟩
      · left
        refine ⟨h1, ?_⟩
        intro b hb
        rcases List.mem_cons.1 hb with rfl | hb
        · omega
        · exact h2 b hb
      · right
        refine ⟨x :: pre, a, post, by rw [hl]; rfl, hr, hlt, ?_, hpost⟩
        intro b hb
        rcases List.mem_cons.1 hb with rfl | hb
        · omega
        · exact hpre b hb

/-- C24: when `emp_account_manager_update_global_presence` leaves a leader, the
leader is a tracked account, every account before it in iteration order ranks
strictly lower and every account after it ranks no higher (so no tracked
account outranks it and it is the first of the most available ones), and the
cached type, status and message are the ones of the leader.  The table is not
changed. -/
theorem update_global_presence_leader (availability : TpConnectionPresenceType → Nat)
    (s : EmpathyAccountManager) (h : Nat)
    (hl : (emp_account_manager_update_global_presence availability s).global_account =
      some h) :
    (emp_account_manager_update_global_presence availability s).accounts = s.accounts ∧
    ∃ pre a post, g_hash_table_values s.accounts = pre ++ a :: post ∧
      a.handle = h ∧
      (∃ k, (k, a) ∈ s.accounts) ∧
      (∀ b ∈ pre, availability b.presence < availability a.presence) ∧
      (∀ b ∈ post, availability b.presence ≤ availability a.presence) ∧
      (∀ b ∈ g_hash_table_values s.accounts,
        availability b.presence ≤ availability a.presence) ∧
      (emp_account_manager_update_global_presence availability s).global_presence =
        a.presence ∧
      (emp_account_manager_update_global_presence availability s).global_status =
        a.status ∧
      (emp_account_manager_update_global_presence availability s).global_status_message =
        a.status_message := by
  rcases scan_loop_first availability (g_hash_table_values s.accounts)
      (none, TpConnectionPresenceType.OFFLINE) with
    ⟨h1, _⟩ | ⟨pre, a, post, hv, hr, _, hpre, hpost⟩
  · simp only [emp_account_manager_update_global_presence, h1] at hl
    cases hl
  · have hs := update_global_presence_of_some availability s a a.presence hr
    rw [hs] at hl ⊢
    simp only [Option.some.injEq] at hl
    have hmem : a ∈ g_hash_table_values s.accounts := by rw [hv]; simp
    refine ⟨rfl, pre, a, post, hv, hl, (mem_values_iff _ _).1 hmem, hpre, hpost, ?_, rfl, rfl,
      rfl⟩
    intro b hb
    rw [hv] at hb
    rcases List.mem_append.1 hb with hb | hb
    · exact Nat.le_of_lt (hpre b hb)
    · rcases List.mem_cons.1 hb with rfl | hb
      · exact le_refl _
      · exact hpost b hb

/-- C24, at a concrete input: `/a` and `/b` are both away; the recompute keeps
`/a`, the first of the two. -/
theorem update_global_presence_leader_witness :
    (emp_account_manager_update_global_presence tp_availability
      (account_manager_step tp_availability two_accounts_state
        (Event.account_presence_changed "/a" TpConnectionPresenceType.AWAY
          (some "away too") none))).global_account = some 1 ∧
    (emp_account_manager_update_global_presence tp_availability
      (account_manager_step tp_availability two_accounts_state
        (Event.account_presence_changed "/a" TpConnectionPresenceType.AWAY
          (some "away too") none))).accounts =
      (account_manager_step tp_availability two_accounts_state
        (Event.account_presence_changed "/a" TpConnectionPresenceType.AWAY
          (some "away too") none)).accounts :=
  ⟨by decide,
    (update_global_presence_leader tp_availability
      (account_manager_step tp_availability two_accounts_state
        (Event.account_presence_changed "/a" TpConnectionPresenceType.AWAY
          (some "away too") none)) 1 (by decide)).1⟩

/-! ## The account-created signal -/

theorem count_emit (s : EmpathyAccountManager) (e e' : Effect) :
    (s.emit e').log.count e = s.log.count e + if e' = e then 1 else 0 := by
  simp only [EmpathyAccountManager.emit, List.count_append, List.count_singleton, beq_iff_eq]

theorem count_check_ready (s : EmpathyAccountManager) (e : Effect)
    (he : e ≠ Effect.notify_ready) :
    (empathy_account_manager_check_ready s).log.count e = s.log.count e := by
  unfold empathy_account_manager_check_ready
  split
  · rfl
  · split
    · rw [count_emit, if_neg (fun h => he h.symm)]
      rfl
    · rfl

/-- Each run of `emp_account_ready_cb` on a ready account emits account-created
for it once; on an account that is not ready it emits nothing. -/
theorem ready_cb_count_created (s : EmpathyAccountManager) (account : EmpathyAccount) :
    (emp_account_ready_cb s account).log.count (Effect.account_created account.handle) =
      s.log.count (Effect.account_created account.handle) +
        if account.ready = true then 1 else 0 := by
  unfold emp_account_ready_cb
  by_cases hr : account.ready = true
  · rw [if_neg (by simp [hr]), if_pos hr, count_check_ready _ _ (by simp)]
    simp only [count_emit]
    simp
  · rw [if_pos (by simpa using hr), if_neg hr]
    rfl

theorem lookup_cons (y : String × EmpathyAccount) (ys : AccountTable) (name : String) :
    g_hash_table_lookup (y :: ys) name =
      if y.1 == name then some y.2 else g_hash_table_lookup ys name := by
  unfold g_hash_table_lookup
  rw [List.find?_cons]
  cases (y.1 == name) <;> rfl

theorem lookup_account_update (t : AccountTable) (name : String)
    (f : EmpathyAccount → EmpathyAccount) :
    g_hash_table_lookup (account_update t name f) name =
      (g_hash_table_lookup t name).map f := by
  induction t with
  | nil => rfl
  | cons x xs ih =>
    have e1 : account_update (x :: xs) name f =
        (if x.1 == name then (x.1, f x.2) else x) :: account_update xs name f := rfl
    rw [e1, lookup_cons, lookup_cons, ih]
    by_cases hx : x.1 = name <;> simp [hx]

/-- C25, amended: `emp_account_ready_cb` emits account-created at every
readiness notification that finds the account ready, not only at the first
one.  A notification that finds the account not ready changes nothing; one
that finds it ready adds one account-created for it; so after a sequence of
readiness notifications of a tracked account the number of account-created
signals for it has grown by the number of notifications with the account
ready. -/
theorem ready_notifications_account_created (availability : TpConnectionPresenceType → Nat)
    (s : EmpathyAccountManager) (name : String) (a : EmpathyAccount) (rs : List Bool)
    (hl : g_hash_table_lookup s.accounts name = some a) :
    (∀ (st : EmpathyAccountManager) (account : EmpathyAccount),
      account.ready = false → emp_account_ready_cb st account = st) ∧
    (∀ (st : EmpathyAccountManager) (account : EmpathyAccount),
      (emp_account_ready_cb st account).log.count (Effect.account_created account.handle) =
        st.log.count (Effect.account_created account.handle) +
          if account.ready = true then 1 else 0) ∧
    (account_manager_run availability s (rs.map (Event.account_ready name))).log.count
        (Effect.account_created a.handle) =
      s.log.count (Effect.account_created a.handle) + rs.count true := by
  refine ⟨?_, ready_cb_count_created, ?_⟩
  · intro st account hr
    simp [emp_account_ready_cb, hr]
  · have key : ∀ (rs : List Bool) (s : EmpathyAccountManager) (a : EmpathyAccount) (h : Nat),
        g_hash_table_lookup s.accounts name = some a → a.handle = h →
        (account_manager_run availability s (rs.map (Event.account_ready name))).log.count
            (Effect.account_created h) =
          s.log.count (Effect.account_created h) + rs.count true := by
      intro rs
      induction rs with
      | nil => intro s a h _ _; rfl
      | cons r rs ih =>
        intro s a h hl ha
        have hstep : account_manager_step availability s (Event.account_ready name r) =
            emp_account_ready_cb
              { s with accounts := (account_update s.accounts name
                  (fun a => { a with ready := r })) }
              { a with ready := r } := by
          simp only [account_manager_step, account_signal, hl]
        have hl' : g_hash_table_lookup
            (account_manager_step availability s (Event.account_ready name r)).accounts name =
            some { a with ready := r } := by
          rw [hstep, ready_cb_accounts]
          simp only [lookup_account_update, hl, Option.map_some']
        have hc := ready_cb_count_created
          { s with accounts := (account_update s.accounts name
              (fun a => { a with ready := r })) }
          { a with ready := r }
        rw [← hstep] at hc
        have hh : ({ a with ready := r } : EmpathyAccount).handle = h := ha
        rw [hh] at hc
        have := ih (account_manager_step availability s (Event.account_ready name r))
          { a with ready := r } h hl' ha
        simp only [List.map_cons, account_manager_run, List.foldl_cons] at this ⊢
        rw [this, hc]
        cases r
        · simp
        · simp [List.count_cons]
          omega
    exact key rs s a a.handle hl rfl

/-- C25, amended, at a concrete input: `/a` is notified ready, not ready and
ready again. -/
theorem ready_notifications_account_created_witness :
    (account_manager_run tp_availability
        (account_manager_run tp_availability empathy_account_manager_init
          [Event.validity_changed "/a" true])
        ([true, false, true].map (Event.account_ready "/a"))).log.count
      (Effect.account_created (empathy_account_new 1 "/a").handle) =
    (account_manager_run tp_availability empathy_account_manager_init
        [Event.validity_changed "/a" true]).log.count
      (Effect.account_created (empathy_account_new 1 "/a").handle) +
      [true, false, true].count true :=
  (ready_notifications_account_created tp_availability
    (account_manager_run tp_availability empathy_account_manager_init
      [Event.validity_changed "/a" true])
    "/a" (empathy_account_new 1 "/a") [true, false, true] (by decide)).2.2

/-- C25 as stated fails: `/a` becomes ready, then not ready, then ready again,
and account-created has been emitted for it twice. -/
theorem account_created_emitted_twice :
    (account_manager_run tp_availability empathy_account_manager_init
      [Event.validity_changed "/a" true, Event.account_ready "/a" true,
       Event.account_ready "/a" false, Event.account_ready "/a" true]).log.count
      (Effect.account_created 1) = 2 ∧
    g_hash_table_lookup
      (account_manager_run tp_availability empathy_account_manager_init
        [Event.validity_changed "/a" true, Event.account_ready "/a" true,
         Event.account_ready "/a" false, Event.account_ready "/a" true]).accounts "/a" =
      some { empathy_account_new 1 "/a" with ready := true } := by
  decide

/-! ## Frame of the counters and of the cached leader -/

theorem coreFrame_refl (s : EmpathyAccountManager) : CoreFrame s s :=
  ⟨rfl, rfl, rfl⟩

theorem coreFrame_trans {a b c : EmpathyAccountManager} (h1 : CoreFrame a b)
    (h2 : CoreFrame b c) : CoreFrame a c :=
  ⟨h2.1.trans h1.1, h2.2.1.trans h1.2.1, h2.2.2.trans h1.2.2⟩

theorem emit_coreFrame (s : EmpathyAccountManager) (e : Effect) : CoreFrame s (s.emit e) :=
  ⟨rfl, rfl, rfl⟩

theorem check_ready_coreFrame (s : EmpathyAccountManager) :
    CoreFrame s (empathy_account_manager_check_ready s) := by
  unfold empathy_account_manager_check_ready
  split
  · exact coreFrame_refl s
  · split
    · exact ⟨rfl, rfl, rfl⟩
    · exact coreFrame_refl s

theorem ready_cb_coreFrame (s : EmpathyAccountManager) (account : EmpathyAccount) :
    CoreFrame s (emp_account_ready_cb s account) := by
  unfold emp_account_ready_cb
  split
  · exact coreFrame_refl s
  · refine coreFrame_trans ?_ (check_ready_coreFrame _)
    exact coreFrame_trans (coreFrame_trans (coreFrame_trans (coreFrame_trans
      (coreFrame_trans (emit_coreFrame _ _) (emit_coreFrame _ _)) (emit_coreFrame _ _))
      (emit_coreFrame _ _)) (emit_coreFrame _ _)) (emit_coreFrame _ _)

theorem add_account_coreFrame (s : EmpathyAccountManager) (path : String) :
    CoreFrame s (account_manager_add_account s path).1 := by
  cases h : g_hash_table_lookup s.accounts path with
  | some a => rw [add_account_of_some h]; exact coreFrame_refl s
  | none => rw [add_account_of_none h]; exact ⟨rfl, rfl, rfl⟩

theorem add_accounts_coreFrame (paths : List String) (s : EmpathyAccountManager) :
    CoreFrame s (paths.foldl (fun st p => (account_manager_add_account st p).1) s) := by
  induction paths generalizing s with
  | nil => exact coreFrame_refl s
  | cons p ps ih => exact coreFrame_trans (add_account_coreFrame s p) (ih _)

/-- The closed form of `emp_account_status_changed_cb`. -/
theorem status_changed_cb_eq (s : EmpathyAccountManager) (account : EmpathyAccount)
    (old new : TpConnectionStatus) (reason : Nat) :
    emp_account_status_changed_cb s account old new reason =
      ({ s with
          connecting :=
            if new = TpConnectionStatus.CONNECTING then
              int_wrap ((if old = TpConnectionStatus.CONNECTING then int_wrap (s.connecting - 1)
                else s.connecting) + 1)
            else if old = TpConnectionStatus.CONNECTING then int_wrap (s.connecting - 1)
            else s.connecting
          connected :=
            if new = TpConnectionStatus.CONNECTED then
              int_wrap ((if old = TpConnectionStatus.CONNECTED then int_wrap (s.connected - 1)
                else s.connected) + 1)
            else if old = TpConnectionStatus.CONNECTED then int_wrap (s.connected - 1)
            else s.connected } :
        EmpathyAccountManager).emit
        (Effect.account_connection_changed account.handle reason new old) := by
  cases old <;> cases new <;>
    simp [emp_account_status_changed_cb, EmpathyAccountManager.emit]

/-! ## The counters and the table -/

theorem count_status_cons (x : String × EmpathyAccount) (xs : AccountTable)
    (st : TpConnectionStatus) :
    count_status (x :: xs) st =
      (if x.2.connection_status = st then 1 else 0) + count_status xs st := by
  unfold count_status g_hash_table_values
  by_cases h : x.2.connection_status = st
  · simp [List.filter_cons, h]; omega
  · simp [List.filter_cons, h]

theorem count_status_append (t u : AccountTable) (st : TpConnectionStatus) :
    count_status (t ++ u) st = count_status t st + count_status u st := by
  simp [count_status, g_hash_table_values, List.filter_append]

theorem count_status_remove (t : AccountTable) (key : String) (st : TpConnectionStatus)
    (h : ∀ e ∈ t, e.1 = key → e.2.connection_status ≠ st) :
    count_status (g_hash_table_remove t key) st = count_status t st := by
  induction t with
  | nil => rfl
  | cons x xs ih =>
    have ih' := ih (fun e he => h e (List.mem_cons_of_mem _ he))
    by_cases hx : x.1 = key
    · have hdrop : g_hash_table_remove (x :: xs) key = g_hash_table_remove xs key := by
        unfold g_hash_table_remove
        rw [List.filter_cons, if_neg (by simp [hx])]
      have := h x (List.mem_cons_self _ _) hx
      rw [hdrop, ih', count_status_cons, if_neg this]
      omega
    · have hkeep : g_hash_table_remove (x :: xs) key = x :: g_hash_table_remove xs key := by
        unfold g_hash_table_remove
        rw [List.filter_cons, if_pos (by simp [hx])]
      rw [hkeep, count_status_cons, count_status_cons, ih']

theorem countersMatch_of_eq {s s' : EmpathyAccountManager}
    (hf : s'.connected = s.connected ∧ s'.connecting = s.connecting)
    (h1 : count_status s'.accounts TpConnectionStatus.CONNECTED =
      count_status s.accounts TpConnectionStatus.CONNECTED)
    (h2 : count_status s'.accounts TpConnectionStatus.CONNECTING =
      count_status s.accounts TpConnectionStatus.CONNECTING)
    (h : CountersMatch s) : CountersMatch s' := by
  unfold CountersMatch at *
  rw [hf.1, hf.2, h1, h2]
  exact h

theorem add_account_count_status (s : EmpathyAccountManager) (path : String)
    (st : TpConnectionStatus) (hst : st ≠ TpConnectionStatus.DISCONNECTED) :
    count_status (account_manager_add_account s path).1.accounts st =
      count_status s.accounts st := by
  cases h : g_hash_table_lookup s.accounts path with
  | some a => rw [add_account_of_some h]
  | none =>
    rw [add_account_of_none h]
    simp only [EmpathyAccountManager.emit, count_status_append, count_status_cons,
      empathy_account_new]
    rw [if_neg (fun hc => hst hc.symm)]
    rfl

theorem add_account_countersMatch (s : EmpathyAccountManager) (path : String)
    (h : CountersMatch s) : CountersMatch (account_manager_add_account s path).1 :=
  countersMatch_of_eq ⟨(add_account_coreFrame s path).1, (add_account_coreFrame s path).2.1⟩
    (add_account_count_status s path _ (by decide))
    (add_account_count_status s path _ (by decide)) h

theorem add_accounts_countersMatch (paths : List String) (s : EmpathyAccountManager)
    (h : CountersMatch s) :
    CountersMatch (paths.foldl (fun st p => (account_manager_add_account st p).1) s) := by
  induction paths generalizing s with
  | nil => exact h
  | cons p ps ih => exact ih _ (add_account_countersMatch s p h)

theorem presence_changed_cb_counters (availability : TpConnectionPresenceType → Nat)
    (s : EmpathyAccountManager) (account : EmpathyAccount)
    (presence : TpConnectionPresenceType) (status status_message : Option String) :
    (emp_account_presence_changed_cb availability s account presence status
        status_message).connected = s.connected ∧
    (emp_account_presence_changed_cb availability s account presence status
        status_message).connecting = s.connecting := by
  simp only [emp_account_presence_changed_cb, emp_account_manager_update_global_presence]
  split
  · exact ⟨rfl, rfl⟩
  · split
    · split <;> exact ⟨rfl, rfl⟩
    · exact ⟨rfl, rfl⟩

theorem count_status_le_length (t : AccountTable) (st : TpConnectionStatus) :
    count_status t st ≤ t.length := by
  unfold count_status g_hash_table_values
  exact (List.length_filter_le _ _).trans (by simp)

/-! ## The cached leader and the table -/

theorem leaderTracked_of {s s' : EmpathyAccountManager}
    (hg : s'.global_account = s.global_account)
    (hsub : ∀ h ∈ table_handles s.accounts, h ∈ table_handles s'.accounts)
    (hl : LeaderTracked s) : LeaderTracked s' := by
  intro h hh
  rw [hg] at hh
  exact hsub h (hl h hh)

theorem add_account_handles (s : EmpathyAccountManager) (path : String) (h : Nat)
    (hh : h ∈ table_handles s.accounts) :
    h ∈ table_handles (account_manager_add_account s path).1.accounts := by
  cases hl : g_hash_table_lookup s.accounts path with
  | some a => rw [add_account_of_some hl]; exact hh
  | none =>
    rw [add_account_of_none hl]
    simp only [EmpathyAccountManager.emit, table_handles, List.map_append, List.mem_append]
    exact Or.inl hh

theorem add_account_leaderTracked (s : EmpathyAccountManager) (path : String)
    (hl : LeaderTracked s) : LeaderTracked (account_manager_add_account s path).1 :=
  leaderTracked_of (add_account_coreFrame s path).2.2 (add_account_handles s path) hl

theorem add_accounts_leaderTracked (paths : List String) (s : EmpathyAccountManager)
    (hl : LeaderTracked s) :
    LeaderTracked (paths.foldl (fun st p => (account_manager_add_account st p).1) s) := by
  induction paths generalizing s with
  | nil => exact hl
  | cons p ps ih => exact ih _ (add_account_leaderTracked s p hl)

/-- After a full recompute the cached leader is none or a tracked account. -/
theorem update_global_presence_leaderTracked (availability : TpConnectionPresenceType → Nat)
    (s : EmpathyAccountManager) :
    LeaderTracked (emp_account_manager_update_global_presence availability s) := by
  obtain ⟨_, _, h3⟩ := scan_loop_spec availability (g_hash_table_values s.accounts)
    (none, TpConnectionPresenceType.OFFLINE)
  rcases h3 with ⟨h4, _⟩ | ⟨a, ha, h5, _⟩
  · intro h hh
    simp only [emp_account_manager_update_global_presence, h4] at hh
    cases hh
  · rw [update_global_presence_of_some availability s a a.presence h5]
    intro h hh
    simp only [Option.some.injEq] at hh
    rw [table_handles_eq, ← hh]
    exact List.mem_map_of_mem _ ha

theorem presence_changed_cb_leaderTracked (availability : TpConnectionPresenceType → Nat)
    (s : EmpathyAccountManager) (account : EmpathyAccount)
    (presence : TpConnectionPresenceType) (status status_message : Option String)
    (ha : account.handle ∈ table_handles s.accounts) (hl : LeaderTracked s) :
    LeaderTracked (emp_account_presence_changed_cb availability s account presence status
      status_message) := by
  simp only [emp_account_presence_changed_cb]
  split
  · intro h hh
    simp only [EmpathyAccountManager.emit, Option.some.injEq] at hh
    rw [← hh]
    exact ha
  · split
    · exact leaderTracked_of (s := emp_account_manager_update_global_presence availability s)
        rfl (fun h hh => hh) (update_global_presence_leaderTracked availability s)
    · exact hl

/-! ## Signal dispatch and the table -/

theorem run_handlers_keeps {P : EmpathyAccountManager → Prop}
    (handler : EmpathyAccountManager → EmpathyAccountManager)
    (hf : ∀ st, P st → P (handler st)) (n : Nat) (s : EmpathyAccountManager) (h : P s) :
    P (run_handlers handler n s) := by
  induction n generalizing s with
  | zero => exact h
  | succ n ih => exact ih _ (hf s h)

theorem object_update_keys (t : AccountTable) (a : EmpathyAccount) :
    table_keys (object_update t a) = table_keys t := by
  simp only [table_keys, object_update, List.map_map]
  apply List.map_congr_left
  intro e _
  by_cases h : e.2.handle = a.handle <;> simp [h]

theorem object_update_handles (t : AccountTable) (a : EmpathyAccount) :
    table_handles (object_update t a) = table_handles t := by
  simp only [table_handles, object_update, List.map_map]
  apply List.map_congr_left
  intro e _
  by_cases h : e.2.handle = a.handle <;> simp [h]

theorem mem_object_update {t : AccountTable} {a : EmpathyAccount} {e : String × EmpathyAccount} :
    e ∈ object_update t a ↔
      (∃ e0 ∈ t, e0.2.handle = a.handle ∧ e = (e0.1, a)) ∨ (e ∈ t ∧ e.2.handle ≠ a.handle) := by
  simp only [object_update, List.mem_map]
  constructor
  · rintro ⟨e0, he0, rfl⟩
    by_cases hk : e0.2.handle = a.handle
    · left; exact ⟨e0, he0, hk, by simp [hk]⟩
    · right; simp [hk, he0]
  · rintro (⟨e0, he0, hk, rfl⟩ | ⟨he, hk⟩)
    · exact ⟨e0, he0, by simp [hk]⟩
    · exact ⟨e, he, by simp [hk]⟩

theorem object_update_of_not_tracked (t : AccountTable) (a : EmpathyAccount)
    (h : a.handle ∉ table_handles t) : object_update t a = t := by
  unfold object_update
  conv_rhs => rw [← List.map_id t]
  apply List.map_congr_left
  intro e he
  have : e.2.handle ≠ a.handle :=
    fun hc => h (hc ▸ List.mem_map_of_mem (fun e => e.2.handle) he)
  simp [this]

theorem object_tracked_iff (s : EmpathyAccountManager) (a : EmpathyAccount) :
    object_tracked s a = true ↔ a.handle ∈ table_handles s.accounts := by
  simp only [object_tracked, List.any_eq_true, beq_iff_eq, table_handles, List.mem_map]

theorem object_keeps_name_iff (s : EmpathyAccountManager) (a : EmpathyAccount) :
    object_keeps_name s a = true ↔
      ∀ e ∈ s.accounts, e.2.handle = a.handle → e.2.unique_name = a.unique_name := by
  simp only [object_keeps_name, List.all_eq_true, Bool.or_eq_true, bne_iff_ne, ne_eq,
    beq_iff_eq]
  constructor
  · intro h e he hh
    rcases h e he with h1 | h1
    · exact absurd hh h1
    · exact h1
  · intro h e he
    by_cases hh : e.2.handle = a.handle
    · exact Or.inr (h e he hh)
    · exact Or.inl hh

theorem object_had_status_iff (s : EmpathyAccountManager) (a : EmpathyAccount)
    (status : TpConnectionStatus) :
    object_had_status s a status = true ↔
      ∀ e ∈ s.accounts, e.2.handle = a.handle → e.2.connection_status = status := by
  simp only [object_had_status, List.all_eq_true, Bool.or_eq_true, bne_iff_ne, ne_eq,
    beq_iff_eq]
  constructor
  · intro h e he hh
    rcases h e he with h1 | h1
    · exact absurd hh h1
    · exact h1
  · intro h e he
    by_cases hh : e.2.handle = a.handle
    · exact Or.inr (h e he hh)
    · exact Or.inl hh

theorem object_update_wellFormed (s : EmpathyAccountManager) (a : EmpathyAccount)
    (hn : object_keeps_name s a = true) (h : TableWellFormed s) :
    TableWellFormed { s with accounts := object_update s.accounts a } := by
  obtain ⟨hk, hh, he⟩ := h
  rw [object_keeps_name_iff] at hn
  refine ⟨by rw [object_update_keys]; exact hk, by rw [object_update_handles]; exact hh, ?_⟩
  intro e hm
  rcases mem_object_update.1 hm with ⟨e0, h0, hh0, rfl⟩ | ⟨hm', _⟩
  · exact ⟨(hn e0 h0 hh0).symm.trans (he e0 h0).1, by rw [← hh0]; exact (he e0 h0).2⟩
  · exact he e hm'

theorem connection_cb_frame (s : EmpathyAccountManager) (account : EmpathyAccount) :
    (emp_account_connection_cb s account).accounts = s.accounts ∧
    (emp_account_connection_cb s account).next_handle = s.next_handle ∧
    CoreFrame s (emp_account_connection_cb s account) := by
  unfold emp_account_connection_cb
  split <;> exact ⟨rfl, rfl, rfl, rfl, rfl⟩

theorem enabled_cb_frame (s : EmpathyAccountManager) (account : EmpathyAccount) :
    (emp_account_enabled_cb s account).accounts = s.accounts ∧
    (emp_account_enabled_cb s account).next_handle = s.next_handle ∧
    CoreFrame s (emp_account_enabled_cb s account) := by
  unfold emp_account_enabled_cb
  split <;> exact ⟨rfl, rfl, rfl, rfl, rfl⟩

theorem status_changed_cb_next_handle (s : EmpathyAccountManager) (account : EmpathyAccount)
    (old new : TpConnectionStatus) (reason : Nat) :
    (emp_account_status_changed_cb s account old new reason).next_handle = s.next_handle := by
  cases old <;> cases new <;> rfl

/-- Every handler keeps the table well formed. -/
theorem callback_wellFormed (availability : TpConnectionPresenceType → Nat)
    (account : EmpathyAccount) (signal : AccountSignal) (s : EmpathyAccountManager)
    (h : TableWellFormed s) : TableWellFormed (signal.callback availability account s) := by
  cases signal with
  | notify_ready => exact wellFormed_of_eq (ready_cb_accounts _ _) (ready_cb_next_handle _ _) h
  | notify_connection =>
    exact wellFormed_of_eq (connection_cb_frame _ _).1 (connection_cb_frame _ _).2.1 h
  | notify_enabled =>
    exact wellFormed_of_eq (enabled_cb_frame _ _).1 (enabled_cb_frame _ _).2.1 h
  | status_changed old new reason =>
    exact wellFormed_of_eq (status_changed_cb_accounts _ _ _ _ _)
      (status_changed_cb_next_handle _ _ _ _ _) h
  | presence_changed presence status status_message =>
    exact wellFormed_of_eq (presence_changed_cb_accounts _ _ _ _ _ _)
      (presence_changed_cb_next_handle _ _ _ _ _ _) h
  | removed => exact removed_cb_wellFormed _ _ h

theorem emits_wellFormed (availability : TpConnectionPresenceType → Nat)
    (s : EmpathyAccountManager) (account : EmpathyAccount) (signal : AccountSignal)
    (hn : object_keeps_name s account = true) (h : TableWellFormed s) :
    TableWellFormed (account_emits availability s account signal) :=
  run_handlers_keeps _ (callback_wellFormed availability account signal) _ _
    (object_update_wellFormed s account hn h)

/-- Every occurrence keeps the table well formed, an emitting account object
keeping its unique name. -/
theorem dispatch_wellFormed (availability : TpConnectionPresenceType → Nat)
    (s : EmpathyAccountManager) (o : Occurrence)
    (hn : ∀ account signal, o = Occurrence.signal account signal →
      object_keeps_name s account = true)
    (h : TableWellFormed s) : TableWellFormed (account_manager_dispatch availability s o) := by
  cases o with
  | validity_changed path valid =>
    exact step_wellFormed availability s (Event.validity_changed path valid) h
  | got_all valid_accounts error =>
    exact step_wellFormed availability s (Event.got_all valid_accounts error) h
  | signal account signal => exact emits_wellFormed availability s account signal (hn _ _ rfl) h
  | request_global_presence type status message =>
    exact step_wellFormed availability s (Event.request_global_presence type status message) h
  | created account_path error result =>
    exact step_wellFormed availability s (Event.created account_path error result) h
  | create_account_finish result =>
    exact step_wellFormed availability s (Event.create_account_finish result) h
  | remove account => exact h

/-! ## Signal dispatch and the counters -/

theorem object_update_cons (x : String × EmpathyAccount) (xs : AccountTable)
    (a : EmpathyAccount) :
    object_update (x :: xs) a =
      (if x.2.handle == a.handle then (x.1, a) else x) :: object_update xs a := rfl

theorem count_status_object_update_same (t : AccountTable) (a : EmpathyAccount)
    (st : TpConnectionStatus)
    (h : ∀ e ∈ t, e.2.handle = a.handle → e.2.connection_status = a.connection_status) :
    count_status (object_update t a) st = count_status t st := by
  induction t with
  | nil => rfl
  | cons x xs ih =>
    rw [object_update_cons, count_status_cons, count_status_cons,
      ih (fun e he => h e (List.mem_cons_of_mem _ he))]
    by_cases hx : x.2.handle = a.handle
    · have := h x (List.mem_cons_self _ _) hx
      simp [hx, this]
    · simp [hx]

/-- A status change of one tracked account object moves one unit between the
numbers of accounts per status. -/
theorem count_status_object_update_status (t : AccountTable) (a : EmpathyAccount)
    (old st : TpConnectionStatus) (hh : (table_handles t).Nodup)
    (ht : a.handle ∈ table_handles t)
    (hold : ∀ e ∈ t, e.2.handle = a.handle → e.2.connection_status = old) :
    count_status (object_update t a) st + (if old = st then 1 else 0) =
      count_status t st + (if a.connection_status = st then 1 else 0) := by
  induction t with
  | nil => cases ht
  | cons x xs ih =>
    simp only [table_handles, List.map_cons, List.nodup_cons, List.mem_cons] at hh ht
    rw [object_update_cons, count_status_cons, count_status_cons]
    by_cases hx : x.2.handle = a.handle
    · have hnot : a.handle ∉ table_handles xs := hx ▸ hh.1
      have hxo := hold x (List.mem_cons_self _ _) hx
      rw [object_update_of_not_tracked xs a hnot]
      simp only [hx, beq_self_eq_true, if_true, hxo]
      omega
    · have hin : a.handle ∈ table_handles xs := by
        rcases ht with ht | ht
        · exact absurd ht.symm hx
        · exact ht
      have := ih hh.2 hin (fun e he => hold e (List.mem_cons_of_mem _ he))
      simp only [beq_iff_eq, hx, if_false]
      omega

theorem keeps_counters_name {s : EmpathyAccountManager} {account : EmpathyAccount}
    {signal : AccountSignal}
    (h : Occurrence.keeps_counters s (Occurrence.signal account signal) = true) :
    object_keeps_name s account = true := by
  cases signal <;> simp only [Occurrence.keeps_counters, Bool.and_eq_true] at h
  · exact h.1
  · exact h.1
  · exact h.1
  · exact h.1.1.1
  · exact h.1
  · exact h.1.1

theorem keeps_counters_status {s : EmpathyAccountManager} {account : EmpathyAccount}
    {signal : AccountSignal}
    (h : Occurrence.keeps_counters s (Occurrence.signal account signal) = true)
    (hs : ∀ old new reason, signal ≠ AccountSignal.status_changed old new reason) :
    object_had_status s account account.connection_status = true := by
  cases signal <;> simp only [Occurrence.keeps_counters, Bool.and_eq_true] at h
  · exact h.2
  · exact h.2
  · exact h.2
  · exact absurd rfl (hs _ _ _)
  · exact h.2
  · exact h.1.2

theorem countersMatch_object_update_same (s : EmpathyAccountManager) (a : EmpathyAccount)
    (hs : object_had_status s a a.connection_status = true) (hc : CountersMatch s) :
    CountersMatch { s with accounts := object_update s.accounts a } := by
  rw [object_had_status_iff] at hs
  exact countersMatch_of_eq (s := s) ⟨rfl, rfl⟩ (count_status_object_update_same _ _ _ hs)
    (count_status_object_update_same _ _ _ hs) hc

/-- The handlers other than the one of status-changed and the one of removal
keep the counters and the table. -/
theorem callback_countersMatch (availability : TpConnectionPresenceType → Nat)
    (account : EmpathyAccount) (signal : AccountSignal)
    (hs : ∀ old new reason, signal ≠ AccountSignal.status_changed old new reason)
    (hr : signal ≠ AccountSignal.removed) (s : EmpathyAccountManager) (hc : CountersMatch s) :
    CountersMatch (signal.callback availability account s) := by
  cases signal with
  | notify_ready =>
    exact countersMatch_of_eq ⟨(ready_cb_coreFrame s account).1, (ready_cb_coreFrame s account).2.1⟩
      (by rw [show (AccountSignal.notify_ready.callback availability account s).accounts =
        s.accounts from ready_cb_accounts s account])
      (by rw [show (AccountSignal.notify_ready.callback availability account s).accounts =
        s.accounts from ready_cb_accounts s account]) hc
  | notify_connection =>
    have h := connection_cb_frame s account
    exact countersMatch_of_eq ⟨h.2.2.1, h.2.2.2.1⟩
      (by rw [show (AccountSignal.notify_connection.callback availability account s).accounts =
        s.accounts from h.1])
      (by rw [show (AccountSignal.notify_connection.callback availability account s).accounts =
        s.accounts from h.1]) hc
  | notify_enabled =>
    have h := enabled_cb_frame s account
    exact countersMatch_of_eq ⟨h.2.2.1, h.2.2.2.1⟩
      (by rw [show (AccountSignal.notify_enabled.callback availability account s).accounts =
        s.accounts from h.1])
      (by rw [show (AccountSignal.notify_enabled.callback availability account s).accounts =
        s.accounts from h.1]) hc
  | status_changed old new reason => exact absurd rfl (hs _ _ _)
  | presence_changed presence status status_message =>
    have h := presence_changed_cb_accounts availability s account presence status status_message
    exact countersMatch_of_eq
      (presence_changed_cb_counters availability s account presence status status_message)
      (by rw [show ((AccountSignal.presence_changed presence status status_message).callback
        availability account s).accounts = s.accounts from h])
      (by rw [show ((AccountSignal.presence_changed presence status status_message).callback
        availability account s).accounts = s.accounts from h]) hc
  | removed => exact absurd rfl hr

/-- The removal handler keeps the counters equal to the numbers of tracked
accounts per status when the account stored under the removed name is
disconnected. -/
theorem removed_cb_countersMatch (account : EmpathyAccount) (s : EmpathyAccountManager)
    (h : CountersMatch s ∧ ∀ e ∈ s.accounts, e.1 = account.unique_name →
      e.2.connection_status = TpConnectionStatus.DISCONNECTED) :
    CountersMatch (emp_account_removed_cb s account) ∧
      ∀ e ∈ (emp_account_removed_cb s account).accounts, e.1 = account.unique_name →
        e.2.connection_status = TpConnectionStatus.DISCONNECTED := by
  obtain ⟨hc, hd⟩ := h
  have hall : ∀ st, st ≠ TpConnectionStatus.DISCONNECTED →
      ∀ e ∈ s.accounts, e.1 = account.unique_name → e.2.connection_status ≠ st := by
    intro st hst e he hek
    rw [hd e he hek]
    exact fun h => hst h.symm
  constructor
  · exact countersMatch_of_eq (s := s) ⟨rfl, rfl⟩
      (count_status_remove _ _ _ (hall _ (by decide)))
      (count_status_remove _ _ _ (hall _ (by decide))) hc
  · intro e he
    exact hd e (List.mem_of_mem_filter he)

theorem lookup_of_mem {t : AccountTable} (hk : (table_keys t).Nodup) {e : String × EmpathyAccount}
    (he : e ∈ t) : g_hash_table_lookup t e.1 = some e.2 := by
  cases hl : g_hash_table_lookup t e.1 with
  | none =>
    exact absurd (List.mem_map_of_mem Prod.fst he) ((lookup_eq_none_iff t e.1).1 hl)
  | some b =>
    have := nodup_keys_unique hk (lookup_some_mem hl) he
    rw [this]

/-- The signal of an account object keeps the counters equal to the numbers of
tracked accounts per status, the account behaving as the counters need. -/
theorem emits_countersMatch (availability : TpConnectionPresenceType → Nat)
    (s : EmpathyAccountManager) (account : EmpathyAccount) (signal : AccountSignal)
    (hw : TableWellFormed s) (hc : CountersMatch s)
    (hok : Occurrence.keeps_counters s (Occurrence.signal account signal) = true) :
    CountersMatch (account_emits availability s account signal) := by
  by_cases hs : ∃ old new reason, signal = AccountSignal.status_changed old new reason
  · obtain ⟨old, new, reason, rfl⟩ := hs
    simp only [Occurrence.keeps_counters, Bool.and_eq_true, beq_iff_eq, decide_eq_true_eq] at hok
    obtain ⟨⟨⟨_, hnew⟩, hlen⟩, hcase⟩ := hok
    unfold account_emits
    by_cases ht : object_tracked s account = true
    · rw [if_pos ht] at hcase
      simp only [Bool.and_eq_true, beq_iff_eq] at hcase
      obtain ⟨hone, hold⟩ := hcase
      rw [object_had_status_iff] at hold
      rw [object_tracked_iff] at ht
      rw [hone]
      show CountersMatch (emp_account_status_changed_cb _ account old new reason)
      rw [status_changed_cb_eq]
      have h1 := count_status_object_update_status s.accounts account old
        TpConnectionStatus.CONNECTED hw.2.1 ht hold
      have h2 := count_status_object_update_status s.accounts account old
        TpConnectionStatus.CONNECTING hw.2.1 ht hold
      have l1 := count_status_le_length (object_update s.accounts account)
        TpConnectionStatus.CONNECTED
      have l2 := count_status_le_length (object_update s.accounts account)
        TpConnectionStatus.CONNECTING
      have hlen' : (object_update s.accounts account).length = s.accounts.length := by
        simp [object_update]
      rw [hlen'] at l1 l2
      obtain ⟨c1, c2⟩ := hc
      unfold CountersMatch
      simp only [EmpathyAccountManager.emit, int_wrap]
      rw [hnew] at h1 h2
      constructor
      · rw [c1]
        by_cases p : old = TpConnectionStatus.CONNECTED <;>
          by_cases q : new = TpConnectionStatus.CONNECTED <;>
          simp only [p, q, if_true, if_false] at h1 ⊢ <;> omega
      · rw [c2]
        by_cases p : old = TpConnectionStatus.CONNECTING <;>
          by_cases q : new = TpConnectionStatus.CONNECTING <;>
          simp only [p, q, if_true, if_false] at h2 ⊢ <;> omega
    · rw [if_neg ht] at hcase
      simp only [beq_iff_eq] at hcase
      rw [object_tracked_iff] at ht
      rw [hcase, object_update_of_not_tracked _ _ ht]
      exact hc
  · have hs' : ∀ old new reason, signal ≠ AccountSignal.status_changed old new reason :=
      fun old new reason h => hs ⟨old, new, reason, h⟩
    have h0 := countersMatch_object_update_same s account (keeps_counters_status hok hs') hc
    by_cases hr : signal = AccountSignal.removed
    · subst hr
      simp only [Occurrence.keeps_counters, Bool.and_eq_true, Bool.or_eq_true, beq_iff_eq] at hok
      obtain ⟨⟨hname, hstat⟩, hcase⟩ := hok
      unfold account_emits
      rcases hcase with hzero | hdis
      · rw [hzero]
        exact h0
      · rw [object_had_status_iff] at hstat
        refine (run_handlers_keeps
          (P := fun st => CountersMatch st ∧ ∀ e ∈ st.accounts, e.1 = account.unique_name →
            e.2.connection_status = TpConnectionStatus.DISCONNECTED)
          _ (removed_cb_countersMatch account) _ _ ⟨h0, ?_⟩).1
        intro e he hek
        have hd : ∀ e0 ∈ s.accounts, e0.1 = account.unique_name →
            e0.2.connection_status = TpConnectionStatus.DISCONNECTED := by
          intro e0 he0 hk0
          have hl := lookup_of_mem hw.1 he0
          rw [hk0] at hl
          rw [hl] at hdis
          simpa using hdis
        rcases mem_object_update.1 he with ⟨e0, h0m, hh0, rfl⟩ | ⟨hm, _⟩
        · rw [← hstat e0 h0m hh0]
          exact hd e0 h0m hek
        · exact hd e hm hek
    · exact run_handlers_keeps _ (callback_countersMatch availability account signal hs' hr) _ _ h0

/-- Every occurrence keeps the counters equal to the numbers of tracked
accounts per status, the accounts behaving as the counters need. -/
theorem dispatch_countersMatch (availability : TpConnectionPresenceType → Nat)
    (s : EmpathyAccountManager) (o : Occurrence) (hw : TableWellFormed s)
    (hc : CountersMatch s) (hok : Occurrence.keeps_counters s o = true) :
    CountersMatch (account_manager_dispatch availability s o) := by
  cases o with
  | validity_changed path valid =>
    simp only [account_manager_dispatch, account_validity_changed_cb]
    split
    · exact hc
    · exact add_account_countersMatch s path hc
  | got_all valid_accounts error =>
    cases error with
    | some e => exact hc
    | none =>
      simp only [account_manager_dispatch, account_manager_got_all_cb]
      exact countersMatch_of_eq
        ⟨(check_ready_coreFrame _).1, (check_ready_coreFrame _).2.1⟩
        (by rw [check_ready_accounts]) (by rw [check_ready_accounts])
        (add_accounts_countersMatch valid_accounts s hc)
  | signal account signal => exact emits_countersMatch availability s account signal hw hc hok
  | request_global_presence type status message =>
    simp only [account_manager_dispatch]
    rw [request_global_presence_eq]
    exact countersMatch_of_eq (s := s) ⟨rfl, rfl⟩ rfl rfl hc
  | created account_path error result =>
    cases error with
    | some e => exact hc
    | none =>
      simp only [account_manager_dispatch, empathy_account_manager_created_cb]
      split
      · exact add_account_countersMatch s account_path hc
      · exact countersMatch_of_eq (s := (account_manager_add_account s account_path).1)
          ⟨rfl, rfl⟩ rfl rfl (add_account_countersMatch s account_path hc)
  | create_account_finish result =>
    simp only [account_manager_dispatch, empathy_account_manager_create_account_finish]
    split
    · exact hc
    · exact countersMatch_of_eq (s := s) ⟨rfl, rfl⟩ rfl rfl hc
  | remove account => exact hc

theorem history_countersMatch (availability : TpConnectionPresenceType → Nat)
    (history : List Occurrence) (s : EmpathyAccountManager) (hw : TableWellFormed s)
    (hc : CountersMatch s)
    (ha : history_meets availability Occurrence.keeps_counters s history = true) :
    CountersMatch (account_manager_history availability s history) := by
  induction history generalizing s with
  | nil => exact hc
  | cons o os ih =>
    simp only [history_meets, Bool.and_eq_true] at ha
    exact ih _
      (dispatch_wellFormed availability s o
        (fun account signal ho => keeps_counters_name (ho ▸ ha.1)) hw)
      (dispatch_countersMatch availability s o hw hc ha.1) ha.2

/-! ## Signal dispatch and the cached leader -/

theorem keeps_leader_name {s : EmpathyAccountManager} {account : EmpathyAccount}
    {signal : AccountSignal}
    (h : Occurrence.keeps_leader s (Occurrence.signal account signal) = true) :
    object_keeps_name s account = true := by
  cases signal <;> simp only [Occurrence.keeps_leader, Bool.and_eq_true] at h
  · exact h
  · exact h
  · exact h
  · exact h
  · exact h.1
  · exact h.1

theorem leaderTracked_object_update (s : EmpathyAccountManager) (a : EmpathyAccount)
    (hl : LeaderTracked s) : LeaderTracked { s with accounts := object_update s.accounts a } :=
  leaderTracked_of (s := s) rfl
    (fun h hh => by
      show h ∈ table_handles (object_update s.accounts a)
      rw [object_update_handles]
      exact hh) hl

/-- The handlers other than the one of presence-changed and the one of removal
keep the cached leader and the table. -/
theorem callback_leaderTracked (availability : TpConnectionPresenceType → Nat)
    (account : EmpathyAccount) (signal : AccountSignal)
    (hp : ∀ presence status status_message,
      signal ≠ AccountSignal.presence_changed presence status status_message)
    (hr : signal ≠ AccountSignal.removed) (s : EmpathyAccountManager) (hl : LeaderTracked s) :
    LeaderTracked (signal.callback availability account s) := by
  cases signal with
  | notify_ready =>
    exact leaderTracked_of (ready_cb_coreFrame s account).2.2
      (fun h hh => by
        rw [show (AccountSignal.notify_ready.callback availability account s).accounts =
          s.accounts from ready_cb_accounts s account]
        exact hh) hl
  | notify_connection =>
    have h := connection_cb_frame s account
    exact leaderTracked_of h.2.2.2.2
      (fun x hh => by
        rw [show (AccountSignal.notify_connection.callback availability account s).accounts =
          s.accounts from h.1]
        exact hh) hl
  | notify_enabled =>
    have h := enabled_cb_frame s account
    exact leaderTracked_of h.2.2.2.2
      (fun x hh => by
        rw [show (AccountSignal.notify_enabled.callback availability account s).accounts =
          s.accounts from h.1]
        exact hh) hl
  | status_changed old new reason =>
    show LeaderTracked (emp_account_status_changed_cb s account old new reason)
    rw [status_changed_cb_eq]
    exact leaderTracked_of (s := s) rfl (fun x hh => hh) hl
  | presence_changed presence status status_message => exact absurd rfl (hp _ _ _)
  | removed => exact absurd rfl hr

/-- The removal handler keeps the cached leader none or tracked when the
account stored under the removed name is not the leader. -/
theorem removed_cb_leaderTracked (account : EmpathyAccount) (s : EmpathyAccountManager)
    (h : LeaderTracked s ∧ ∀ e ∈ s.accounts, e.1 = account.unique_name →
      s.global_account ≠ some e.2.handle) :
    LeaderTracked (emp_account_removed_cb s account) ∧
      ∀ e ∈ (emp_account_removed_cb s account).accounts, e.1 = account.unique_name →
        (emp_account_removed_cb s account).global_account ≠ some e.2.handle := by
  obtain ⟨hl, hn⟩ := h
  constructor
  · intro h hh
    have hh' : s.global_account = some h := hh
    have hin := hl h hh'
    simp only [table_handles, List.mem_map] at hin
    obtain ⟨e, he, heh⟩ := hin
    have hne : e.1 ≠ account.unique_name := by
      intro hek
      apply hn e he hek
      rw [hh', heh]
    have hkeep : e ∈ g_hash_table_remove s.accounts account.unique_name := by
      simp [g_hash_table_remove, List.mem_filter, he, hne]
    exact heh ▸ List.mem_map_of_mem (fun e => e.2.handle) hkeep
  · intro e he
    exact hn e (List.mem_of_mem_filter he)

/-- The signal of an account object keeps the cached leader none or tracked,
the account behaving as the cached leader needs. -/
theorem emits_leaderTracked (availability : TpConnectionPresenceType → Nat)
    (s : EmpathyAccountManager) (account : EmpathyAccount) (signal : AccountSignal)
    (hw : TableWellFormed s) (hl : LeaderTracked s)
    (hok : Occurrence.keeps_leader s (Occurrence.signal account signal) = true) :
    LeaderTracked (account_emits availability s account signal) := by
  have h0 := leaderTracked_object_update s account hl
  by_cases hp : ∃ presence status status_message,
      signal = AccountSignal.presence_changed presence status status_message
  · obtain ⟨presence, status, status_message, rfl⟩ := hp
    simp only [Occurrence.keeps_leader, Bool.and_eq_true, Bool.or_eq_true, beq_iff_eq] at hok
    unfold account_emits
    rcases hok.2 with hzero | ht
    · rw [hzero]
      exact h0
    · rw [object_tracked_iff, ← object_update_handles s.accounts account] at ht
      refine (run_handlers_keeps
        (P := fun st => LeaderTracked st ∧ account.handle ∈ table_handles st.accounts)
        _ ?_ _ _ ⟨h0, ht⟩).1
      intro st hst
      constructor
      · exact presence_changed_cb_leaderTracked availability st account presence status
          status_message hst.2 hst.1
      · show account.handle ∈ table_handles (emp_account_presence_changed_cb availability st
          account presence status status_message).accounts
        rw [presence_changed_cb_accounts]
        exact hst.2
  · have hp' : ∀ presence status status_message,
        signal ≠ AccountSignal.presence_changed presence status status_message :=
      fun presence status status_message h => hp ⟨presence, status, status_message, h⟩
    by_cases hr : signal = AccountSignal.removed
    · subst hr
      simp only [Occurrence.keeps_leader, Bool.and_eq_true, Bool.or_eq_true, beq_iff_eq] at hok
      unfold account_emits
      rcases hok.2 with hzero | hnot
      · rw [hzero]
        exact h0
      · refine (run_handlers_keeps
          (P := fun st => LeaderTracked st ∧ ∀ e ∈ st.accounts, e.1 = account.unique_name →
            st.global_account ≠ some e.2.handle)
          _ (removed_cb_leaderTracked account) _ _ ⟨h0, ?_⟩).1
        intro e he hek
        have hd : ∀ e0 ∈ s.accounts, e0.1 = account.unique_name →
            s.global_account ≠ some e0.2.handle := by
          intro e0 he0 hk0
          have hlk := lookup_of_mem hw.1 he0
          rw [hk0] at hlk
          rw [hlk] at hnot
          simpa using hnot
        rcases mem_object_update.1 he with ⟨e0, h0m, hh0, rfl⟩ | ⟨hm, _⟩
        · have := hd e0 h0m hek
          rw [hh0] at this
          exact this
        · exact hd e hm hek
    · exact run_handlers_keeps _ (callback_leaderTracked availability account signal hp' hr) _ _ h0

/-- Every occurrence keeps the cached leader none or tracked, the accounts
behaving as the cached leader needs. -/
theorem dispatch_leaderTracked (availability : TpConnectionPresenceType → Nat)
    (s : EmpathyAccountManager) (o : Occurrence) (hw : TableWellFormed s)
    (hl : LeaderTracked s) (hok : Occurrence.keeps_leader s o = true) :
    LeaderTracked (account_manager_dispatch availability s o) := by
  cases o with
  | validity_changed path valid =>
    simp only [account_manager_dispatch, account_validity_changed_cb]
    split
    · exact hl
    · exact add_account_leaderTracked s path hl
  | got_all valid_accounts error =>
    cases error with
    | some e => exact hl
    | none =>
      simp only [account_manager_dispatch, account_manager_got_all_cb]
      exact leaderTracked_of (check_ready_coreFrame _).2.2
        (fun h hh => by rw [check_ready_accounts]; exact hh)
        (add_accounts_leaderTracked valid_accounts s hl)
  | signal account signal => exact emits_leaderTracked availability s account signal hw hl hok
  | request_global_presence type status message =>
    simp only [account_manager_dispatch]
    rw [request_global_presence_eq]
    exact hl
  | created account_path error result =>
    cases error with
    | some e => exact hl
    | none =>
      simp only [account_manager_dispatch, empathy_account_manager_created_cb]
      split
      · exact add_account_leaderTracked s account_path hl
      · exact leaderTracked_of (s := (account_manager_add_account s account_path).1) rfl
          (fun h hh => hh) (add_account_leaderTracked s account_path hl)
  | create_account_finish result =>
    simp only [account_manager_dispatch, empathy_account_manager_create_account_finish]
    split
    · exact hl
    · exact leaderTracked_of (s := s) rfl (fun h hh => hh) hl
  | remove account => exact hl

theorem history_leaderTracked (availability : TpConnectionPresenceType → Nat)
    (history : List Occurrence) (s : EmpathyAccountManager) (hw : TableWellFormed s)
    (hl : LeaderTracked s)
    (ha : history_meets availability Occurrence.keeps_leader s history = true) :
    LeaderTracked (account_manager_history availability s history) := by
  induction history generalizing s with
  | nil => exact hl
  | cons o os ih =>
    simp only [history_meets, Bool.and_eq_true] at ha
    exact ih _
      (dispatch_wellFormed availability s o
        (fun account signal ho => keeps_leader_name (ho ▸ ha.1)) hw)
      (dispatch_leaderTracked availability s o hw hl ha.1) ha.2

/-! ## The counters in every reachable state -/

/-- C27, amended: in every state reached from a freshly initialised manager by
occurrences in which the accounts behave as `Occurrence.keeps_counters` says
(an object keeps its unique name; its connection status changes only with a
status-changed signal carrying the status it had and the status it has; that
signal comes from a tracked account whose handler is connected exactly once, or
from an untracked object with no handler connected, the table having no more
than `G_MAXINT` accounts; the removal handler only runs while the account
stored under the removed name is disconnected), the connected counter is the
number of tracked accounts that are connected and the connecting counter the
number of those that are connecting, so neither is negative or larger than the
count.  `emp_account_removed_cb` itself leaves both counters as they are. -/
theorem counters_match_tracked (availability : TpConnectionPresenceType → Nat)
    (history : List Occurrence)
    (ha : history_meets availability Occurrence.keeps_counters empathy_account_manager_init
      history = true) :
    (empathy_account_manager_get_connected_accounts
        (account_manager_history availability empathy_account_manager_init history) =
      (count_status (account_manager_history availability empathy_account_manager_init
        history).accounts TpConnectionStatus.CONNECTED : Int) ∧
     empathy_account_manager_get_connecting_accounts
        (account_manager_history availability empathy_account_manager_init history) =
      (count_status (account_manager_history availability empathy_account_manager_init
        history).accounts TpConnectionStatus.CONNECTING : Int)) ∧
    (0 ≤ empathy_account_manager_get_connected_accounts
        (account_manager_history availability empathy_account_manager_init history) ∧
     empathy_account_manager_get_connected_accounts
        (account_manager_history availability empathy_account_manager_init history) ≤
      empathy_account_manager_get_count
        (account_manager_history availability empathy_account_manager_init history)) ∧
    (0 ≤ empathy_account_manager_get_connecting_accounts
        (account_manager_history availability empathy_account_manager_init history) ∧
     empathy_account_manager_get_connecting_accounts
        (account_manager_history availability empathy_account_manager_init history) ≤
      empathy_account_manager_get_count
        (account_manager_history availability empathy_account_manager_init history)) ∧
    (∀ (s : EmpathyAccountManager) (account : EmpathyAccount),
      empathy_account_manager_get_connected_accounts (emp_account_removed_cb s account) =
        empathy_account_manager_get_connected_accounts s ∧
      empathy_account_manager_get_connecting_accounts (emp_account_removed_cb s account) =
        empathy_account_manager_get_connecting_accounts s) := by
  have hc := history_countersMatch availability history empathy_account_manager_init
    wellFormed_init (by decide) ha
  have l1 := count_status_le_length
    (account_manager_history availability empathy_account_manager_init history).accounts
    TpConnectionStatus.CONNECTED
  have l2 := count_status_le_length
    (account_manager_history availability empathy_account_manager_init history).accounts
    TpConnectionStatus.CONNECTING
  unfold CountersMatch at hc
  simp only [empathy_account_manager_get_connected_accounts,
    empathy_account_manager_get_connecting_accounts, empathy_account_manager_get_count,
    g_hash_table_size]
  refine ⟨hc, ⟨?_, ?_⟩, ⟨?_, ?_⟩, fun s account => ⟨rfl, rfl⟩⟩ <;> omega

/-- C27, amended, at a concrete input: `/a` connects, `/b` starts connecting,
`/a` disconnects and is removed; one account is left, and it is connecting. -/
theorem counters_match_tracked_witness :
    history_meets tp_availability Occurrence.keeps_counters empathy_account_manager_init
      connect_and_remove_history = true ∧
    (empathy_account_manager_get_connected_accounts
        (account_manager_history tp_availability empathy_account_manager_init
          connect_and_remove_history) =
      (count_status (account_manager_history tp_availability empathy_account_manager_init
        connect_and_remove_history).accounts TpConnectionStatus.CONNECTED : Int) ∧
     empathy_account_manager_get_connecting_accounts
        (account_manager_history tp_availability empathy_account_manager_init
          connect_and_remove_history) =
      (count_status (account_manager_history tp_availability empathy_account_manager_init
        connect_and_remove_history).accounts TpConnectionStatus.CONNECTING : Int)) ∧
    empathy_account_manager_get_connecting_accounts
      (account_manager_history tp_availability empathy_account_manager_init
        connect_and_remove_history) = 1 :=
  ⟨by decide,
    (counters_match_tracked tp_availability connect_and_remove_history (by decide)).1,
    by decide⟩

/-- C27 as stated fails, in three ways.  `/a` is removed while connected: no
account is tracked any more, yet the connected counter says one.  `/a` is
notified ready twice, so its status handler is connected twice and runs twice
when `/a` starts connecting: the connecting counter says two with one account
connecting.  `/a` starts connecting before it was ever ready, so no handler
runs: the connecting counter says zero with one account connecting. -/
theorem counters_differ_from_tracked :
    (empathy_account_manager_get_connected_accounts
        (account_manager_history tp_availability empathy_account_manager_init
          remove_connected_history) = 1 ∧
      count_status (account_manager_history tp_availability empathy_account_manager_init
        remove_connected_history).accounts TpConnectionStatus.CONNECTED = 0 ∧
      empathy_account_manager_get_count
        (account_manager_history tp_availability empathy_account_manager_init
          remove_connected_history) = 0) ∧
    (handler_connections
        (account_manager_history tp_availability empathy_account_manager_init
          (ready_twice_history.take 4)) 1
        (AccountSignal.status_changed TpConnectionStatus.DISCONNECTED
          TpConnectionStatus.CONNECTING 1) = 2 ∧
      empathy_account_manager_get_connecting_accounts
        (account_manager_history tp_availability empathy_account_manager_init
          ready_twice_history) = 2 ∧
      count_status (account_manager_history tp_availability empathy_account_manager_init
        ready_twice_history).accounts TpConnectionStatus.CONNECTING = 1) ∧
    (empathy_account_manager_get_connecting_accounts
        (account_manager_history tp_availability empathy_account_manager_init
          never_ready_history) = 0 ∧
      count_status (account_manager_history tp_availability empathy_account_manager_init
        never_ready_history).accounts TpConnectionStatus.CONNECTING = 1) := by
  decide

/-! ## The cached leader in every reachable state -/

/-- C28, amended: in every state reached from a freshly initialised manager by
occurrences in which the accounts behave as `Occurrence.keeps_leader` says (an
object keeps its unique name; a presence-changed signal whose handler runs
comes from an account of the table; the removal handler only runs while the
account stored under the removed name is not the cached leader), the cached
leader is none or an account of the table.  `emp_account_removed_cb` itself
never touches the cached leader, so removing the leader leaves it cached. -/
theorem leader_tracked_unless_removed (availability : TpConnectionPresenceType → Nat)
    (history : List Occurrence)
    (ha : history_meets availability Occurrence.keeps_leader empathy_account_manager_init
      history = true) :
    ((account_manager_history availability empathy_account_manager_init history).global_account =
        none ∨
      ∃ e ∈ (account_manager_history availability empathy_account_manager_init
          history).accounts,
        (account_manager_history availability empathy_account_manager_init
          history).global_account = some e.2.handle) ∧
    (∀ (s : EmpathyAccountManager) (account : EmpathyAccount),
      (emp_account_removed_cb s account).global_account = s.global_account) := by
  have hl := history_leaderTracked availability history empathy_account_manager_init
    wellFormed_init (by decide) ha
  refine ⟨?_, fun s account => rfl⟩
  cases hg : (account_manager_history availability empathy_account_manager_init
      history).global_account with
  | none => exact Or.inl rfl
  | some h =>
    right
    have := hl h hg
    simp only [table_handles, List.mem_map] at this
    obtain ⟨e, he, heh⟩ := this
    exact ⟨e, he, by rw [heh]⟩

/-- C28, amended, at a concrete input: `/a` (available) leads, `/b` is away and
is removed; the leader is still `/a`, which is in the table. -/
theorem leader_tracked_unless_removed_witness :
    history_meets tp_availability Occurrence.keeps_leader empathy_account_manager_init
      remove_follower_history = true ∧
    ((account_manager_history tp_availability empathy_account_manager_init
        remove_follower_history).global_account = none ∨
      ∃ e ∈ (account_manager_history tp_availability empathy_account_manager_init
          remove_follower_history).accounts,
        (account_manager_history tp_availability empathy_account_manager_init
          remove_follower_history).global_account = some e.2.handle) ∧
    (account_manager_history tp_availability empathy_account_manager_init
      remove_follower_history).global_account = some 1 :=
  ⟨by decide,
    (leader_tracked_unless_removed tp_availability remove_follower_history (by decide)).1,
    by decide⟩

/-- C28 as stated fails, in two ways.  `/a` (available) leads and is removed:
the cached leader is still the handle of `/a`, which is not in the table any
more.  `/b`, which does not lead, is removed and its object, still alive, goes
available: its presence handler is still connected and makes it the cached
leader although it is not in the table. -/
theorem leader_untracked_after_removal :
    ((account_manager_history tp_availability empathy_account_manager_init
        remove_leader_history).global_account = some 1 ∧
      table_handles (account_manager_history tp_availability empathy_account_manager_init
        remove_leader_history).accounts = [2] ∧
      ¬ LeaderTracked (account_manager_history tp_availability empathy_account_manager_init
        remove_leader_history)) ∧
    ((account_manager_history tp_availability empathy_account_manager_init
        removed_account_outranks_history).global_account = some 2 ∧
      table_handles (account_manager_history tp_availability empathy_account_manager_init
        removed_account_outranks_history).accounts = [1] ∧
      ¬ LeaderTracked (account_manager_history tp_availability empathy_account_manager_init
        removed_account_outranks_history)) := by
  decide

/-! ## Events and signal dispatch

An event of a tracked account is the emission of its signal at a moment when
the handler is connected exactly once. -/

theorem account_update_eq_object_update (s : EmpathyAccountManager) (name : String)
    (f : EmpathyAccount → EmpathyAccount) (before : EmpathyAccount) (hw : TableWellFormed s)
    (hl : g_hash_table_lookup s.accounts name = some before)
    (hf : (f before).handle = before.handle) :
    account_update s.accounts name f = object_update s.accounts (f before) := by
  have hm := lookup_some_mem hl
  unfold account_update object_update
  apply List.map_congr_left
  intro e he
  by_cases hn : e.1 = name
  · have hee : e = (name, e.2) := by rw [← hn]
    have : e.2 = before := nodup_keys_unique hw.1 (hee ▸ he) hm
    simp [hn, this, hf]
  · have hne : e.2.handle ≠ (f before).handle := by
      intro hc
      rw [hf] at hc
      have := List.inj_on_of_nodup_map hw.2.1 he hm hc
      exact hn (by rw [this])
    simp [hn, hne]

theorem signal_eq_emits (availability : TpConnectionPresenceType → Nat)
    (s : EmpathyAccountManager) (name : String) (f : EmpathyAccount → EmpathyAccount)
    (before : EmpathyAccount) (signal : AccountSignal) (hw : TableWellFormed s)
    (hl : g_hash_table_lookup s.accounts name = some before)
    (hf : (f before).handle = before.handle)
    (hone : handler_connections s before.handle signal = 1) :
    account_signal s name f (fun st a => signal.callback availability a st) =
      account_emits availability s (f before) signal := by
  unfold account_signal account_emits
  rw [hl, hf, hone, account_update_eq_object_update s name f before hw hl hf]
  rfl

/-- Each event of a tracked account is the emission of the signal by the
account object, dispatched to a handler that is connected exactly once. -/
theorem step_eq_dispatch (availability : TpConnectionPresenceType → Nat)
    (s : EmpathyAccountManager) (name : String) (before : EmpathyAccount)
    (hw : TableWellFormed s) (hl : g_hash_table_lookup s.accounts name = some before) :
    (∀ ready, handler_connections s before.handle AccountSignal.notify_ready = 1 →
      account_manager_step availability s (Event.account_ready name ready) =
        account_manager_dispatch availability s
          (Occurrence.signal { before with ready := ready } AccountSignal.notify_ready)) ∧
    (∀ connection, handler_connections s before.handle AccountSignal.notify_connection = 1 →
      account_manager_step availability s (Event.account_connection name connection) =
        account_manager_dispatch availability s
          (Occurrence.signal { before with connection := connection }
            AccountSignal.notify_connection)) ∧
    (∀ enabled, handler_connections s before.handle AccountSignal.notify_enabled = 1 →
      account_manager_step availability s (Event.account_enabled name enabled) =
        account_manager_dispatch availability s
          (Occurrence.signal { before with enabled := enabled } AccountSignal.notify_enabled)) ∧
    (∀ new reason,
      handler_connections s before.handle
        (AccountSignal.status_changed before.connection_status new reason) = 1 →
      account_manager_step availability s (Event.account_status_changed name new reason) =
        account_manager_dispatch availability s
          (Occurrence.signal { before with connection_status := new }
            (AccountSignal.status_changed before.connection_status new reason))) ∧
    (∀ presence status status_message,
      handler_connections s before.handle
        (AccountSignal.presence_changed presence status status_message) = 1 →
      account_manager_step availability s
          (Event.account_presence_changed name presence status status_message) =
        account_manager_dispatch availability s
          (Occurrence.signal (account_set_presence presence status status_message before)
            (AccountSignal.presence_changed presence status status_message))) ∧
    (handler_connections s before.handle AccountSignal.removed = 1 →
      account_manager_step availability s (Event.account_removed name) =
        account_manager_dispatch availability s
          (Occurrence.signal before AccountSignal.removed)) := by
  refine ⟨?_, ?_, ?_, ?_, ?_, ?_⟩
  · intro ready h1
    exact signal_eq_emits availability s name (fun a => { a with ready := ready }) before
      AccountSignal.notify_ready hw hl rfl h1
  · intro connection h1
    exact signal_eq_emits availability s name (fun a => { a with connection := connection })
      before AccountSignal.notify_connection hw hl rfl h1
  · intro enabled h1
    exact signal_eq_emits availability s name (fun a => { a with enabled := enabled }) before
      AccountSignal.notify_enabled hw hl rfl h1
  · intro new reason h1
    have := signal_eq_emits availability s name (fun a => { a with connection_status := new })
      before (AccountSignal.status_changed before.connection_status new reason) hw hl rfl h1
    simp only [account_manager_step, account_manager_dispatch, hl]
    exact this
  · intro presence status status_message h1
    exact signal_eq_emits availability s name
      (account_set_presence presence status status_message) before
      (AccountSignal.presence_changed presence status status_message) hw hl rfl h1
  · intro h1
    exact signal_eq_emits availability s name id before AccountSignal.removed hw hl rfl h1

end Empathy
